import Mathlib

/-!
Verification of the httpyac-ui bidirectional synchronization engine.

This file shallowly embeds the core of the repository:
  * the text codec (`HttpGenerator.generate` and
    `CollectionParser.parseHttpText` / `detectBodyType`),
  * the tree walker (`CollectionParser.parseFolder` / `parseHttpFile`),
  * the change coordinator (`FileSyncService.saveRequest` /
    `writeRequest` / `onFileChanged`),
and proves the spec's testable properties about the embedding.

Strings are modelled as `List Char` (`Str`); JavaScript strings are
sequences of code units, and the sources only use scalar-safe
operations, so unicode scalar sequences are a faithful model.
JavaScript `trim` and the regex class `\s` are modelled with the ASCII
whitespace characters that can actually occur in the formats at hand.
-/

/-- Model of a JavaScript string: a list of unicode scalars. -/
abbrev Str := List Char

/-- Build a `Str` from a Lean string literal. -/
def str (s : String) : Str := s.data

/-- The JS `\s` class / `trim` character set: ASCII whitespace plus the
Unicode space separators, NBSP, the line separators and the BOM. -/
def isWS (c : Char) : Bool :=
  c = ' ' || c = '\t' || c = '\n' || c = '\r' || c = '\x0b' || c = '\x0c' ||
  c = '\u00A0' || c = '\u1680' || (0x2000 ≤ c.toNat && c.toNat ≤ 0x200A) ||
  c = '\u2028' || c = '\u2029' || c = '\u202F' || c = '\u205F' ||
  c = '\u3000' || c = '\uFEFF'

/-- JS line terminators: the characters the regex `.` never matches
(without the `s` flag). -/
def isLineTerm (c : Char) : Bool :=
  c = '\n' || c = '\r' || c = '\u2028' || c = '\u2029'

/-- Model of JS `String.prototype.trimStart`. -/
def trimLeft (s : Str) : Str := s.dropWhile isWS

/-- Model of JS `String.prototype.trimEnd`. -/
def trimRight (s : Str) : Str := (s.reverse.dropWhile isWS).reverse

/-- Model of JS `String.prototype.trim`. -/
def trim (s : Str) : Str := trimRight (trimLeft s)

/-- Model of JS `String.prototype.startsWith`. -/
def startsWith (p s : Str) : Bool := p.isPrefixOf s

/-- Model of JS `String.prototype.endsWith`. -/
def endsWith (p s : Str) : Bool := p.isSuffixOf s

/-- Model of JS `String.prototype.includes`. -/
def strContains (s sub : Str) : Bool :=
  match s with
  | [] => sub = []
  | _ :: tl => startsWith sub s || strContains tl sub

/-- Model of JS `String.prototype.split` with a one-character
separator. Always returns a non-empty list of pieces. -/
def splitOnChar (c : Char) : Str → List Str
  | [] => [[]]
  | x :: xs =>
    match splitOnChar c xs with
    | [] => [[]]
    | h :: t => if x = c then [] :: h :: t else (x :: h) :: t

/-- Join pieces with a one-character separator (JS `Array.join`). -/
def joinWithChar (c : Char) (ls : List Str) : Str := List.intercalate [c] ls

/-- `text.split('\n')` as used by the parser. -/
def splitLines (s : Str) : List Str := splitOnChar '\n' s

/-- `lines.join('\n')` as used by the generator. -/
def joinLines (ls : List Str) : Str := joinWithChar '\n' ls

/-- ASCII upper-casing of one character (JS `toUpperCase` restricted to
the ASCII range used by the method enumeration). -/
def toUpperAscii (c : Char) : Char :=
  if 'a' ≤ c && c ≤ 'z' then Char.ofNat (c.toNat - 32) else c

/-- ASCII lower-casing of one character (JS `toLowerCase` restricted to
the ASCII range used by header names and content types). -/
def toLowerAscii (c : Char) : Char :=
  if 'A' ≤ c && c ≤ 'Z' then Char.ofNat (c.toNat + 32) else c

/-- Lower-case a string, ASCII model of JS `toLowerCase`. -/
def lowerStr (s : Str) : Str := s.map toLowerAscii

/-- Upper-case a string, ASCII model of JS `toUpperCase`. -/
def upperStr (s : Str) : Str := s.map toUpperAscii

/-! ## Data model (src/ui/types: UIRequest and friends) -/

/-- The fixed HTTP method enumeration of the data model. -/
inductive HttpMethod
  | GET | POST | PUT | DELETE | PATCH | HEAD | OPTIONS | CONNECT | TRACE
deriving DecidableEq, Repr

/-- A request header: key, value and an enabled flag. -/
structure RequestHeader where
  key : Str
  value : Str
  enabled : Bool
deriving DecidableEq, Repr

/-- A query parameter: key, value and an enabled flag. -/
structure QueryParam where
  key : Str
  value : Str
  enabled : Bool
deriving DecidableEq, Repr

/-- One form-data entry of a `formdata` body. -/
structure FormDataEntry where
  key : Str
  value : Str
  enabled : Bool
deriving DecidableEq, Repr

/-- The tagged union of request bodies.  The TS type is a record with a
`type` tag and optional `content` / `formData` / `graphql` payloads;
the inductive keeps exactly the payloads each tag reads (a missing
optional `content` string and the empty string behave identically in
the sources, which only use `body.content || ''` and truthiness). -/
inductive RequestBody
  | none
  | json (content : Str)
  | raw (content : Str)
  | form (content : Str)
  | formdata (formData : List FormDataEntry) (content : Str)
  | graphql (query : Str) (gqlVars : Option Str)
  | binary (content : Str)
deriving DecidableEq, Repr

/-- The structured request model (TS `UIRequest`).  The `id` field of
the TS type is the file URI string (or a `Date.now()` fallback that is
outside a timeless model) and is carried here by `fileUri`. -/
structure UIRequest where
  name : Str
  description : Option Str := Option.none
  tags : Option (List Str) := Option.none
  method : HttpMethod
  url : Str
  headers : List RequestHeader
  queryParams : List QueryParam
  body : RequestBody
  preRequest : Option Str := Option.none
  tests : Option Str := Option.none
  fileUri : Option Str := Option.none
deriving DecidableEq, Repr

/-! ## encodeURIComponent (JS builtin used by `HttpGenerator.buildUrl`) -/

/-- The characters `encodeURIComponent` leaves unescaped:
`A–Z a–z 0–9 - _ . ! ~ * ' ( )`. -/
def uriUnreserved (c : Char) : Bool :=
  ('A' ≤ c && c ≤ 'Z') || ('a' ≤ c && c ≤ 'z') || ('0' ≤ c && c ≤ '9') ||
  c = '-' || c = '_' || c = '.' || c = '!' || c = '~' || c = '*' ||
  c = '\'' || c = '(' || c = ')'

/-- Upper-case hexadecimal digit of a value below 16. -/
def hexDigitUpper (n : Nat) : Char :=
  if n < 10 then Char.ofNat (48 + n) else Char.ofNat (55 + n)

/-- UTF-8 bytes of one unicode scalar. -/
def utf8Bytes (c : Char) : List Nat :=
  let n := c.toNat
  if n < 0x80 then [n]
  else if n < 0x800 then [0xc0 + n / 64, 0x80 + n % 64]
  else if n < 0x10000 then
    [0xe0 + n / 4096, 0x80 + (n / 64) % 64, 0x80 + n % 64]
  else
    [0xf0 + n / 262144, 0x80 + (n / 4096) % 64, 0x80 + (n / 64) % 64,
     0x80 + n % 64]

/-- Percent-escape of one character: each UTF-8 byte as `%XX`. -/
def percentEscapeChar (c : Char) : Str :=
  (utf8Bytes c).flatMap fun b => ['%', hexDigitUpper (b / 16), hexDigitUpper (b % 16)]

/-- Model of the JS builtin `encodeURIComponent`. -/
def encodeURIComponent (s : Str) : Str :=
  s.flatMap fun c => if uriUnreserved c then [c] else percentEscapeChar c

/-! ## HttpGenerator (src/ui/httpGenerator.ts) -/

/-- JSON string escaping as performed by `JSON.stringify` on a string:
quote, backslash, and control characters are escaped. -/
def jsonEscapeChar (c : Char) : Str :=
  if c = '"' then ['\\', '"']
  else if c = '\\' then ['\\', '\\']
  else if c = '\n' then ['\\', 'n']
  else if c = '\r' then ['\\', 'r']
  else if c = '\t' then ['\\', 't']
  else if c = '\x08' then ['\\', 'b']
  else if c = '\x0c' then ['\\', 'f']
  else if c.toNat < 0x20 then
    ['\\', 'u', '0', '0', hexDigitUpper (c.toNat / 16), hexDigitUpper (c.toNat % 16)]
  else [c]

/-- `JSON.stringify` of a string value. -/
def jsonStringifyStr (s : Str) : Str := '"' :: s.flatMap jsonEscapeChar ++ ['"']

/-- `JSON.stringify({query, variables?}, null, 2)` as emitted by the
generator's graphql branch.  The source first tries
`JSON.parse(variables)` and embeds the parsed value; when parsing
fails the raw string is embedded.  The embedded-object re-serialization
of *valid* JSON variables is not modelled (no claim depends on it);
the string embedding used on the parse-failure path is. -/
def gqlRender (query : Str) (gqlVars : Option Str) : Str :=
  match gqlVars with
  | Option.none =>
    str ("\x7b") ++ str ("\n  \"query\": ") ++ jsonStringifyStr query ++ str ("\n\x7d")
  | Option.some v =>
    str ("\x7b") ++ str ("\n  \"query\": ") ++ jsonStringifyStr query ++
    str (",\n  \"variables\": ") ++ jsonStringifyStr v ++ str ("\n\x7d")

/-- `HttpGenerator.generateBody`: body rendering per body type;
`Option.none` models the `undefined` returns. -/
def generateBody (r : UIRequest) : Option Str :=
  match r.body with
  | RequestBody.none => Option.none
  | RequestBody.json content => Option.some content
  | RequestBody.raw content => Option.some content
  | RequestBody.form content => Option.some content
  | RequestBody.formdata formData content =>
    if formData ≠ [] then
      Option.some (joinLines ((formData.filter (·.enabled)).map
        fun f => f.key ++ '=' :: f.value))
    else Option.some content
  | RequestBody.graphql q vars => Option.some (gqlRender q vars)
  | RequestBody.binary content =>
    if content ≠ [] then Option.some (str ("< ") ++ content) else Option.none

/-- The display name of an HTTP method. -/
def methodName : HttpMethod → Str
  | HttpMethod.GET => str ("GET")
  | HttpMethod.POST => str ("POST")
  | HttpMethod.PUT => str ("PUT")
  | HttpMethod.DELETE => str ("DELETE")
  | HttpMethod.PATCH => str ("PATCH")
  | HttpMethod.HEAD => str ("HEAD")
  | HttpMethod.OPTIONS => str ("OPTIONS")
  | HttpMethod.CONNECT => str ("CONNECT")
  | HttpMethod.TRACE => str ("TRACE")

/-- `HttpGenerator.buildUrl`: re-append the enabled, non-empty-key
query parameters, percent-encoded, to the base URL. -/
def buildUrl (baseUrl : Str) (queryParams : List QueryParam) : Str :=
  let enabledParams := queryParams.filter fun p => p.enabled && p.key ≠ []
  if enabledParams = [] then baseUrl
  else
    let queryString := joinWithChar '&' (enabledParams.map fun p =>
      encodeURIComponent p.key ++ '=' :: encodeURIComponent p.value)
    baseUrl ++ '?' :: queryString

/-- The `lines` array built by `HttpGenerator.generate`, before the
final `join('\n')`. -/
def generateLines (r : UIRequest) : List Str :=
  let metaLines : List Str :=
    (if r.name ≠ [] then [str ("# @name ") ++ r.name] else []) ++
    (match r.description with
     | Option.some d => [str ("# @description ") ++ d]
     | Option.none => []) ++
    (match r.tags with
     | Option.some ts =>
       if ts ≠ [] then [str ("# @tag ") ++ List.intercalate (str (", ")) ts] else []
     | Option.none => [])
  let metaBlock := if metaLines ≠ [] then metaLines ++ [[]] else []
  let preBlock : List Str :=
    match r.preRequest with
    | Option.some p =>
      if trim p ≠ [] then
        [str ("\x7b\x7b"), str ("  // @pre")] ++
        ((splitLines p).map fun l => str ("  ") ++ l) ++ [str ("\x7d\x7d"), []]
      else []
    | Option.none => []
  let requestLine := methodName r.method ++ ' ' :: buildUrl r.url r.queryParams
  let headerLines := (r.headers.filter fun h => h.enabled && h.key ≠ []).map
    fun h => h.key ++ str (": ") ++ h.value
  let bodyBlock : List Str :=
    match generateBody r with
    | Option.some b => if b ≠ [] then [[], b] else []
    | Option.none => []
  let testBlock : List Str :=
    match r.tests with
    | Option.some t =>
      if trim t ≠ [] then
        [[], str ("\x7b\x7b")] ++ ((splitLines t).map fun l => str ("  ") ++ l) ++
        [str ("\x7d\x7d")]
      else []
    | Option.none => []
  metaBlock ++ preBlock ++ [requestLine] ++ headerLines ++ bodyBlock ++
    testBlock ++ [[], str ("###")]

/-- `HttpGenerator.generate`: full `.http` text of a request. -/
def generate (r : UIRequest) : Str := joinLines (generateLines r)

/-! ## URLSearchParams (JS builtin used by `parseHttpText`) -/

/-- Is a byte an ASCII hex digit (used by percent-decoding)? -/
def isHexDigitByte (b : Nat) : Bool :=
  (48 ≤ b && b ≤ 57) || (65 ≤ b && b ≤ 70) || (97 ≤ b && b ≤ 102)

/-- Numeric value of an ASCII hex-digit byte. -/
def hexDigitVal (b : Nat) : Nat :=
  if b ≤ 57 then b - 48 else if b ≤ 70 then b - 55 else b - 87

/-- The UTF-8 bytes of a string. -/
def strBytes (s : Str) : List Nat := s.flatMap utf8Bytes

/-- WHATWG percent-decoding on bytes: `%XY` with two hex digits becomes
one byte, everything else passes through. -/
def percentDecodeBytes : List Nat → List Nat
  | [] => []
  | b :: a :: b2 :: rest2 =>
    if b = 0x25 then
      if isHexDigitByte a && isHexDigitByte b2 then
        (hexDigitVal a * 16 + hexDigitVal b2) :: percentDecodeBytes rest2
      else b :: percentDecodeBytes (a :: b2 :: rest2)
    else b :: percentDecodeBytes (a :: b2 :: rest2)
  | b :: rest => b :: percentDecodeBytes rest

/-- Is a byte a UTF-8 continuation byte? -/
def isCont (b : Nat) : Bool := 0x80 ≤ b && b < 0xc0

/-- Lossy UTF-8 decoding of a byte list (invalid sequences yield the
replacement character U+FFFD, as JS text decoding does; the exact
resynchronization after an invalid sequence is approximated — every
claim below only decodes well-formed sequences). -/
def utf8Decode : List Nat → Str
  | [] => []
  | b :: b2 :: b3 :: b4 :: rest4 =>
    if b < 0x80 then Char.ofNat b :: utf8Decode (b2 :: b3 :: b4 :: rest4)
    else if 0xc0 ≤ b ∧ b < 0xe0 then
      if isCont b2 ∧ 0x80 ≤ (b - 0xc0) * 64 + (b2 - 0x80) then
        Char.ofNat ((b - 0xc0) * 64 + (b2 - 0x80)) :: utf8Decode (b3 :: b4 :: rest4)
      else Char.ofNat 0xfffd :: utf8Decode (b2 :: b3 :: b4 :: rest4)
    else if 0xe0 ≤ b ∧ b < 0xf0 then
      if isCont b2 ∧ isCont b3 ∧
          0x800 ≤ (b - 0xe0) * 4096 + (b2 - 0x80) * 64 + (b3 - 0x80) ∧
          ¬ (0xd800 ≤ (b - 0xe0) * 4096 + (b2 - 0x80) * 64 + (b3 - 0x80) ∧
             (b - 0xe0) * 4096 + (b2 - 0x80) * 64 + (b3 - 0x80) < 0xe000) then
        Char.ofNat ((b - 0xe0) * 4096 + (b2 - 0x80) * 64 + (b3 - 0x80)) ::
          utf8Decode (b4 :: rest4)
      else Char.ofNat 0xfffd :: utf8Decode (b2 :: b3 :: b4 :: rest4)
    else if 0xf0 ≤ b ∧ b < 0xf5 then
      if isCont b2 ∧ isCont b3 ∧ isCont b4 ∧
          0x10000 ≤ (b - 0xf0) * 262144 + (b2 - 0x80) * 4096 +
            (b3 - 0x80) * 64 + (b4 - 0x80) ∧
          (b - 0xf0) * 262144 + (b2 - 0x80) * 4096 +
            (b3 - 0x80) * 64 + (b4 - 0x80) < 0x110000 then
        Char.ofNat ((b - 0xf0) * 262144 + (b2 - 0x80) * 4096 +
          (b3 - 0x80) * 64 + (b4 - 0x80)) :: utf8Decode rest4
      else Char.ofNat 0xfffd :: utf8Decode (b2 :: b3 :: b4 :: rest4)
    else Char.ofNat 0xfffd :: utf8Decode (b2 :: b3 :: b4 :: rest4)
  | b :: b2 :: b3 :: [] =>
    if b < 0x80 then Char.ofNat b :: utf8Decode [b2, b3]
    else if 0xc0 ≤ b ∧ b < 0xe0 then
      if isCont b2 ∧ 0x80 ≤ (b - 0xc0) * 64 + (b2 - 0x80) then
        Char.ofNat ((b - 0xc0) * 64 + (b2 - 0x80)) :: utf8Decode [b3]
      else Char.ofNat 0xfffd :: utf8Decode [b2, b3]
    else if 0xe0 ≤ b ∧ b < 0xf0 then
      if isCont b2 ∧ isCont b3 ∧
          0x800 ≤ (b - 0xe0) * 4096 + (b2 - 0x80) * 64 + (b3 - 0x80) ∧
          ¬ (0xd800 ≤ (b - 0xe0) * 4096 + (b2 - 0x80) * 64 + (b3 - 0x80) ∧
             (b - 0xe0) * 4096 + (b2 - 0x80) * 64 + (b3 - 0x80) < 0xe000) then
        Char.ofNat ((b - 0xe0) * 4096 + (b2 - 0x80) * 64 + (b3 - 0x80)) :: utf8Decode []
      else Char.ofNat 0xfffd :: utf8Decode [b2, b3]
    else if 0xf0 ≤ b ∧ b < 0xf5 then Char.ofNat 0xfffd :: utf8Decode [b2, b3]
    else Char.ofNat 0xfffd :: utf8Decode [b2, b3]
  | b :: b2 :: [] =>
    if b < 0x80 then Char.ofNat b :: utf8Decode [b2]
    else if 0xc0 ≤ b ∧ b < 0xe0 then
      if isCont b2 ∧ 0x80 ≤ (b - 0xc0) * 64 + (b2 - 0x80) then
        Char.ofNat ((b - 0xc0) * 64 + (b2 - 0x80)) :: utf8Decode []
      else Char.ofNat 0xfffd :: utf8Decode [b2]
    else if 0xe0 ≤ b ∧ b < 0xf0 then Char.ofNat 0xfffd :: utf8Decode [b2]
    else if 0xf0 ≤ b ∧ b < 0xf5 then Char.ofNat 0xfffd :: utf8Decode [b2]
    else Char.ofNat 0xfffd :: utf8Decode [b2]
  | b :: [] =>
    if b < 0x80 then [Char.ofNat b]
    else [Char.ofNat 0xfffd]

/-- One decoded component: `+` to space, percent-decode, UTF-8 decode
(WHATWG `application/x-www-form-urlencoded` value decoding). -/
def decodeComponent (s : Str) : Str :=
  utf8Decode (percentDecodeBytes (strBytes (s.map fun c => if c = '+' then ' ' else c)))

/-- Split a query piece on its first `=`: key and value parts
(the whole piece and `""` when there is no `=`). -/
def splitFirstEq (piece : Str) : Str × Str :=
  match piece.findIdx? (· = '=') with
  | Option.some i => (piece.take i, piece.drop (i + 1))
  | Option.none => (piece, [])

/-- Model of iterating `new URLSearchParams(queryString)` in order:
split on `&`, skip empty pieces, split each piece on the first `=`,
decode both sides, every entry enabled. -/
def decodeQueryString (q : Str) : List QueryParam :=
  (splitOnChar '&' q).filterMap fun piece =>
    if piece = [] then Option.none
    else
      let kv := splitFirstEq piece
      Option.some ⟨decodeComponent kv.1, decodeComponent kv.2, true⟩

/-! ## CollectionParser.parseHttpText (src/ui/collectionParser.ts) -/

/-- The method alternation of the request-line regex, in source order. -/
def methodEnum : List HttpMethod :=
  [HttpMethod.GET, HttpMethod.POST, HttpMethod.PUT, HttpMethod.DELETE,
   HttpMethod.PATCH, HttpMethod.HEAD, HttpMethod.OPTIONS, HttpMethod.CONNECT,
   HttpMethod.TRACE]

/-- Match of `/^(GET|POST|…|TRACE)\s+(.+)$/i` against a (trimmed) line,
returning the method and the already-trimmed captured URL
(`requestLineMatch[2].trim()`).  With greedy `\s+`, the capture is the
rest of the line after the maximal whitespace run, and `.` refuses line
terminators, so the capture must be free of them; when that rest is
empty the regex backtracks to capture the final whitespace character
(which must itself not be a line terminator), and the capture trims to
the empty string. -/
def matchRequestLine (t : Str) : Option (HttpMethod × Str) :=
  methodEnum.findSome? fun m =>
    if (t.take (methodName m).length).map toUpperAscii = methodName m then
      match t.drop (methodName m).length with
      | [] => Option.none
      | c :: cs =>
        if isWS c then
          if (c :: cs).dropWhile isWS ≠ [] then
            if ((c :: cs).dropWhile isWS).all (fun d => !isLineTerm d) then
              Option.some (m, trim ((c :: cs).dropWhile isWS))
            else Option.none
          else if cs ≠ [] then
            if isLineTerm (cs.getLastD c) then Option.none
            else Option.some (m, [])
          else Option.none
        else Option.none
    else Option.none

/-- The `contentType` local of `detectBodyType`:
`headers.find(h => h.key.toLowerCase() === 'content-type')?.value?.toLowerCase() || ''`. -/
def contentTypeOf (headers : List RequestHeader) : Str :=
  match headers.find? fun h => lowerStr h.key = str ("content-type") with
  | Option.some h => lowerStr h.value
  | Option.none => []

/-- `CollectionParser.detectBodyType`: classify collected body text
using the declared `Content-Type` header or the text itself. -/
def detectBodyType (body : Str) (headers : List RequestHeader) : RequestBody :=
  let contentType := contentTypeOf headers
  if strContains contentType (str ("application/json")) ||
      startsWith (str ("\x7b")) (trim body) || startsWith (str ("[")) (trim body) then
    RequestBody.json body
  else if strContains contentType (str ("application/x-www-form-urlencoded")) then
    RequestBody.form body
  else if strContains contentType (str ("multipart/form-data")) then
    RequestBody.formdata [] body
  else if strContains contentType (str ("application/graphql")) ||
      strContains body (str ("query")) || strContains body (str ("mutation")) then
    RequestBody.graphql body Option.none
  else RequestBody.raw body

/-- Which script block an open marker selected. -/
inductive ScriptKind
  | pre
  | test
deriving DecidableEq, Repr

/-- The mutable state of the `parseHttpText` line loop. -/
structure ParseState where
  req : UIRequest
  inBody : Bool
  bodyLines : List Str
  inScript : Bool
  scriptType : Option ScriptKind
  scriptLines : List Str
deriving Repr

/-- The `request.preRequest`/`request.tests` assignment performed when
a `}}` close marker is seen, selected by the current script type. -/
def closeScriptReq (s : ParseState) : UIRequest :=
  match s.scriptType with
  | Option.some ScriptKind.pre =>
    { s.req with preRequest := Option.some (joinLines s.scriptLines) }
  | Option.some ScriptKind.test =>
    { s.req with tests := Option.some (joinLines s.scriptLines) }
  | Option.none => s.req

/-- `const [baseUrl, queryString] = fullUrl.split('?')`: the `baseUrl`
destructured component. -/
def urlPartOf (fullUrl : Str) : Str := (splitOnChar '?' fullUrl).headD []

/-- The `queryString` destructured component; `Option.none` models both
`undefined` (fewer than two pieces) and the falsy empty string. -/
def queryStringOf (fullUrl : Str) : Option Str :=
  match splitOnChar '?' fullUrl with
  | _ :: q :: _ => if q = [] then Option.none else Option.some q
  | _ => Option.none

/-- The ordered query parameters pushed for a request line. -/
def queryParamsOf (fullUrl : Str) : List QueryParam :=
  match queryStringOf fullUrl with
  | Option.some q => decodeQueryString q
  | Option.none => []

/-- The update performed by the request-line branch: set the method,
set the URL to the part before the first `?`, append the decoded query
parameters. -/
def applyRequestLine (req : UIRequest) (mu : HttpMethod × Str) : UIRequest :=
  { req with
    method := mu.1,
    url := urlPartOf mu.2,
    queryParams := req.queryParams ++ queryParamsOf mu.2 }

/-- One iteration of the `for (const line of lines)` loop of
`parseHttpText`, with the loop's `trimmedLine` passed as `t`
(in exact source order). -/
def processTrimmed (s : ParseState) (line t : Str) : ParseState :=
  if t = str ("###") then s
  else if startsWith (str ("# @name ")) t then
    { s with req := { s.req with name := trim (t.drop 8) } }
  else if startsWith (str ("# @description ")) t then
    { s with req := { s.req with description := Option.some (trim (t.drop 15)) } }
  else if startsWith (str ("# @tag ")) t then
    { s with req := { s.req with
        tags := Option.some ((splitOnChar ',' (t.drop 7)).map trim) } }
  else if startsWith (str ("\x7b\x7b")) t then
    { s with inScript := true,
             scriptType := if strContains t (str ("@pre")) then Option.some ScriptKind.pre
                           else Option.some ScriptKind.test }
  else if startsWith (str ("\x7d\x7d")) t then
    { s with req := closeScriptReq s, inScript := false, scriptType := Option.none,
             scriptLines := [] }
  else if s.inScript then { s with scriptLines := s.scriptLines ++ [line] }
  else if startsWith (str ("#")) t || startsWith (str ("//")) t then s
  else
    match matchRequestLine t with
    | Option.some mu => { s with req := applyRequestLine s.req mu }
    | Option.none =>
      if !s.inBody && t = [] && s.req.url ≠ [] then { s with inBody := true }
      else if !s.inBody && strContains t (str (":")) then
        match t.findIdx? (· = ':') with
        | Option.some i =>
          if trim (t.take i) ≠ [] && ¬ startsWith (str ("\x7b")) (trim (t.take i)) then
            { s with req := { s.req with
                headers := s.req.headers ++
                  [⟨trim (t.take i), trim (t.drop (i + 1)), true⟩] } }
          else s
        | Option.none => s
      else if s.inBody then { s with bodyLines := s.bodyLines ++ [line] }
      else s

/-- One iteration of the parse loop (`trimmedLine` computed here). -/
def processLine (s : ParseState) (line : Str) : ParseState :=
  processTrimmed s line (trim line)

/-- The initial request record of `parseHttpText`. -/
def initRequest (fileUri : Option Str) : UIRequest :=
  { name := str ("New Request"), method := HttpMethod.GET, url := [],
    headers := [], queryParams := [], body := RequestBody.none,
    fileUri := fileUri }

/-- The initial loop state of `parseHttpText`. -/
def initParseState (fileUri : Option Str) : ParseState :=
  { req := initRequest fileUri, inBody := false, bodyLines := [],
    inScript := false, scriptType := Option.none, scriptLines := [] }

/-- The body post-processing at the end of `parseHttpText`: when body
lines were collected and their joined, trimmed text is non-empty, the
body is classified; otherwise the request is returned unchanged. -/
def finishRequest (s : ParseState) : UIRequest :=
  if s.bodyLines ≠ [] then
    if trim (joinLines s.bodyLines) ≠ [] then
      { s.req with body := detectBodyType (trim (joinLines s.bodyLines)) s.req.headers }
    else s.req
  else s.req

/-- `CollectionParser.parseHttpText`: parse request text into a
`UIRequest`; total, with safe defaults for anything missing. -/
def parseHttpText (text : Str) (fileUri : Option Str) : UIRequest :=
  finishRequest ((splitLines text).foldl processLine (initParseState fileUri))

/-- The semantic textual content of a body (for the round-trip
property): the rendered form-data lines for a non-empty form-data
list, the query for graphql, the content string otherwise. -/
def bodyContentOf : RequestBody → Str
  | RequestBody.none => []
  | RequestBody.json c => c
  | RequestBody.raw c => c
  | RequestBody.form c => c
  | RequestBody.formdata fd c =>
    if fd ≠ [] then joinLines ((fd.filter (·.enabled)).map fun f => f.key ++ '=' :: f.value)
    else c
  | RequestBody.graphql q _ => q
  | RequestBody.binary c => c

/-- The parse-loop state components tracked through the round-trip
development: the request core (method, url, headers, query parameters,
body, file uri) and the body/script position flags. -/
def coreView (s : ParseState) :
    (HttpMethod × Str × List RequestHeader × List QueryParam ×
      RequestBody × Option Str) × (Bool × List Str × Bool) :=
  ((s.req.method, s.req.url, s.req.headers, s.req.queryParams, s.req.body,
    s.req.fileUri), (s.inBody, s.bodyLines, s.inScript))

/-! ## CollectionParser tree walker (src/ui/collectionParser.ts)

The walker reads the file system through `vscode.workspace.fs`.  The
file system is modelled as a tree: directories carry the result of
reading `_collection.json` (metadata or `Option.none` when missing or
unparsable, matching `loadCollectionMetadata`'s catch-all), a
`readable` flag (`false` models `readDirectory` throwing), and named
entries; files carry their content, `Option.none` modelling a failing
`readFile`. -/

/-- Per-folder metadata, the fields read by the walker. -/
structure CollectionMetadata where
  name : Option Str := Option.none
  description : Option Str := Option.none
  order : Option (List Str) := Option.none
deriving DecidableEq, Repr

/-- A model file-system node. -/
inductive FsTree
  | dir (readable : Bool) (meta : Option CollectionMetadata)
        (entries : List (Str × FsTree))
  | file (content : Option Str)
deriving Repr

/-- Kind of a collection-tree node. -/
inductive NodeType
  | collection
  | request
deriving DecidableEq, Repr

/-- Last-known run status of a request node. -/
inductive RunStatus
  | success
  | error
  | pending
  | noneStatus
deriving DecidableEq, Repr

/-- A node of the collection tree (TS `CollectionTreeNode`). -/
structure CollectionTreeNode where
  type : NodeType
  id : Str
  label : Str
  description : Option Str := Option.none
  method : Option HttpMethod := Option.none
  filePath : Str
  folderPath : Str
  children : List CollectionTreeNode := []
  lastRunStatus : Option RunStatus := Option.none
deriving Repr

/-- A location under the collections root, as path segments. -/
abbrev FsPath := List Str

/-- `vscode.Uri.fsPath` of a location: slash-joined absolute path. -/
def fsPathStr (p : FsPath) : Str := p.flatMap fun seg => '/' :: seg

/-- `vscode.Uri.toString()` of a file location. -/
def uriToString (p : FsPath) : Str := str ("file://") ++ fsPathStr p

/-- The recognized request file extensions (`HTTP_EXTENSIONS`). -/
def httpExtensions : List Str := [str (".http"), str (".rest")]

/-- `path.extname`: the suffix from the last dot, empty when the only
dot is the leading character or there is none. -/
def extname (name : Str) : Str :=
  match (name.reverse.takeWhile (· ≠ '.')) with
  | rest =>
    if rest.length + 1 ≤ name.length && rest.length + 1 < name.length + 1 &&
        name.length - rest.length - 1 > 0 then
      name.drop (name.length - rest.length - 1)
    else if rest.length + 1 = name.length && name.headD ' ' = '.' then []
    else if rest.length = name.length then []
    else name.drop (name.length - rest.length - 1)

/-- `path.basename(fileName, path.extname(fileName))`: strip the
extension computed by `extname`. -/
def basenameNoExt (name : Str) : Str :=
  let ext := extname name
  if ext ≠ [] && endsWith ext name then name.take (name.length - ext.length)
  else name

/-- Does a line match `/^#\s*@name\s+(.+)$/` (resp. `@description`),
returning the trimmed capture?  With greedy `\s+` and trailing `.trim()`
the captured value is the trim of everything after the marker; the
match requires at least one whitespace then one further character. -/
def matchMetaLine (marker : Str) (line : Str) : Option Str :=
  match line with
  | '#' :: rest =>
    let afterHash := rest.dropWhile isWS
    if startsWith marker afterHash then
      let afterMarker := afterHash.drop marker.length
      match afterMarker with
      | c :: cs => if isWS c && cs ≠ [] then Option.some (trim afterMarker)
                   else if isWS c && cs = [] then Option.none
                   else Option.none
      | [] => Option.none
    else Option.none
  | _ => Option.none

/-- First line of a text matching a `^#\s*@marker\s+(.+)$` regex in
multiline mode (`String.prototype.match` returns the first match). -/
def findMetaInText (marker : Str) (text : Str) : Option Str :=
  (splitLines text).findSome? (matchMetaLine marker)

/-- Does a line match `/^\s*(GET|POST|…|TRACE)\s+/` (case-sensitive,
as in `parseHttpFile`'s method regex)? -/
def matchMethodLine (line : Str) : Option HttpMethod :=
  let t := line.dropWhile isWS
  methodEnum.findSome? fun m =>
    let name := methodName m
    if t.take name.length = name then
      match t.drop name.length with
      | c :: _ => if isWS c then Option.some m else Option.none
      | [] => Option.none
    else Option.none

/-- First method found by the multiline method regex of
`parseHttpFile`. -/
def findMethodInText (text : Str) : Option HttpMethod :=
  (splitLines text).findSome? matchMethodLine

/-- `CollectionParser.parseHttpFile`: build a request node from a
file, or `Option.none` (plus a log entry) when reading fails. -/
def parseHttpFile (filePath : FsPath) (fileName : Str) (content : Option Str) :
    Option CollectionTreeNode × List Str :=
  match content with
  | Option.none =>
    (Option.none, [str ("Failed to parse HTTP file ") ++ uriToString filePath])
  | Option.some text =>
    let nameCapture := findMetaInText (str ("@name")) text
    let descCapture := findMetaInText (str ("@description")) text
    let label :=
      match nameCapture with
      | Option.some n => if n ≠ [] then n else basenameNoExt fileName
      | Option.none => basenameNoExt fileName
    let method := (findMethodInText text).getD HttpMethod.GET
    (Option.some
      { type := NodeType.request, id := uriToString filePath, label := label,
        description := descCapture, method := Option.some method,
        filePath := fsPathStr filePath,
        folderPath := fsPathStr (filePath.dropLast),
        children := [],
        lastRunStatus := Option.some RunStatus.noneStatus }, [])

/-- `order.indexOf(label)` with the JS `-1` mapped to `order.length`
(the comparator of the source sends unlisted labels after all listed
ones and ties them with each other, which is this key order under a
stable sort). -/
def orderKey (order : List Str) (label : Str) : Nat :=
  match order.findIdx? (· = label) with
  | Option.some i => i
  | Option.none => order.length

/-- Stable insertion by key (the inserted element precedes tail
elements of equal key, so the earlier element stays first). -/
def insertByKey (key : CollectionTreeNode → Nat) (x : CollectionTreeNode) :
    List CollectionTreeNode → List CollectionTreeNode
  | [] => [x]
  | y :: ys => if key x ≤ key y then x :: y :: ys
               else y :: insertByKey key x ys

/-- Stable sort by key.  `Array.prototype.sort` is stable (ES2019) and
the source comparator is consistent with the `orderKey` order, so the
sorted result is this stable sort. -/
def sortByKey (key : CollectionTreeNode → Nat) :
    List CollectionTreeNode → List CollectionTreeNode
  | [] => []
  | x :: xs => insertByKey key x (sortByKey key xs)

/-- The child reordering of `parseFolder`: applied only when metadata
declares a non-empty order list. -/
def sortChildren (order : Option (List Str)) (children : List CollectionTreeNode) :
    List CollectionTreeNode :=
  match order with
  | Option.some ord =>
    if ord ≠ [] then sortByKey (fun n => orderKey ord n.label) children
    else children
  | Option.none => children

/-- Is a node a directory (`FileType.Directory` test)? -/
def FsTree.isDir : FsTree → Bool
  | FsTree.dir _ _ _ => true
  | FsTree.file _ => false

/-- The content of a file node (`Option.none` for directories and for
unreadable files). -/
def FsTree.fileContent : FsTree → Option Str
  | FsTree.dir _ _ _ => Option.none
  | FsTree.file c => c

/-- `CollectionParser.parseFolder`: walk one folder.  Sub-folders not
starting with `.` or `_` are walked first, then request files; an
unreadable directory contributes no children and a log entry, but the
folder node itself is still returned (the `return` sits outside the
`try`).  Returns the node and the log messages emitted below it. -/
def parseFolder (folderPath : FsPath) (name : Str) : FsTree →
    Option CollectionTreeNode × List Str
  | FsTree.file _ => (Option.none, [])
  | FsTree.dir readable meta entries =>
    let subs := entries.attach.map fun ep =>
      if ep.1.2.isDir && ¬ startsWith (str (".")) ep.1.1 &&
          ¬ startsWith (str ("_")) ep.1.1 then
        parseFolder (folderPath ++ [ep.1.1]) ep.1.1 ep.1.2
      else (Option.none, [])
    let files := entries.map fun e =>
      if ¬ e.2.isDir && httpExtensions.any (fun ext => endsWith ext e.1) then
        parseHttpFile (folderPath ++ [e.1]) e.1 e.2.fileContent
      else (Option.none, [])
    let children :=
      if readable then
        sortChildren (meta.bind (·.order)) ((subs ++ files).filterMap Prod.fst)
      else []
    let log :=
      if readable then (subs ++ files).flatMap Prod.snd
      else [str ("Failed to parse folder ") ++ uriToString folderPath]
    (Option.some
      { type := NodeType.collection, id := uriToString folderPath,
        label := (meta.bind (fun md => if (md.name.getD []) ≠ [] then md.name else Option.none)).getD name,
        description := meta.bind (·.description),
        filePath := fsPathStr folderPath, folderPath := fsPathStr folderPath,
        children := children }, log)
termination_by t => sizeOf t
decreasing_by
  obtain ⟨⟨a, b⟩, hmem⟩ := ep
  have hm := List.sizeOf_lt_of_mem hmem
  simp_all
  omega

/-- The root manifest, fields read by the walker. -/
structure CollectionsManifest where
  collections : List Str := []
deriving DecidableEq, Repr

/-- `CollectionParser.parseCollectionTree`: walk every non-hidden
top-level folder other than `environments`, then reorder by the
manifest's `collections` list (same comparator as folder ordering).
The manifest argument models the result of `loadManifest` (metadata
file read + JSON parse, `Option.none` on any failure). -/
def parseCollectionTree (rootPath : FsPath) (root : FsTree)
    (manifest : Option CollectionsManifest) :
    List CollectionTreeNode × List Str :=
  match root with
  | FsTree.file _ => ([], [])
  | FsTree.dir readable _ entries =>
    if readable then
      let walked := entries.map fun e =>
        if e.2.isDir && ¬ startsWith (str (".")) e.1 && e.1 ≠ str ("environments") then
          parseFolder (rootPath ++ [e.1]) e.1 e.2
        else (Option.none, [])
      let collections := walked.filterMap Prod.fst
      let sorted :=
        match manifest with
        | Option.some mf =>
          if mf.collections ≠ [] then
            sortByKey (fun n => orderKey mf.collections n.label) collections
          else collections
        | Option.none => collections
      (sorted, walked.flatMap Prod.snd)
    else ([], [str ("Failed to parse collection tree")])

/-! ## FileSyncService (src/ui/uiController.ts)

The change coordinator's state: the pending-write suppression set, the
per-path debounce table, the on-disk contents, plus observable logs of
writes and emitted events.  Asynchronous steps (the debounce timer
firing, the 100 ms suppression-clearing timeout, watcher callbacks,
external writes) are modelled as separate state transitions. -/

/-- An event emitted to the UI event sinks. -/
inductive UiEvent
  | requestChanged (uri : Str)
  | collectionsChanged
  | environmentsChanged
deriving DecidableEq, Repr

/-- Coordinator state (`pendingWrites`, `writeDebounceTimers`, the disk,
and observation logs). -/
structure SyncState where
  pendingWrites : List Str
  debounceTimers : List (Str × UIRequest)
  disk : List (Str × Str)
  writeLog : List (Str × Str)
  events : List UiEvent
deriving DecidableEq, Repr

/-- Association-list update (used for the disk and the timer table). -/
def setAssoc (k : Str) (v : α) : List (Str × α) → List (Str × α)
  | [] => [(k, v)]
  | (k', v') :: rest => if k' = k then (k, v) :: rest else (k', v') :: setAssoc k v rest

/-- Association-list lookup. -/
def getAssoc (k : Str) : List (Str × α) → Option α
  | [] => Option.none
  | (k', v') :: rest => if k' = k then Option.some v' else getAssoc k rest

/-- Association-list removal (`Map.delete` / `clearTimeout`). -/
def delAssoc (k : Str) : List (Str × α) → List (Str × α)
  | [] => []
  | (k', v') :: rest => if k' = k then delAssoc k rest else (k', v') :: delAssoc k rest

/-- `FileSyncService.writeRequest`: generate the text, add the path to
`pendingWrites` (before the write, so the watcher event it causes is
ignored), and write.  The `setTimeout` that removes the path again
100 ms later is the separate step `pendingTimeoutFire`. -/
def writeRequest (s : SyncState) (r : UIRequest) : SyncState :=
  match r.fileUri with
  | Option.none => s
  | Option.some uriString =>
    let content := generate r
    { s with
      pendingWrites :=
        if s.pendingWrites.contains uriString then s.pendingWrites
        else uriString :: s.pendingWrites,
      disk := setAssoc uriString content s.disk,
      writeLog := s.writeLog ++ [(uriString, content)] }

/-- The delayed `pendingWrites.delete(uriString)` of `writeRequest`. -/
def pendingTimeoutFire (s : SyncState) (uriString : Str) : SyncState :=
  { s with pendingWrites := s.pendingWrites.filter (· ≠ uriString) }

/-- `FileSyncService.saveRequest`: throw (`Option.none`) without a file
URI; otherwise clear any pending timer for the path, then either write
immediately or (re-)arm the debounce timer with this request. -/
def saveRequest (s : SyncState) (r : UIRequest) (immediate : Bool) :
    Option SyncState :=
  match r.fileUri with
  | Option.none => Option.none
  | Option.some uriString =>
    let cleared := { s with debounceTimers := delAssoc uriString s.debounceTimers }
    if immediate then Option.some (writeRequest cleared r)
    else Option.some
      { cleared with debounceTimers := setAssoc uriString r cleared.debounceTimers }

/-- A debounce timer for a path fires: the armed request is written and
the timer entry removed.  A cleared (replaced) timer never fires, which
is modelled by this step requiring the entry to be present. -/
def debounceTimerFire (s : SyncState) (uriString : Str) : SyncState :=
  match getAssoc uriString s.debounceTimers with
  | Option.none => s
  | Option.some r =>
    let s' := writeRequest s r
    { s' with debounceTimers := delAssoc uriString s'.debounceTimers }

/-- `FileSyncService.isHttpFile`. -/
def isHttpFile (uriString : Str) : Bool :=
  endsWith (str (".http")) uriString || endsWith (str (".rest")) uriString

/-- `FileSyncService.isEnvironmentFile`. -/
def isEnvironmentFile (uriString : Str) : Bool :=
  strContains uriString (str ("environments")) && endsWith (str (".env")) uriString

/-- `FileSyncService.onFileChanged`: the watcher change callback.  A
path in `pendingWrites` is ignored; an environment file refreshes the
environments; a request file is re-parsed from disk and, when the read
succeeds, a single `requestChanged` event fires; anything else
triggers a full collection refresh. -/
def onFileChanged (s : SyncState) (uriString : Str) : SyncState :=
  if s.pendingWrites.contains uriString then s
  else if isEnvironmentFile uriString then
    { s with events := s.events ++ [UiEvent.environmentsChanged] }
  else if isHttpFile uriString then
    match getAssoc uriString s.disk with
    | Option.some _ => { s with events := s.events ++ [UiEvent.requestChanged uriString] }
    | Option.none => s
  else { s with events := s.events ++ [UiEvent.collectionsChanged] }

/-- A write to the same tree performed by another process: only the
disk changes; the coordinator's suppression state is untouched. -/
def externalWrite (s : SyncState) (uriString content : Str) : SyncState :=
  { s with disk := setAssoc uriString content s.disk }

/-! ## Derived definitions used by the claim statements -/

/-- The TS `type` tag of a body value. -/
def RequestBody.typeTag : RequestBody → Str
  | RequestBody.none => str ("none")
  | RequestBody.json _ => str ("json")
  | RequestBody.raw _ => str ("raw")
  | RequestBody.form _ => str ("form")
  | RequestBody.formdata _ _ => str ("formdata")
  | RequestBody.graphql _ _ => str ("graphql")
  | RequestBody.binary _ => str ("binary")

/-- The declared content type as `detectBodyType` reads it: the
lower-cased value of the first header whose lower-cased key is
`content-type`. -/
def declaredContentType (headers : List RequestHeader) : Option Str :=
  (headers.find? fun h => lowerStr h.key = str ("content-type")).map
    fun h => lowerStr h.value

/-- Membership of a node in the subtree of another node. -/
inductive NodeIn : CollectionTreeNode → CollectionTreeNode → Prop
  | refl (n : CollectionTreeNode) : NodeIn n n
  | child (m c n : CollectionTreeNode) :
      c ∈ n.children → NodeIn m c → NodeIn m n

/-- Every node of a subtree carries the identifier derived from its
own file-system location (`uri.toString()` of the path whose `fsPath`
it stores). -/
inductive IdLocConsistent : CollectionTreeNode → Prop
  | mk (n : CollectionTreeNode) :
      n.id = str ("file://") ++ n.filePath →
      (∀ c ∈ n.children, IdLocConsistent c) → IdLocConsistent n

/-- Concrete request path used by witness instances. -/
def wPath : Str := str ("/c/a.http")

/-- Concrete request used by witness instances. -/
def wReq (u : Str) : UIRequest :=
  { name := [], method := HttpMethod.GET, url := u, headers := [],
    queryParams := [], body := RequestBody.none,
    fileUri := Option.some wPath }

/-- Empty coordinator state used by witness instances. -/
def wSync0 : SyncState :=
  { pendingWrites := [], debounceTimers := [], disk := [], writeLog := [],
    events := [] }

/-- Coordinator state after one debounced save, used by witnesses. -/
def wSyncT1 : SyncState :=
  { wSync0 with debounceTimers := [(wPath, wReq (str ("u")))] }

/-- Coordinator state after the second debounced save, used by
witnesses. -/
def wSyncT2 : SyncState :=
  { wSync0 with debounceTimers := [(wPath, wReq (str ("v")))] }

/-- Last element of a list of strings, defaulting to the empty
string. -/
def lastD (l : List Str) : Str := l.getLastD []

/-! ## General lemmas about the string model -/

theorem splitOnChar_ne_nil (c : Char) (s : Str) : splitOnChar c s ≠ [] := by
  induction s with
  | nil => simp [splitOnChar]
  | cons x xs ih =>
    simp only [splitOnChar]
    split
    · simp
    · split <;> simp

theorem splitOnChar_cons (c x : Char) (xs : Str) :
    splitOnChar c (x :: xs) =
      if x = c then [] :: splitOnChar c xs
      else (x :: (splitOnChar c xs).headD []) :: (splitOnChar c xs).tail := by
  simp only [splitOnChar]
  split
  · rename_i heq
    exact absurd heq (splitOnChar_ne_nil c xs)
  · rename_i h t heq
    rw [heq]
    simp

theorem splitOnChar_sep (c : Char) (a z : Str) :
    splitOnChar c (a ++ c :: z) = splitOnChar c a ++ splitOnChar c z := by
  induction a with
  | nil =>
    simp only [List.nil_append]
    rw [splitOnChar_cons]
    simp [splitOnChar]
  | cons x xs ih =>
    simp only [List.cons_append]
    rw [splitOnChar_cons, splitOnChar_cons, ih]
    split
    · simp
    · have h1 : splitOnChar c xs ≠ [] := splitOnChar_ne_nil c xs
      cases h : splitOnChar c xs with
      | nil => exact absurd h h1
      | cons hd tl => simp

theorem splitOnChar_no_sep (c : Char) (s : Str) (h : c ∉ s) :
    splitOnChar c s = [s] := by
  induction s with
  | nil => simp [splitOnChar]
  | cons x xs ih =>
    simp only [List.mem_cons, not_or] at h
    rw [splitOnChar_cons, ih h.2]
    have hx : x ≠ c := fun hh => h.1 hh.symm
    simp [hx]

theorem joinLines_cons (ℓ : Str) (ls : List Str) (h : ls ≠ []) :
    joinLines (ℓ :: ls) = ℓ ++ '\n' :: joinLines ls := by
  match ls with
  | l' :: ls' =>
    simp [joinLines, joinWithChar, List.intercalate, List.intersperse]

theorem splitLines_joinLines (ls : List Str) (h : ls ≠ []) :
    splitLines (joinLines ls) = ls.flatMap splitLines := by
  induction ls with
  | nil => exact absurd rfl h
  | cons ℓ ls' ih =>
    match ls' with
    | [] => simp [joinLines, joinWithChar, List.intercalate, splitLines]
    | l2 :: ls2 =>
      rw [joinLines_cons ℓ (l2 :: ls2) (by simp)]
      show splitOnChar '\n' (ℓ ++ '\n' :: joinLines (l2 :: ls2)) = _
      rw [splitOnChar_sep, List.flatMap_cons]
      congr 1
      exact ih (by simp)

theorem splitLines_no_nl (ℓ : Str) (h : '\n' ∉ ℓ) : splitLines ℓ = [ℓ] :=
  splitOnChar_no_sep '\n' ℓ h

/-- A string is the concatenation of its whitespace prefix and its
trimStart. -/
theorem trimLeft_decomp (s : Str) :
    s = s.takeWhile isWS ++ trimLeft s :=
  (@List.takeWhile_append_dropWhile _ isWS s).symm

theorem takeWhile_all_ws (s : Str) : ∀ c ∈ s.takeWhile isWS, isWS c := by
  intro c hc
  exact List.mem_takeWhile_imp hc

/-- A string is its trimEnd followed by a whitespace suffix. -/
theorem trimRight_decomp (s : Str) :
    ∃ w, s = trimRight s ++ w ∧ ∀ c ∈ w, isWS c := by
  refine ⟨(s.reverse.takeWhile isWS).reverse, ?_, ?_⟩
  · conv_lhs => rw [← s.reverse_reverse]
    conv_lhs => rw [trimLeft_decomp s.reverse]
    simp only [trimRight, List.reverse_append, trimLeft]
  · intro c hc
    simp only [List.mem_reverse] at hc
    exact List.mem_takeWhile_imp hc

theorem trimLeft_ws_cons (c : Char) (s : Str) (h : isWS c) :
    trimLeft (c :: s) = trimLeft s := by
  simp [trimLeft, List.dropWhile_cons, h]

theorem trimLeft_ws_append (w s : Str) (h : ∀ c ∈ w, isWS c) :
    trimLeft (w ++ s) = trimLeft s := by
  induction w with
  | nil => simp
  | cons c w' ih =>
    simp only [List.cons_append]
    rw [trimLeft_ws_cons _ _ (h c (by simp))]
    exact ih fun c hc => h c (by simp [hc])

theorem trimRight_ws_append (s w : Str) (h : ∀ c ∈ w, isWS c) :
    trimRight (s ++ w) = trimRight s := by
  simp only [trimRight, List.reverse_append]
  rw [List.dropWhile_append]
  split
  · rfl
  · rename_i hne
    exfalso
    apply hne
    rw [List.isEmpty_iff]
    exact List.dropWhile_eq_nil_iff.mpr fun c hc => h c (by simpa using hc)

theorem trim_ws_append_right (s w : Str) (h : ∀ c ∈ w, isWS c) :
    trim (s ++ w) = trim s := by
  show trimRight (trimLeft (s ++ w)) = trimRight (trimLeft s)
  unfold trimLeft
  rw [List.dropWhile_append]
  split
  · rename_i hall
    rw [List.isEmpty_iff] at hall
    have hw : List.dropWhile isWS w = [] :=
      List.dropWhile_eq_nil_iff.mpr fun c hc => h c hc
    rw [hw, hall]
  · exact trimRight_ws_append _ _ h

theorem trim_ws_append_left (w s : Str) (h : ∀ c ∈ w, isWS c) :
    trim (w ++ s) = trim s := by
  show trimRight (trimLeft (w ++ s)) = trimRight (trimLeft s)
  rw [trimLeft_ws_append w s h]

theorem trim_trimLeft (s : Str) : trim (trimLeft s) = trim s := by
  conv_rhs => rw [trimLeft_decomp s]
  rw [trim_ws_append_left _ _ (takeWhile_all_ws s)]

theorem trim_trimRight (s : Str) : trim (trimRight s) = trim s := by
  obtain ⟨w, hw, hws⟩ := trimRight_decomp s
  conv_rhs => rw [hw]
  rw [trim_ws_append_right _ _ hws]

/-! ## Association list lemmas (coordinator state) -/

theorem getAssoc_setAssoc_self (k : Str) (v : α) (l : List (Str × α)) :
    getAssoc k (setAssoc k v l) = Option.some v := by
  induction l with
  | nil => simp [setAssoc, getAssoc]
  | cons kv rest ih =>
    obtain ⟨k', v'⟩ := kv
    simp only [setAssoc]
    split
    · simp [getAssoc]
    · rename_i hne
      simp [getAssoc, hne, ih]

theorem getAssoc_delAssoc_self (k : Str) (l : List (Str × α)) :
    getAssoc k (delAssoc k l) = Option.none := by
  induction l with
  | nil => simp [delAssoc, getAssoc]
  | cons kv rest ih =>
    obtain ⟨k', v'⟩ := kv
    simp only [delAssoc]
    split
    · exact ih
    · rename_i hne
      simp [getAssoc, hne, ih]

/-! ## Suffix helpers (watcher path classification) -/

theorem endsWith_getLast (suf p : Str) (c : Char) (hs : suf.getLast? = Option.some c)
    (h : endsWith suf p = true) : p.getLast? = Option.some c := by
  simp only [endsWith, List.isSuffixOf_iff_suffix] at h
  obtain ⟨t, ht⟩ := h
  subst ht
  rw [List.getLast?_append_of_ne_nil]
  · exact hs
  · intro hnil
    rw [hnil] at hs
    simp at hs

/-- A request file path is never an environment file path (their
required last characters differ). -/
theorem isHttpFile_not_env (p : Str) (h : isHttpFile p = true) :
    isEnvironmentFile p = false := by
  simp only [isHttpFile, Bool.or_eq_true] at h
  simp only [isEnvironmentFile]
  rw [Bool.and_eq_false_iff]
  right
  rw [Bool.eq_false_iff]
  intro henv
  have hv : p.getLast? = Option.some 'v' :=
    endsWith_getLast (str (".env")) p 'v' (by decide) henv
  rcases h with hh | hr
  · have := endsWith_getLast (str (".http")) p 'p' (by decide) hh
    rw [hv] at this
    simp at this
  · have := endsWith_getLast (str (".rest")) p 't' (by decide) hr
    rw [hv] at this
    simp at this

/-! ## Claim theorems -/

/-- Claim C5: the parser is total by construction (it is a Lean
function with no failure cases), and the empty input yields the
default model: name "New Request", method GET, empty URL, no headers,
no query parameters, body `none`. -/
theorem parseHttpText_empty_defaults :
    parseHttpText (str ("")) Option.none =
      { name := str ("New Request"), method := HttpMethod.GET, url := [],
        headers := [], queryParams := [], body := RequestBody.none,
        fileUri := Option.none } := by decide

/-- Claim C4 (counterexample): with a declared form-encoded content
type and a body whose trimmed text starts with a brace,
`detectBodyType` classifies the body as `json`, not `form` — the
brace test takes precedence over every declared content type. -/
theorem detectBodyType_declared_form_counterexample :
    detectBodyType (str ("\x7bx\x7d"))
        [⟨str ("Content-Type"), str ("application/x-www-form-urlencoded"), true⟩] =
      RequestBody.json (str ("\x7bx\x7d")) ∧
    declaredContentType
        [⟨str ("Content-Type"), str ("application/x-www-form-urlencoded"), true⟩] =
      Option.some (str ("application/x-www-form-urlencoded")) ∧
    (RequestBody.json (str ("\x7bx\x7d"))).typeTag ≠ str ("form") := by decide

/-- Claim C4 (amended): the classification `detectBodyType` performs,
stated through the claim's conditions.  With no declared content type:
brace/bracket-leading text is json, text containing the substring
`query` or `mutation` is graphql, all else raw.  With a declared
content type, the json brace test still takes precedence; then
form-encoded, multipart, graphql declarations are consulted in that
order (the graphql branch also fires on the substrings), else raw. -/
theorem detectBodyType_classification (b : Str) (hs : List RequestHeader) :
    let ct := (declaredContentType hs).getD []
    let braceLead := startsWith (str ("\x7b")) (trim b) || startsWith (str ("[")) (trim b)
    let gqlText := strContains b (str ("query")) || strContains b (str ("mutation"))
    detectBodyType b hs =
      if strContains ct (str ("application/json")) || braceLead then
        RequestBody.json b
      else if strContains ct (str ("application/x-www-form-urlencoded")) then
        RequestBody.form b
      else if strContains ct (str ("multipart/form-data")) then
        RequestBody.formdata [] b
      else if strContains ct (str ("application/graphql")) || gqlText then
        RequestBody.graphql b Option.none
      else RequestBody.raw b := by
  have hct : contentTypeOf hs = (declaredContentType hs).getD [] := by
    simp only [declaredContentType, contentTypeOf]
    cases hs.find? (fun h => lowerStr h.key = str ("content-type")) <;> rfl
  simp only [detectBodyType]
  rw [hct]
  simp only [Bool.or_assoc]

/-- Claim C2: after an immediate save of a request with file URI `P`,
`P` is in the pending-writes set; a watcher change event for a path in
the pending-writes set changes nothing (no event is emitted); and a
change event for an http-file path not in the pending-writes set whose
content is on disk emits exactly one request-changed event. -/
theorem self_write_suppression :
    (∀ (s : SyncState) (r : UIRequest) (p : Str) (s' : SyncState),
       r.fileUri = Option.some p → saveRequest s r true = Option.some s' →
       p ∈ s'.pendingWrites) ∧
    (∀ (s : SyncState) (p : Str), p ∈ s.pendingWrites →
       onFileChanged s p = s) ∧
    (∀ (s : SyncState) (p : Str), p ∉ s.pendingWrites → isHttpFile p = true →
       (getAssoc p s.disk).isSome = true →
       (onFileChanged s p).events = s.events ++ [UiEvent.requestChanged p]) := by
  refine ⟨?_, ?_, ?_⟩
  · intro s r p s' hp hsave
    simp only [saveRequest, hp, if_pos] at hsave
    obtain rfl := Option.some.injEq _ _ ▸ hsave
    cases hsave
    simp only [writeRequest, hp]
    split
    · rename_i hmem
      simpa using hmem
    · simp
  · intro s p hmem
    simp only [onFileChanged]
    rw [if_pos (by simpa using hmem)]
  · intro s p hmem hhttp hdisk
    simp only [onFileChanged]
    rw [if_neg (by simpa using hmem)]
    rw [isHttpFile_not_env p hhttp]
    simp only [Bool.false_eq_true, if_false, hhttp, if_pos]
    cases h : getAssoc p s.disk with
    | none => rw [h] at hdisk; simp at hdisk
    | some c => simp

/-- Claim C3: two non-immediate saves to the same path `P` within the
debounce window (i.e. before the first timer fires) leave one timer
armed with the second request; when it fires there is exactly one new
write, whose content is generated from the second request, and the
timer table no longer holds `P`. -/
theorem debounce_coalescing
    (s : SyncState) (r1 r2 : UIRequest) (p : Str)
    (h1 : r1.fileUri = Option.some p) (h2 : r2.fileUri = Option.some p)
    (s1 s2 : SyncState)
    (hs1 : saveRequest s r1 false = Option.some s1)
    (hs2 : saveRequest s1 r2 false = Option.some s2) :
    getAssoc p s2.debounceTimers = Option.some r2 ∧
    s2.writeLog = s.writeLog ∧
    (debounceTimerFire s2 p).writeLog = s.writeLog ++ [(p, generate r2)] ∧
    getAssoc p (debounceTimerFire s2 p).disk = Option.some (generate r2) ∧
    getAssoc p (debounceTimerFire s2 p).debounceTimers = Option.none := by
  simp only [saveRequest, h1, h2, if_neg, Bool.false_eq_true, if_false] at hs1 hs2
  cases hs1
  cases hs2
  have htimer : getAssoc p (setAssoc p r2 (delAssoc p
      (setAssoc p r1 (delAssoc p s.debounceTimers)))) = Option.some r2 :=
    getAssoc_setAssoc_self ..
  refine ⟨htimer, rfl, ?_, ?_, ?_⟩ <;>
    simp [debounceTimerFire, htimer, writeRequest, h2, getAssoc_setAssoc_self,
      getAssoc_delAssoc_self]

/-! ## Stable sort lemmas (child ordering) -/

theorem insertByKey_mem (key : CollectionTreeNode → Nat) (x y : CollectionTreeNode)
    (l : List CollectionTreeNode) :
    y ∈ insertByKey key x l ↔ y = x ∨ y ∈ l := by
  induction l with
  | nil => simp [insertByKey]
  | cons z zs ih =>
    simp only [insertByKey]
    split
    · simp [or_comm, or_assoc]
    · simp [ih]
      tauto

theorem sortByKey_mem (key : CollectionTreeNode → Nat) (x : CollectionTreeNode)
    (l : List CollectionTreeNode) :
    x ∈ sortByKey key l ↔ x ∈ l := by
  induction l with
  | nil => simp [sortByKey]
  | cons z zs ih =>
    simp [sortByKey, insertByKey_mem, ih]

theorem insertByKey_append_ge (key : CollectionTreeNode → Nat)
    (x : CollectionTreeNode) (A B : List CollectionTreeNode)
    (h : ∀ y ∈ B, key x ≤ key y) :
    insertByKey key x (A ++ B) = insertByKey key x A ++ B := by
  induction A with
  | nil =>
    simp only [List.nil_append, insertByKey]
    cases B with
    | nil => simp [insertByKey]
    | cons b bs =>
      simp only [insertByKey]
      rw [if_pos (h b (by simp))]
      simp
  | cons a A' ih =>
    simp only [List.cons_append, insertByKey]
    split
    · simp
    · simp only [List.append_eq]
      rw [ih]
      simp

theorem insertByKey_eq_of_all_lt (key : CollectionTreeNode → Nat)
    (x : CollectionTreeNode) (l : List CollectionTreeNode)
    (h : ∀ y ∈ l, key y < key x) :
    insertByKey key x l = l ++ [x] := by
  induction l with
  | nil => simp [insertByKey]
  | cons z zs ih =>
    simp only [insertByKey]
    rw [if_neg (by have := h z (by simp); omega)]
    rw [ih fun y hy => h y (by simp [hy])]
    simp

theorem sortByKey_split (key : CollectionTreeNode → Nat) (N : Nat)
    (cs : List CollectionTreeNode) (hb : ∀ x ∈ cs, key x ≤ N) :
    sortByKey key cs =
      sortByKey key (cs.filter fun x => decide (key x < N)) ++
        cs.filter fun x => decide (key x = N) := by
  induction cs with
  | nil => simp [sortByKey]
  | cons x cs' ih =>
    have hbx := hb x (by simp)
    have hb' : ∀ y ∈ cs', key y ≤ N := fun y hy => hb y (by simp [hy])
    have hflt : ∀ y ∈ sortByKey key (cs'.filter fun z => decide (key z < N)),
        key y < N := by
      intro y hy
      rw [sortByKey_mem] at hy
      simp only [List.mem_filter, decide_eq_true_eq] at hy
      exact hy.2
    rcases Nat.lt_or_ge (key x) N with hlt | hge
    · have hne : ¬ key x = N := Nat.ne_of_lt hlt
      have hc1 : List.filter (fun z => decide (key z < N)) (x :: cs') =
          x :: List.filter (fun z => decide (key z < N)) cs' := by
        simp [List.filter_cons, hlt]
      have hc2 : List.filter (fun z => decide (key z = N)) (x :: cs') =
          List.filter (fun z => decide (key z = N)) cs' := by
        simp [List.filter_cons, hne]
      rw [hc1, hc2]
      show insertByKey key x (sortByKey key cs') = _
      rw [ih hb']
      rw [insertByKey_append_ge]
      · rfl
      · intro y hy
        simp only [List.mem_filter, decide_eq_true_eq] at hy
        omega
    · have heq : key x = N := Nat.le_antisymm hbx hge
      have hnlt : ¬ key x < N := by omega
      have hc1 : List.filter (fun z => decide (key z < N)) (x :: cs') =
          List.filter (fun z => decide (key z < N)) cs' := by
        simp [List.filter_cons, hnlt]
      have hc2 : List.filter (fun z => decide (key z = N)) (x :: cs') =
          x :: List.filter (fun z => decide (key z = N)) cs' := by
        simp [List.filter_cons, heq]
      rw [hc1, hc2]
      show insertByKey key x (sortByKey key cs') = _
      rw [ih hb']
      rw [insertByKey_append_ge _ _ _ _
        (fun y hy => by
          simp only [List.mem_filter, decide_eq_true_eq] at hy
          omega)]
      rw [insertByKey_eq_of_all_lt _ _ _
        (fun y hy => by have := hflt y hy; omega)]
      simp

theorem insertByKey_pairwise (key : CollectionTreeNode → Nat)
    (x : CollectionTreeNode) (l : List CollectionTreeNode)
    (h : l.Pairwise fun a b => key a ≤ key b) :
    (insertByKey key x l).Pairwise fun a b => key a ≤ key b := by
  induction l with
  | nil => simp [insertByKey]
  | cons z zs ih =>
    simp only [insertByKey]
    split
    · rename_i hle
      refine List.Pairwise.cons ?_ h
      intro y hy
      rcases List.mem_cons.mp hy with rfl | hy'
      · exact hle
      · exact Nat.le_trans hle ((List.pairwise_cons.mp h).1 y hy')
    · rename_i hgt
      have hz := (List.pairwise_cons.mp h).1
      refine List.Pairwise.cons ?_ (ih (List.pairwise_cons.mp h).2)
      intro y hy
      rw [insertByKey_mem] at hy
      rcases hy with rfl | hy'
      · omega
      · exact hz y hy'

theorem sortByKey_pairwise (key : CollectionTreeNode → Nat)
    (l : List CollectionTreeNode) :
    (sortByKey key l).Pairwise fun a b => key a ≤ key b := by
  induction l with
  | nil => simp [sortByKey]
  | cons x xs ih => exact insertByKey_pairwise key x _ ih

/-! ## orderKey lemmas -/

theorem orderKey_lt_of_mem (ord : List Str) (lab : Str) (h : lab ∈ ord) :
    orderKey ord lab < ord.length := by
  simp only [orderKey]
  cases hf : ord.findIdx? (· = lab) with
  | none =>
    rw [List.findIdx?_eq_none_iff] at hf
    have := hf lab h
    simp at this
  | some i =>
    have := List.findIdx?_eq_some_iff_findIdx_eq.mp hf
    exact this.1

theorem orderKey_eq_length_of_not_mem (ord : List Str) (lab : Str) (h : lab ∉ ord) :
    orderKey ord lab = ord.length := by
  simp only [orderKey]
  cases hf : ord.findIdx? (· = lab) with
  | none => rfl
  | some i =>
    exfalso
    have hmem := List.findIdx?_eq_some_iff_findIdx_eq.mp hf
    have hlt := hmem.1
    have hp : ord.findIdx (· = lab) = i := hmem.2
    have := @List.findIdx_getElem _ _ _ (hp ▸ hlt)
    rw [decide_eq_true_eq] at this
    exact h (this ▸ List.getElem_mem _)

theorem orderKey_le (ord : List Str) (lab : Str) :
    orderKey ord lab ≤ ord.length := by
  by_cases h : lab ∈ ord
  · exact Nat.le_of_lt (orderKey_lt_of_mem ord lab h)
  · exact Nat.le_of_eq (orderKey_eq_length_of_not_mem ord lab h)

theorem sortChildren_mem (ord : Option (List Str)) (cs : List CollectionTreeNode)
    (c : CollectionTreeNode) : c ∈ sortChildren ord cs ↔ c ∈ cs := by
  cases ord with
  | none => simp [sortChildren]
  | some o =>
    simp only [sortChildren]
    split
    · exact sortByKey_mem _ c cs
    · simp

/-- Claim C6: with metadata order `["b","a"]` and natural entries
`a, b, c`, the walker yields children `b, a, c`; in general the child
reordering puts the children whose labels are listed first (stably
sorted by their position in the list) and appends the unlisted
children in their natural order, and the result is sorted by the
order-list key throughout. -/
theorem walker_child_ordering :
    ((parseFolder [str ("root"), str ("col")] (str ("col"))
        (FsTree.dir true
          (Option.some { order := Option.some [str ("b"), str ("a")] })
          [(str ("a.http"), FsTree.file (Option.some [])),
           (str ("b.http"), FsTree.file (Option.some [])),
           (str ("c.http"), FsTree.file (Option.some []))])).1.map
      fun n => n.children.map fun c => c.label) =
      Option.some [str ("b"), str ("a"), str ("c")] ∧
    (∀ (ord : List Str) (cs : List CollectionTreeNode), ord ≠ [] →
      sortChildren (Option.some ord) cs =
        sortByKey (fun n => orderKey ord n.label)
            (cs.filter fun n => decide (n.label ∈ ord)) ++
          cs.filter fun n => decide (n.label ∉ ord)) ∧
    (∀ (ord : List Str) (cs : List CollectionTreeNode),
      (sortByKey (fun n => orderKey ord n.label) cs).Pairwise
        fun a b => orderKey ord a.label ≤ orderKey ord b.label) := by
  refine ⟨?_, ?_, ?_⟩
  · simp [parseFolder]
    decide
  · intro ord cs hord
    simp only [sortChildren, if_pos hord]
    rw [sortByKey_split (fun n => orderKey ord n.label) ord.length cs
      (fun x _ => orderKey_le ord x.label)]
    congr 1
    · congr 1
      apply List.filter_congr
      intro n _
      by_cases h : n.label ∈ ord
      · simp [h, orderKey_lt_of_mem ord n.label h]
      · simp [h, orderKey_eq_length_of_not_mem ord n.label h]
    · apply List.filter_congr
      intro n _
      by_cases h : n.label ∈ ord
      · have := orderKey_lt_of_mem ord n.label h
        simp [h]
        omega
      · simp [h, orderKey_eq_length_of_not_mem ord n.label h]
  · intro ord cs
    exact sortByKey_pairwise _ cs

/-- Witness for the general ordering conjunct of `walker_child_ordering`. -/
theorem walker_child_ordering_witness :
    ([str ("b")] : List Str) ≠ [] ∧
    sortChildren (Option.some [str ("b")]) ([] : List CollectionTreeNode) =
      sortByKey (fun n => orderKey [str ("b")] n.label)
          (([] : List CollectionTreeNode).filter fun n =>
            decide (n.label ∈ [str ("b")])) ++
        ([] : List CollectionTreeNode).filter fun n =>
          decide (n.label ∉ [str ("b")]) :=
  ⟨by decide, walker_child_ordering.2.1 [str ("b")] [] (by decide)⟩

/-! ## Identifier stability of the walker -/

theorem parseHttpFile_idLoc (p : FsPath) (name : Str) (content : Option Str)
    (n : CollectionTreeNode) (h : (parseHttpFile p name content).1 = Option.some n) :
    IdLocConsistent n := by
  cases content with
  | none => simp [parseHttpFile] at h
  | some text =>
    simp only [parseHttpFile] at h
    cases h
    exact IdLocConsistent.mk _ rfl (by intro c hc; simp at hc)

theorem parseFolder_idLoc_aux (N : Nat) :
    ∀ (t : FsTree), sizeOf t ≤ N →
    ∀ (p : FsPath) (name : Str) (n : CollectionTreeNode),
      (parseFolder p name t).1 = Option.some n → IdLocConsistent n := by
  induction N with
  | zero =>
    intro t hsz
    cases t <;> simp at hsz
  | succ N ih =>
    intro t hsz p name n hw
    cases t with
    | file c => simp [parseFolder] at hw
    | dir rd meta entries =>
      rw [parseFolder] at hw
      simp only [Option.some.injEq] at hw
      subst hw
      refine IdLocConsistent.mk _ rfl ?_
      intro c hc
      simp only at hc
      cases rd with
      | true =>
        rw [if_pos rfl] at hc
        rw [sortChildren_mem] at hc
        rw [List.mem_filterMap] at hc
        obtain ⟨pair, hpair, hfst⟩ := hc
        rw [List.mem_append] at hpair
        rcases hpair with hsub | hfile
        · rw [List.mem_map] at hsub
          obtain ⟨ep, hep, hfe⟩ := hsub
          by_cases hcond : (ep.1.2.isDir && ¬ startsWith (str (".")) ep.1.1 &&
              ¬ startsWith (str ("_")) ep.1.1) = true
          · rw [if_pos hcond] at hfe
            subst hfe
            have hmem : ep.1 ∈ entries := ep.2
            have h1 : sizeOf ep.1 < sizeOf entries := List.sizeOf_lt_of_mem hmem
            have h2 : sizeOf ep.1.2 < sizeOf ep.1 := by
              obtain ⟨⟨a, b⟩, hm⟩ := ep
              simp
            have h3 : sizeOf entries < sizeOf (FsTree.dir true meta entries) := by
              simp
            exact ih ep.1.2 (by omega) _ _ _ hfst
          · rw [if_neg hcond] at hfe
            subst hfe
            simp at hfst
        · rw [List.mem_map] at hfile
          obtain ⟨e, hee, hfe⟩ := hfile
          by_cases hcond : (¬ e.2.isDir &&
              httpExtensions.any fun ext => endsWith ext e.1) = true
          · rw [if_pos hcond] at hfe
            subst hfe
            exact parseHttpFile_idLoc _ _ _ _ hfst
          · rw [if_neg hcond] at hfe
            subst hfe
            simp at hfst
      | false =>
        simp at hc

/-- Claim C9: node identifiers are a pure function of file-system
location.  Every node produced by a folder walk has
`id = "file://" ++ filePath`, so any two walks — of the same tree or
of trees enumerated in any other order — that yield nodes at the same
path assign them the same identifier. -/
theorem node_id_location_stability :
    (∀ (p : FsPath) (name : Str) (t : FsTree) (root : CollectionTreeNode),
       (parseFolder p name t).1 = Option.some root →
       ∀ node, NodeIn node root → node.id = str ("file://") ++ node.filePath) ∧
    (∀ (p₁ : FsPath) (n₁ : Str) (t₁ : FsTree) (r₁ node₁ : CollectionTreeNode)
       (p₂ : FsPath) (n₂ : Str) (t₂ : FsTree) (r₂ node₂ : CollectionTreeNode),
       (parseFolder p₁ n₁ t₁).1 = Option.some r₁ →
       (parseFolder p₂ n₂ t₂).1 = Option.some r₂ →
       NodeIn node₁ r₁ → NodeIn node₂ r₂ →
       node₁.filePath = node₂.filePath → node₁.id = node₂.id) := by
  have key : ∀ (node root : CollectionTreeNode), NodeIn node root →
      IdLocConsistent root → node.id = str ("file://") ++ node.filePath := by
    intro node root hin
    induction hin with
    | refl =>
      intro hroot
      cases hroot with
      | mk _ hid _ => exact hid
    | child x1 x2 x3 x4 x5 =>
      intro hroot
      cases hroot with
      | mk _ _ hch => exact x5 (hch x1 x3)
  constructor
  · intro p name t root hw node hin
    exact key node root hin
      (parseFolder_idLoc_aux (sizeOf t) t (Nat.le_refl _) p name root hw)
  · intro p₁ n₁ t₁ r₁ node₁ p₂ n₂ t₂ r₂ node₂ hw₁ hw₂ hin₁ hin₂ hfp
    have h1 := key node₁ r₁ hin₁
      (parseFolder_idLoc_aux (sizeOf t₁) t₁ (Nat.le_refl _) _ _ _ hw₁)
    have h2 := key node₂ r₂ hin₂
      (parseFolder_idLoc_aux (sizeOf t₂) t₂ (Nat.le_refl _) _ _ _ hw₂)
    rw [h1, h2, hfp]

/-- Witness for `node_id_location_stability`. -/
theorem node_id_location_stability_witness :
    (parseFolder [str ("r")] (str ("r")) (FsTree.dir true Option.none [])).1 =
      Option.some
        { type := NodeType.collection, id := str ("file:///r"), label := str ("r"),
          description := Option.none, method := Option.none,
          filePath := str ("/r"), folderPath := str ("/r"), children := [],
          lastRunStatus := Option.none } ∧
    (str ("file:///r") : Str) = str ("file://") ++ (str ("/r") : Str) := by
  have hw : (parseFolder [str ("r")] (str ("r")) (FsTree.dir true Option.none [])).1 =
      Option.some
        { type := NodeType.collection, id := str ("file:///r"), label := str ("r"),
          description := Option.none, method := Option.none,
          filePath := str ("/r"), folderPath := str ("/r"), children := [],
          lastRunStatus := Option.none } := by
    rw [parseFolder]
    rfl
  exact ⟨hw, node_id_location_stability.1 [str ("r")] (str ("r"))
    (FsTree.dir true Option.none []) _ hw _ (NodeIn.refl _)⟩

/-- Claim C7 (counterexample): a tree whose folder `A` is unreadable
still yields a collection node for `A` in the resulting forest (with
empty children) — the subtree's *contents* are omitted but the folder
node itself is not, while the sibling `B` is fully walked and the
failure is logged. -/
theorem folder_failure_counterexample :
    ((parseCollectionTree [str ("root")]
        (FsTree.dir true Option.none
          [(str ("A"), FsTree.dir false Option.none
             [(str ("r.http"), FsTree.file (Option.some []))]),
           (str ("B"), FsTree.dir true Option.none
             [(str ("s.http"), FsTree.file (Option.some []))])])
        Option.none).1.map fun n => (n.label, n.children.length)) =
      [(str ("A"), 0), (str ("B"), 1)] ∧
    (parseCollectionTree [str ("root")]
        (FsTree.dir true Option.none
          [(str ("A"), FsTree.dir false Option.none
             [(str ("r.http"), FsTree.file (Option.some []))]),
           (str ("B"), FsTree.dir true Option.none
             [(str ("s.http"), FsTree.file (Option.some []))])])
        Option.none).2 =
      [str ("Failed to parse folder ") ++ uriToString [str ("root"), str ("A")]] := by
  constructor <;>
    · simp [parseCollectionTree, parseFolder, parseHttpFile]
      decide

/-- Claim C7 (amended): an I/O failure reading a folder is logged and
that folder's *children* are omitted — the folder node itself is still
returned, with an empty child list (the walk continues elsewhere); a
request file whose read fails is logged and omitted entirely. -/
theorem folder_failure_amended :
    (∀ (p : FsPath) (name : Str) (meta : Option CollectionMetadata)
       (entries : List (Str × FsTree)),
       (∃ n, (parseFolder p name (FsTree.dir false meta entries)).1 =
           Option.some n ∧ n.children = [] ∧ n.type = NodeType.collection ∧
           n.id = uriToString p) ∧
       (parseFolder p name (FsTree.dir false meta entries)).2 =
         [str ("Failed to parse folder ") ++ uriToString p]) ∧
    (∀ (p : FsPath) (name : Str),
       parseHttpFile p name Option.none =
         (Option.none, [str ("Failed to parse HTTP file ") ++ uriToString p])) := by
  constructor
  · intro p name meta entries
    rw [parseFolder]
    refine ⟨⟨_, rfl, ?_, rfl, rfl⟩, ?_⟩ <;> simp
  · intro p name
    rfl

/-- Witness for `self_write_suppression`. -/
theorem self_write_suppression_witness :
    wPath ∈ ([wPath] : List Str) ∧
    onFileChanged { wSync0 with pendingWrites := [wPath] } wPath =
      { wSync0 with pendingWrites := [wPath] } :=
  ⟨by decide,
   self_write_suppression.2.1 { wSync0 with pendingWrites := [wPath] } wPath
     (by decide)⟩

/-- Witness for `debounce_coalescing`. -/
theorem debounce_coalescing_witness :
    (wReq (str ("u"))).fileUri = Option.some wPath ∧
    (wReq (str ("v"))).fileUri = Option.some wPath ∧
    saveRequest wSync0 (wReq (str ("u"))) false = Option.some wSyncT1 ∧
    saveRequest wSyncT1 (wReq (str ("v"))) false = Option.some wSyncT2 ∧
    (getAssoc wPath wSyncT2.debounceTimers = Option.some (wReq (str ("v"))) ∧
     wSyncT2.writeLog = wSync0.writeLog ∧
     (debounceTimerFire wSyncT2 wPath).writeLog =
       wSync0.writeLog ++ [(wPath, generate (wReq (str ("v"))))] ∧
     getAssoc wPath (debounceTimerFire wSyncT2 wPath).disk =
       Option.some (generate (wReq (str ("v")))) ∧
     getAssoc wPath (debounceTimerFire wSyncT2 wPath).debounceTimers =
       Option.none) :=
  ⟨rfl, rfl, by decide, by decide,
   debounce_coalescing wSync0 (wReq (str ("u"))) (wReq (str ("v"))) wPath rfl rfl
     wSyncT1 wSyncT2 (by decide) (by decide)⟩

/-! ## splitOnChar structure lemmas -/

theorem headD_mem (l : List α) (d : α) (h : l ≠ []) : l.headD d ∈ l := by
  cases l with
  | nil => exact absurd rfl h
  | cons a t => simp

theorem lastD_cons_cons (a b : Str) (t : List Str) :
    lastD (a :: b :: t) = lastD (b :: t) := by
  simp [lastD, List.getLastD]

theorem lastD_single (a : Str) : lastD [a] = a := rfl

theorem mem_dropLast_or_lastD (l : List Str) (x : Str) (h : x ∈ l) :
    x ∈ l.dropLast ∨ x = lastD l := by
  induction l with
  | nil => simp at h
  | cons a t ih =>
    cases t with
    | nil =>
      simp only [List.mem_singleton] at h
      subst h
      right
      rfl
    | cons b t' =>
      rcases List.mem_cons.mp h with rfl | h'
      · left
        simp
      · rcases ih h' with h1 | h2
        · left
          rw [List.dropLast_cons₂]
          exact List.mem_cons_of_mem a h1
        · right
          rw [lastD_cons_cons]
          exact h2

theorem lastD_mem (l : List Str) (h : l ≠ []) : lastD l ∈ l := by
  induction l with
  | nil => exact absurd rfl h
  | cons a t ih =>
    cases t with
    | nil => simp [lastD_single]
    | cons b t' =>
      rw [lastD_cons_cons]
      exact List.mem_cons_of_mem a (ih (by simp))

theorem splitOnChar_append (c : Char) (x z : Str) :
    splitOnChar c (x ++ z) =
      (splitOnChar c x).dropLast ++
        (lastD (splitOnChar c x) ++ (splitOnChar c z).headD []) ::
          (splitOnChar c z).tail := by
  induction x with
  | nil =>
    cases hz : splitOnChar c z with
    | nil => exact absurd hz (splitOnChar_ne_nil c z)
    | cons b bs => simp [splitOnChar, hz, lastD]
  | cons x₀ xs ih =>
    simp only [List.cons_append]
    rw [splitOnChar_cons, splitOnChar_cons c x₀ xs]
    by_cases hc : x₀ = c
    · rw [if_pos hc, if_pos hc, ih]
      cases ha : splitOnChar c xs with
      | nil => exact absurd ha (splitOnChar_ne_nil c xs)
      | cons a t =>
        cases t with
        | nil => simp [lastD]
        | cons a₂ t' => simp [lastD_cons_cons, List.dropLast_cons₂]
    · rw [if_neg hc, if_neg hc, ih]
      cases ha : splitOnChar c xs with
      | nil => exact absurd ha (splitOnChar_ne_nil c xs)
      | cons a t =>
        cases t with
        | nil => simp [lastD]
        | cons a₂ t' => simp [lastD_cons_cons, List.dropLast_cons₂]

theorem mem_of_mem_splitOnChar (c : Char) (s ℓ : Str) (h : ℓ ∈ splitOnChar c s) :
    ∀ a ∈ ℓ, a ∈ s := by
  induction s generalizing ℓ with
  | nil =>
    simp only [splitOnChar, List.mem_singleton] at h
    subst h
    simp
  | cons x xs ih =>
    rw [splitOnChar_cons] at h
    split at h
    · rcases List.mem_cons.mp h with rfl | h'
      · simp
      · intro a ha
        exact List.mem_cons_of_mem x (ih ℓ h' a ha)
    · rcases List.mem_cons.mp h with rfl | h'
      · intro a ha
        rcases List.mem_cons.mp ha with rfl | ha'
        · simp
        · exact List.mem_cons_of_mem x
            (ih _ (headD_mem _ _ (splitOnChar_ne_nil c xs)) a ha')
      · intro a ha
        exact List.mem_cons_of_mem x
          (ih ℓ (List.mem_of_mem_tail h') a ha)

theorem sep_not_mem_of_mem_splitOnChar (c : Char) (s ℓ : Str)
    (h : ℓ ∈ splitOnChar c s) : c ∉ ℓ := by
  induction s generalizing ℓ with
  | nil =>
    simp only [splitOnChar, List.mem_singleton] at h
    subst h
    simp
  | cons x xs ih =>
    rw [splitOnChar_cons] at h
    split at h
    · rcases List.mem_cons.mp h with rfl | h'
      · simp
      · exact ih ℓ h'
    · rename_i hx
      rcases List.mem_cons.mp h with rfl | h'
      · intro hmem
        rcases List.mem_cons.mp hmem with rfl | hmem'
        · exact hx rfl
        · exact ih _ (headD_mem _ _ (splitOnChar_ne_nil c xs)) hmem'
      · exact ih ℓ (List.mem_of_mem_tail h')

/-- Every line of `x` has, among the lines of `x ++ w` for whitespace
`w`, a line with the same trim. -/
theorem lines_trim_transfer_right (x w : Str) (hw : ∀ c ∈ w, isWS c) :
    ∀ ℓ ∈ splitLines x, ∃ ℓ' ∈ splitLines (x ++ w), trim ℓ = trim ℓ' := by
  intro ℓ hl
  have happ := splitOnChar_append '\n' x w
  rcases mem_dropLast_or_lastD _ _ hl with hdl | hlast
  · refine ⟨ℓ, ?_, rfl⟩
    show ℓ ∈ splitOnChar '\n' (x ++ w)
    rw [happ]
    exact List.mem_append_left _ hdl
  · refine ⟨lastD (splitLines x) ++ (splitLines w).headD [], ?_, ?_⟩
    · show _ ∈ splitOnChar '\n' (x ++ w)
      rw [happ]
      exact List.mem_append_right _ (List.mem_cons_self _ _)
    · subst hlast
      rw [trim_ws_append_right]
      intro a ha
      exact hw a (mem_of_mem_splitOnChar '\n' w _
        (headD_mem _ _ (splitOnChar_ne_nil '\n' w)) a ha)

/-- Every line of `x` has, among the lines of `w ++ x` for whitespace
`w`, a line with the same trim. -/
theorem lines_trim_transfer_left (w x : Str) (hw : ∀ c ∈ w, isWS c) :
    ∀ ℓ ∈ splitLines x, ∃ ℓ' ∈ splitLines (w ++ x), trim ℓ = trim ℓ' := by
  intro ℓ hl
  have happ := splitOnChar_append '\n' w x
  have hx : splitLines x ≠ [] := splitOnChar_ne_nil '\n' x
  have hdecomp : ℓ = (splitLines x).headD [] ∨ ℓ ∈ (splitLines x).tail := by
    cases hsx : splitLines x with
    | nil => exact absurd hsx hx
    | cons a t =>
      rw [hsx] at hl
      rcases List.mem_cons.mp hl with rfl | h'
      · left
        simp
      · right
        simpa using h'
  rcases hdecomp with hhead | htail
  · refine ⟨lastD (splitLines w) ++ (splitLines x).headD [], ?_, ?_⟩
    · show _ ∈ splitOnChar '\n' (w ++ x)
      rw [happ]
      exact List.mem_append_right _ (List.mem_cons_self _ _)
    · subst hhead
      rw [trim_ws_append_left]
      intro a ha
      exact hw a (mem_of_mem_splitOnChar '\n' w _
        (lastD_mem _ (splitOnChar_ne_nil '\n' w)) a ha)
  · refine ⟨ℓ, ?_, rfl⟩
    show ℓ ∈ splitOnChar '\n' (w ++ x)
    rw [happ]
    exact List.mem_append_right _ (List.mem_cons_of_mem _ htail)

/-- Every line of `trim z` has a line of `z` with the same trim. -/
theorem lines_trim_transfer (z : Str) :
    ∀ ℓ ∈ splitLines (trim z), ∃ ℓ' ∈ splitLines z, trim ℓ = trim ℓ' := by
  intro ℓ hl
  obtain ⟨w', hw'eq, hw'ws⟩ := trimRight_decomp (trimLeft z)
  have step1 : ∃ ℓ₁ ∈ splitLines (trimLeft z), trim ℓ = trim ℓ₁ := by
    have h := lines_trim_transfer_right (trim z) w' hw'ws ℓ hl
    rwa [show (trim z : Str) ++ w' = trimLeft z from hw'eq.symm] at h
  obtain ⟨ℓ₁, hℓ₁, htrim₁⟩ := step1
  have step2 : ∃ ℓ₂ ∈ splitLines z, trim ℓ₁ = trim ℓ₂ := by
    have h := lines_trim_transfer_left (z.takeWhile isWS) (trimLeft z)
      (takeWhile_all_ws z) ℓ₁ hℓ₁
    rwa [show z.takeWhile isWS ++ trimLeft z = z from (trimLeft_decomp z).symm] at h
  obtain ⟨ℓ₂, hℓ₂, htrim₂⟩ := step2
  exact ⟨ℓ₂, hℓ₂, htrim₁.trans htrim₂⟩

/-! ## Body comment-free invariant (C10) -/

theorem bodyContentOf_detectBodyType (b : Str) (hs : List RequestHeader) :
    bodyContentOf (detectBodyType b hs) = b := by
  simp only [detectBodyType]
  repeat' split
  all_goals simp [bodyContentOf]

/-! ### Branch lemmas for the parse loop -/

theorem processTrimmed_sep (s : ParseState) (ℓ t : Str)
    (h1 : t = str ("###")) : processTrimmed s ℓ t = s := by
  unfold processTrimmed
  rw [if_pos h1]

theorem processTrimmed_name (s : ParseState) (ℓ t : Str)
    (h1 : ¬ t = str ("###"))
    (h2 : startsWith (str ("# @name ")) t = true) :
    processTrimmed s ℓ t = { s with req := { s.req with name := trim (t.drop 8) } } := by
  unfold processTrimmed
  rw [if_neg h1, if_pos h2]

theorem processTrimmed_description (s : ParseState) (ℓ t : Str)
    (h1 : ¬ t = str ("###"))
    (h2 : ¬ startsWith (str ("# @name ")) t = true)
    (h3 : startsWith (str ("# @description ")) t = true) :
    processTrimmed s ℓ t =
      { s with req := { s.req with description := Option.some (trim (t.drop 15)) } } := by
  unfold processTrimmed
  rw [if_neg h1, if_neg h2, if_pos h3]

theorem processTrimmed_tag (s : ParseState) (ℓ t : Str)
    (h1 : ¬ t = str ("###"))
    (h2 : ¬ startsWith (str ("# @name ")) t = true)
    (h3 : ¬ startsWith (str ("# @description ")) t = true)
    (h4 : startsWith (str ("# @tag ")) t = true) :
    processTrimmed s ℓ t =
      { s with req := { s.req with
          tags := Option.some ((splitOnChar ',' (t.drop 7)).map trim) } } := by
  unfold processTrimmed
  rw [if_neg h1, if_neg h2, if_neg h3, if_pos h4]

theorem processTrimmed_scriptOpen (s : ParseState) (ℓ t : Str)
    (h1 : ¬ t = str ("###"))
    (h2 : ¬ startsWith (str ("# @name ")) t = true)
    (h3 : ¬ startsWith (str ("# @description ")) t = true)
    (h4 : ¬ startsWith (str ("# @tag ")) t = true)
    (h5 : startsWith (str ("\x7b\x7b")) t = true) :
    processTrimmed s ℓ t =
      { s with inScript := true,
               scriptType := if strContains t (str ("@pre")) then Option.some ScriptKind.pre
                             else Option.some ScriptKind.test } := by
  unfold processTrimmed
  rw [if_neg h1, if_neg h2, if_neg h3, if_neg h4, if_pos h5]

theorem processTrimmed_scriptClose (s : ParseState) (ℓ t : Str)
    (h1 : ¬ t = str ("###"))
    (h2 : ¬ startsWith (str ("# @name ")) t = true)
    (h3 : ¬ startsWith (str ("# @description ")) t = true)
    (h4 : ¬ startsWith (str ("# @tag ")) t = true)
    (h5 : ¬ startsWith (str ("\x7b\x7b")) t = true)
    (h6 : startsWith (str ("\x7d\x7d")) t = true) :
    processTrimmed s ℓ t =
      { s with req := closeScriptReq s, inScript := false,
               scriptType := Option.none, scriptLines := [] } := by
  unfold processTrimmed
  rw [if_neg h1, if_neg h2, if_neg h3, if_neg h4, if_neg h5, if_pos h6]

theorem processTrimmed_scriptLine (s : ParseState) (ℓ t : Str)
    (h1 : ¬ t = str ("###"))
    (h2 : ¬ startsWith (str ("# @name ")) t = true)
    (h3 : ¬ startsWith (str ("# @description ")) t = true)
    (h4 : ¬ startsWith (str ("# @tag ")) t = true)
    (h5 : ¬ startsWith (str ("\x7b\x7b")) t = true)
    (h6 : ¬ startsWith (str ("\x7d\x7d")) t = true)
    (h7 : s.inScript = true) :
    processTrimmed s ℓ t = { s with scriptLines := s.scriptLines ++ [ℓ] } := by
  unfold processTrimmed
  rw [if_neg h1, if_neg h2, if_neg h3, if_neg h4, if_neg h5, if_neg h6, if_pos h7]

theorem processTrimmed_comment (s : ParseState) (ℓ t : Str)
    (h1 : ¬ t = str ("###"))
    (h2 : ¬ startsWith (str ("# @name ")) t = true)
    (h3 : ¬ startsWith (str ("# @description ")) t = true)
    (h4 : ¬ startsWith (str ("# @tag ")) t = true)
    (h5 : ¬ startsWith (str ("\x7b\x7b")) t = true)
    (h6 : ¬ startsWith (str ("\x7d\x7d")) t = true)
    (h7 : ¬ s.inScript = true)
    (h8 : (startsWith (str ("#")) t || startsWith (str ("//")) t) = true) :
    processTrimmed s ℓ t = s := by
  unfold processTrimmed
  rw [if_neg h1, if_neg h2, if_neg h3, if_neg h4, if_neg h5, if_neg h6, if_neg h7,
    if_pos h8]

theorem processTrimmed_requestLine (s : ParseState) (ℓ t : Str)
    (mu : HttpMethod × Str)
    (h1 : ¬ t = str ("###"))
    (h2 : ¬ startsWith (str ("# @name ")) t = true)
    (h3 : ¬ startsWith (str ("# @description ")) t = true)
    (h4 : ¬ startsWith (str ("# @tag ")) t = true)
    (h5 : ¬ startsWith (str ("\x7b\x7b")) t = true)
    (h6 : ¬ startsWith (str ("\x7d\x7d")) t = true)
    (h7 : ¬ s.inScript = true)
    (h8 : ¬ (startsWith (str ("#")) t || startsWith (str ("//")) t) = true)
    (hm : matchRequestLine t = Option.some mu) :
    processTrimmed s ℓ t = { s with req := applyRequestLine s.req mu } := by
  unfold processTrimmed
  rw [if_neg h1, if_neg h2, if_neg h3, if_neg h4, if_neg h5, if_neg h6, if_neg h7,
    if_neg h8, hm]

theorem processTrimmed_blank (s : ParseState) (ℓ t : Str)
    (h1 : ¬ t = str ("###"))
    (h2 : ¬ startsWith (str ("# @name ")) t = true)
    (h3 : ¬ startsWith (str ("# @description ")) t = true)
    (h4 : ¬ startsWith (str ("# @tag ")) t = true)
    (h5 : ¬ startsWith (str ("\x7b\x7b")) t = true)
    (h6 : ¬ startsWith (str ("\x7d\x7d")) t = true)
    (h7 : ¬ s.inScript = true)
    (h8 : ¬ (startsWith (str ("#")) t || startsWith (str ("//")) t) = true)
    (hm : matchRequestLine t = Option.none)
    (h9 : (!s.inBody && t = [] && s.req.url ≠ []) = true) :
    processTrimmed s ℓ t = { s with inBody := true } := by
  unfold processTrimmed
  rw [if_neg h1, if_neg h2, if_neg h3, if_neg h4, if_neg h5, if_neg h6, if_neg h7,
    if_neg h8, hm]
  show (if (!s.inBody && t = [] && s.req.url ≠ []) = true then _ else _) = _
  rw [if_pos h9]

theorem processTrimmed_header (s : ParseState) (ℓ t : Str) (i : Nat)
    (h1 : ¬ t = str ("###"))
    (h2 : ¬ startsWith (str ("# @name ")) t = true)
    (h3 : ¬ startsWith (str ("# @description ")) t = true)
    (h4 : ¬ startsWith (str ("# @tag ")) t = true)
    (h5 : ¬ startsWith (str ("\x7b\x7b")) t = true)
    (h6 : ¬ startsWith (str ("\x7d\x7d")) t = true)
    (h7 : ¬ s.inScript = true)
    (h8 : ¬ (startsWith (str ("#")) t || startsWith (str ("//")) t) = true)
    (hm : matchRequestLine t = Option.none)
    (h9 : ¬ (!s.inBody && t = [] && s.req.url ≠ []) = true)
    (hA : (!s.inBody && strContains t (str (":"))) = true)
    (hf : t.findIdx? (· = ':') = Option.some i)
    (hkey : (trim (t.take i) ≠ [] && ¬ startsWith (str ("\x7b")) (trim (t.take i))) = true) :
    processTrimmed s ℓ t =
      { s with req := { s.req with
          headers := s.req.headers ++
            [⟨trim (t.take i), trim (t.drop (i + 1)), true⟩] } } := by
  unfold processTrimmed
  rw [if_neg h1, if_neg h2, if_neg h3, if_neg h4, if_neg h5, if_neg h6, if_neg h7,
    if_neg h8, hm]
  show (if (!s.inBody && t = [] && s.req.url ≠ []) = true then _ else _) = _
  rw [if_neg h9, if_pos hA, hf]
  show (if (trim (t.take i) ≠ [] && ¬ startsWith (str ("\x7b")) (trim (t.take i))) = true
    then _ else _) = _
  rw [if_pos hkey]

theorem processTrimmed_headerRejected (s : ParseState) (ℓ t : Str) (i : Nat)
    (h1 : ¬ t = str ("###"))
    (h2 : ¬ startsWith (str ("# @name ")) t = true)
    (h3 : ¬ startsWith (str ("# @description ")) t = true)
    (h4 : ¬ startsWith (str ("# @tag ")) t = true)
    (h5 : ¬ startsWith (str ("\x7b\x7b")) t = true)
    (h6 : ¬ startsWith (str ("\x7d\x7d")) t = true)
    (h7 : ¬ s.inScript = true)
    (h8 : ¬ (startsWith (str ("#")) t || startsWith (str ("//")) t) = true)
    (hm : matchRequestLine t = Option.none)
    (h9 : ¬ (!s.inBody && t = [] && s.req.url ≠ []) = true)
    (hA : (!s.inBody && strContains t (str (":"))) = true)
    (hf : t.findIdx? (· = ':') = Option.some i)
    (hkey : ¬ (trim (t.take i) ≠ [] && ¬ startsWith (str ("\x7b")) (trim (t.take i))) = true) :
    processTrimmed s ℓ t = s := by
  unfold processTrimmed
  rw [if_neg h1, if_neg h2, if_neg h3, if_neg h4, if_neg h5, if_neg h6, if_neg h7,
    if_neg h8, hm]
  show (if (!s.inBody && t = [] && s.req.url ≠ []) = true then _ else _) = _
  rw [if_neg h9, if_pos hA, hf]
  show (if (trim (t.take i) ≠ [] && ¬ startsWith (str ("\x7b")) (trim (t.take i))) = true
    then _ else _) = _
  rw [if_neg hkey]

theorem processTrimmed_headerNoColon (s : ParseState) (ℓ t : Str)
    (h1 : ¬ t = str ("###"))
    (h2 : ¬ startsWith (str ("# @name ")) t = true)
    (h3 : ¬ startsWith (str ("# @description ")) t = true)
    (h4 : ¬ startsWith (str ("# @tag ")) t = true)
    (h5 : ¬ startsWith (str ("\x7b\x7b")) t = true)
    (h6 : ¬ startsWith (str ("\x7d\x7d")) t = true)
    (h7 : ¬ s.inScript = true)
    (h8 : ¬ (startsWith (str ("#")) t || startsWith (str ("//")) t) = true)
    (hm : matchRequestLine t = Option.none)
    (h9 : ¬ (!s.inBody && t = [] && s.req.url ≠ []) = true)
    (hA : (!s.inBody && strContains t (str (":"))) = true)
    (hf : t.findIdx? (· = ':') = Option.none) :
    processTrimmed s ℓ t = s := by
  unfold processTrimmed
  rw [if_neg h1, if_neg h2, if_neg h3, if_neg h4, if_neg h5, if_neg h6, if_neg h7,
    if_neg h8, hm]
  show (if (!s.inBody && t = [] && s.req.url ≠ []) = true then _ else _) = _
  rw [if_neg h9, if_pos hA, hf]

theorem processTrimmed_bodyLine (s : ParseState) (ℓ t : Str)
    (h1 : ¬ t = str ("###"))
    (h2 : ¬ startsWith (str ("# @name ")) t = true)
    (h3 : ¬ startsWith (str ("# @description ")) t = true)
    (h4 : ¬ startsWith (str ("# @tag ")) t = true)
    (h5 : ¬ startsWith (str ("\x7b\x7b")) t = true)
    (h6 : ¬ startsWith (str ("\x7d\x7d")) t = true)
    (h7 : ¬ s.inScript = true)
    (h8 : ¬ (startsWith (str ("#")) t || startsWith (str ("//")) t) = true)
    (hm : matchRequestLine t = Option.none)
    (h9 : ¬ (!s.inBody && t = [] && s.req.url ≠ []) = true)
    (hA : ¬ (!s.inBody && strContains t (str (":"))) = true)
    (hB : s.inBody = true) :
    processTrimmed s ℓ t = { s with bodyLines := s.bodyLines ++ [ℓ] } := by
  unfold processTrimmed
  rw [if_neg h1, if_neg h2, if_neg h3, if_neg h4, if_neg h5, if_neg h6, if_neg h7,
    if_neg h8, hm]
  show (if (!s.inBody && t = [] && s.req.url ≠ []) = true then _ else _) = _
  rw [if_neg h9, if_neg hA, if_pos hB]

theorem processTrimmed_noop (s : ParseState) (ℓ t : Str)
    (h1 : ¬ t = str ("###"))
    (h2 : ¬ startsWith (str ("# @name ")) t = true)
    (h3 : ¬ startsWith (str ("# @description ")) t = true)
    (h4 : ¬ startsWith (str ("# @tag ")) t = true)
    (h5 : ¬ startsWith (str ("\x7b\x7b")) t = true)
    (h6 : ¬ startsWith (str ("\x7d\x7d")) t = true)
    (h7 : ¬ s.inScript = true)
    (h8 : ¬ (startsWith (str ("#")) t || startsWith (str ("//")) t) = true)
    (hm : matchRequestLine t = Option.none)
    (h9 : ¬ (!s.inBody && t = [] && s.req.url ≠ []) = true)
    (hA : ¬ (!s.inBody && strContains t (str (":"))) = true)
    (hB : ¬ s.inBody = true) :
    processTrimmed s ℓ t = s := by
  unfold processTrimmed
  rw [if_neg h1, if_neg h2, if_neg h3, if_neg h4, if_neg h5, if_neg h6, if_neg h7,
    if_neg h8, hm]
  show (if (!s.inBody && t = [] && s.req.url ≠ []) = true then _ else _) = _
  rw [if_neg h9, if_neg hA, if_neg hB]

theorem processLine_body_effects (s : ParseState) (ℓ : Str) :
    (processLine s ℓ).req.body = s.req.body ∧
    ((processLine s ℓ).bodyLines = s.bodyLines ∨
     ((processLine s ℓ).bodyLines = s.bodyLines ++ [ℓ] ∧
      startsWith (str ("#")) (trim ℓ) = false ∧
      startsWith (str ("//")) (trim ℓ) = false)) := by
  have hp : processLine s ℓ = processTrimmed s ℓ (trim ℓ) := rfl
  by_cases h1 : trim ℓ = str ("###")
  · rw [hp, processTrimmed_sep s ℓ _ h1]
    exact ⟨rfl, Or.inl rfl⟩
  by_cases h2 : startsWith (str ("# @name ")) (trim ℓ) = true
  · rw [hp, processTrimmed_name s ℓ _ h1 h2]
    exact ⟨rfl, Or.inl rfl⟩
  by_cases h3 : startsWith (str ("# @description ")) (trim ℓ) = true
  · rw [hp, processTrimmed_description s ℓ _ h1 h2 h3]
    exact ⟨rfl, Or.inl rfl⟩
  by_cases h4 : startsWith (str ("# @tag ")) (trim ℓ) = true
  · rw [hp, processTrimmed_tag s ℓ _ h1 h2 h3 h4]
    exact ⟨rfl, Or.inl rfl⟩
  by_cases h5 : startsWith (str ("\x7b\x7b")) (trim ℓ) = true
  · rw [hp, processTrimmed_scriptOpen s ℓ _ h1 h2 h3 h4 h5]
    exact ⟨rfl, Or.inl rfl⟩
  by_cases h6 : startsWith (str ("\x7d\x7d")) (trim ℓ) = true
  · rw [hp, processTrimmed_scriptClose s ℓ _ h1 h2 h3 h4 h5 h6]
    refine ⟨?_, Or.inl rfl⟩
    show (closeScriptReq s).body = s.req.body
    unfold closeScriptReq
    rcases s.scriptType with _ | k
    · rfl
    · cases k <;> rfl
  by_cases h7 : s.inScript = true
  · rw [hp, processTrimmed_scriptLine s ℓ _ h1 h2 h3 h4 h5 h6 h7]
    exact ⟨rfl, Or.inl rfl⟩
  by_cases h8 : (startsWith (str ("#")) (trim ℓ) ||
      startsWith (str ("//")) (trim ℓ)) = true
  · rw [hp, processTrimmed_comment s ℓ _ h1 h2 h3 h4 h5 h6 h7 h8]
    exact ⟨rfl, Or.inl rfl⟩
  cases hm : matchRequestLine (trim ℓ) with
  | some mu =>
    rw [hp, processTrimmed_requestLine s ℓ _ mu h1 h2 h3 h4 h5 h6 h7 h8 hm]
    exact ⟨rfl, Or.inl rfl⟩
  | none =>
    by_cases h9 : (!s.inBody && trim ℓ = [] && s.req.url ≠ []) = true
    · rw [hp, processTrimmed_blank s ℓ _ h1 h2 h3 h4 h5 h6 h7 h8 hm h9]
      exact ⟨rfl, Or.inl rfl⟩
    by_cases hA : (!s.inBody && strContains (trim ℓ) (str (":"))) = true
    · cases hf : (trim ℓ).findIdx? (· = ':') with
      | some i =>
        by_cases hkey : (trim ((trim ℓ).take i) ≠ [] &&
            ¬ startsWith (str ("\x7b")) (trim ((trim ℓ).take i))) = true
        · rw [hp, processTrimmed_header s ℓ _ i h1 h2 h3 h4 h5 h6 h7 h8 hm h9 hA hf hkey]
          exact ⟨rfl, Or.inl rfl⟩
        · rw [hp,
            processTrimmed_headerRejected s ℓ _ i h1 h2 h3 h4 h5 h6 h7 h8 hm h9 hA hf hkey]
          exact ⟨rfl, Or.inl rfl⟩
      | none =>
        rw [hp, processTrimmed_headerNoColon s ℓ _ h1 h2 h3 h4 h5 h6 h7 h8 hm h9 hA hf]
        exact ⟨rfl, Or.inl rfl⟩
    by_cases hB : s.inBody = true
    · rw [hp, processTrimmed_bodyLine s ℓ _ h1 h2 h3 h4 h5 h6 h7 h8 hm h9 hA hB]
      rw [Bool.or_eq_true, not_or] at h8
      refine ⟨rfl, Or.inr ⟨rfl, ?_, ?_⟩⟩
      · simpa using h8.1
      · simpa using h8.2
    · rw [hp, processTrimmed_noop s ℓ _ h1 h2 h3 h4 h5 h6 h7 h8 hm h9 hA hB]
      exact ⟨rfl, Or.inl rfl⟩

theorem foldl_body_invariant (lines : List Str) (s : ParseState)
    (hlnl : ∀ ℓ ∈ lines, ('\n' : Char) ∉ ℓ)
    (hs : ∀ ℓ ∈ s.bodyLines,
      startsWith (str ("#")) (trim ℓ) = false ∧
      startsWith (str ("//")) (trim ℓ) = false ∧ ('\n' : Char) ∉ ℓ) :
    (lines.foldl processLine s).req.body = s.req.body ∧
    ∀ ℓ ∈ (lines.foldl processLine s).bodyLines,
      startsWith (str ("#")) (trim ℓ) = false ∧
      startsWith (str ("//")) (trim ℓ) = false ∧ ('\n' : Char) ∉ ℓ := by
  induction lines generalizing s with
  | nil => exact ⟨rfl, hs⟩
  | cons ℓ₀ rest ih =>
    rw [List.foldl_cons]
    obtain ⟨hbody, hlines⟩ := processLine_body_effects s ℓ₀
    have hnext : ∀ ℓ ∈ (processLine s ℓ₀).bodyLines,
        startsWith (str ("#")) (trim ℓ) = false ∧
        startsWith (str ("//")) (trim ℓ) = false ∧ ('\n' : Char) ∉ ℓ := by
      rcases hlines with h | ⟨h, hc1, hc2⟩
      · rw [h]
        exact hs
      · rw [h]
        intro ℓ hl
        rcases List.mem_append.mp hl with hmem | hmem
        · exact hs ℓ hmem
        · rw [List.mem_singleton.mp hmem]
          exact ⟨hc1, hc2, hlnl ℓ₀ (by simp)⟩
    obtain ⟨ih1, ih2⟩ := ih (processLine s ℓ₀)
      (fun ℓ hm => hlnl ℓ (by simp [hm])) hnext
    exact ⟨ih1.trans hbody, ih2⟩

/-- Claim C10: the parser discards comment-like lines (trimmed form
starting with `#` or `//`) even in body-collection mode, so no line of
the parsed body's content is comment-like; in particular a raw body
consisting of a comment line is lost entirely through parse. -/
theorem parse_body_comment_free :
    (∀ (text : Str) (fileUri : Option Str),
       ∀ ℓ ∈ splitLines (bodyContentOf (parseHttpText text fileUri).body),
         startsWith (str ("#")) (trim ℓ) = false ∧
         startsWith (str ("//")) (trim ℓ) = false) ∧
    (parseHttpText (str ("GET http://x\n\n# hi\n\nok")) Option.none).body =
      RequestBody.raw (str ("ok")) ∧
    (parseHttpText (str ("GET http://x\n\n# hi")) Option.none).body =
      RequestBody.none := by
  refine ⟨?_, by decide, by decide⟩
  intro text fileUri ℓ hl
  obtain ⟨hbody, hinv⟩ := foldl_body_invariant (splitLines text)
    (initParseState fileUri)
    (fun ℓ' h' => sep_not_mem_of_mem_splitOnChar '\n' text ℓ' h')
    (by intro ℓ' h'; simp [initParseState] at h')
  have hbody' : ((splitLines text).foldl processLine
      (initParseState fileUri)).req.body = RequestBody.none := by
    rw [hbody]
    rfl
  have hcase :
      (parseHttpText text fileUri).body = RequestBody.none ∨
      ((parseHttpText text fileUri).body =
         detectBodyType
           (trim (joinLines ((splitLines text).foldl processLine
             (initParseState fileUri)).bodyLines))
           ((splitLines text).foldl processLine (initParseState fileUri)).req.headers ∧
       ((splitLines text).foldl processLine (initParseState fileUri)).bodyLines ≠ []) := by
    unfold parseHttpText finishRequest
    by_cases hc1 : ((splitLines text).foldl processLine
        (initParseState fileUri)).bodyLines ≠ []
    · rw [if_pos hc1]
      by_cases hc2 : trim (joinLines (((splitLines text).foldl processLine
          (initParseState fileUri)).bodyLines)) ≠ []
      · rw [if_pos hc2]
        right
        exact ⟨rfl, hc1⟩
      · rw [if_neg hc2]
        left
        exact hbody'
    · rw [if_neg hc1]
      left
      exact hbody'
  rcases hcase with hnone | ⟨hdet, hne⟩
  · rw [hnone] at hl
    simp only [bodyContentOf] at hl
    have : ℓ = [] := by
      simpa [splitLines, splitOnChar] using hl
    subst this
    constructor <;> decide
  · rw [hdet, bodyContentOf_detectBodyType] at hl
    obtain ⟨ℓ', hℓ', htr⟩ := lines_trim_transfer _ ℓ hl
    rw [splitLines_joinLines _ hne] at hℓ'
    rw [List.mem_flatMap] at hℓ'
    obtain ⟨ℓ₀, hℓ₀, hmem⟩ := hℓ'
    obtain ⟨hc1, hc2, hnl⟩ := hinv ℓ₀ hℓ₀
    have hone : splitLines ℓ₀ = [ℓ₀] := splitLines_no_nl ℓ₀ hnl
    rw [hone, List.mem_singleton] at hmem
    subst hmem
    rw [htr]
    exact ⟨hc1, hc2⟩


/-- Witness for `parse_body_comment_free`. -/
theorem parse_body_comment_free_witness :
    (str ("ok")) ∈ splitLines (bodyContentOf
      (parseHttpText (str ("GET http://x\n\nok")) Option.none).body) ∧
    (startsWith (str ("#")) (trim (str ("ok"))) = false ∧
     startsWith (str ("//")) (trim (str ("ok"))) = false) :=
  ⟨by decide,
   parse_body_comment_free.1 (str ("GET http://x\n\nok")) Option.none
     (str ("ok")) (by decide)⟩

/-! ## Request line processing (C8) -/

/-- Claim C8 (counterexample): for `GET http://a` followed by
`POST http://b?x?y=1`, the second matching line overwrites the method
and URL (the first line does not determine them), and the query string
is only the segment between the first and second `?` — the remainder
after the first `?` would have decoded differently. -/
theorem requestLine_counterexample :
    (parseHttpText (str ("GET http://a\nPOST http://b?x?y=1")) Option.none).method =
      HttpMethod.POST ∧
    (parseHttpText (str ("GET http://a\nPOST http://b?x?y=1")) Option.none).url =
      str ("http://b") ∧
    (parseHttpText (str ("GET http://a\nPOST http://b?x?y=1")) Option.none).queryParams =
      [⟨str ("x"), [], true⟩] ∧
    decodeQueryString (str ("x?y=1")) = [⟨str ("x?y"), str ("1"), true⟩] ∧
    HttpMethod.POST ≠ HttpMethod.GET ∧
    ([⟨str ("x"), [], true⟩] : List QueryParam) ≠
      [⟨str ("x?y"), str ("1"), true⟩] := by
  refine ⟨?_, ?_, ?_, ?_, ?_, ?_⟩ <;> decide

/-- Claim C8 (amended): a line that reaches the request-line check (not
a separator, metadata marker, script marker or comment, and not inside
a script block) and matches `<METHOD> <url>` case-insensitively sets
the parsed method and URL — so the last such line determines them —
and appends the decoded query parameters of its URL.  The URL is split
at `?`: the base URL is the text before the first `?`; the query
string is the segment between the first and second `?` (the entire
remainder when there is exactly one `?`; an empty segment yields no
parameters); every decoded parameter is enabled. -/
theorem requestLine_amended :
    (∀ (s : ParseState) (ℓ : Str) (mu : HttpMethod × Str),
       ¬ trim ℓ = str ("###") →
       ¬ startsWith (str ("# @name ")) (trim ℓ) = true →
       ¬ startsWith (str ("# @description ")) (trim ℓ) = true →
       ¬ startsWith (str ("# @tag ")) (trim ℓ) = true →
       ¬ startsWith (str ("\x7b\x7b")) (trim ℓ) = true →
       ¬ startsWith (str ("\x7d\x7d")) (trim ℓ) = true →
       ¬ s.inScript = true →
       ¬ (startsWith (str ("#")) (trim ℓ) || startsWith (str ("//")) (trim ℓ)) = true →
       matchRequestLine (trim ℓ) = Option.some mu →
       processLine s ℓ = { s with req := applyRequestLine s.req mu }) ∧
    (∀ (a q rest2 : Str), '?' ∉ a → '?' ∉ q →
       urlPartOf (a ++ '?' :: (q ++ '?' :: rest2)) = a ∧
       queryStringOf (a ++ '?' :: (q ++ '?' :: rest2)) =
         (if q = [] then Option.none else Option.some q)) ∧
    (∀ (a q : Str), '?' ∉ a → '?' ∉ q →
       urlPartOf (a ++ '?' :: q) = a ∧
       queryStringOf (a ++ '?' :: q) =
         (if q = [] then Option.none else Option.some q)) ∧
    (∀ (u : Str), '?' ∉ u → urlPartOf u = u ∧ queryStringOf u = Option.none) ∧
    (∀ (fullUrl : Str) (p : QueryParam),
       p ∈ queryParamsOf fullUrl → p.enabled = true) := by
  refine ⟨?_, ?_, ?_, ?_, ?_⟩
  · intro s ℓ mu h1 h2 h3 h4 h5 h6 h7 h8 hm
    exact processTrimmed_requestLine s ℓ (trim ℓ) mu h1 h2 h3 h4 h5 h6 h7 h8 hm
  · intro a q rest2 ha hq
    have hsplit : splitOnChar '?' (a ++ '?' :: (q ++ '?' :: rest2)) =
        a :: q :: splitOnChar '?' rest2 := by
      rw [splitOnChar_sep, splitOnChar_no_sep _ a ha, splitOnChar_sep,
        splitOnChar_no_sep _ q hq]
      rfl
    constructor
    · rw [urlPartOf, hsplit]
      rfl
    · rw [queryStringOf, hsplit]
  · intro a q ha hq
    have hsplit : splitOnChar '?' (a ++ '?' :: q) = [a, q] := by
      rw [splitOnChar_sep, splitOnChar_no_sep _ a ha, splitOnChar_no_sep _ q hq]
      rfl
    constructor
    · rw [urlPartOf, hsplit]
      rfl
    · rw [queryStringOf, hsplit]
  · intro u hu
    have hsplit : splitOnChar '?' u = [u] := splitOnChar_no_sep _ u hu
    constructor
    · rw [urlPartOf, hsplit]
      rfl
    · rw [queryStringOf, hsplit]
  · intro fullUrl p hp
    rw [queryParamsOf] at hp
    rcases hq : queryStringOf fullUrl with _ | q
    · rw [hq] at hp
      simp at hp
    · rw [hq] at hp
      simp only [decodeQueryString, List.mem_filterMap] at hp
      obtain ⟨piece, _, hpc⟩ := hp
      split at hpc
      · simp at hpc
      · simp only [Option.some.injEq] at hpc
        rw [← hpc]

/-- Witness for `requestLine_amended`. -/
theorem requestLine_amended_witness :
    (¬ trim (str ("GET http://x?a=1")) = str ("###")) ∧
    processLine (initParseState Option.none) (str ("GET http://x?a=1")) =
      { initParseState Option.none with
        req := applyRequestLine (initParseState Option.none).req
          (HttpMethod.GET, str ("http://x?a=1")) } :=
  ⟨by decide,
   requestLine_amended.1 (initParseState Option.none) (str ("GET http://x?a=1"))
     (HttpMethod.GET, str ("http://x?a=1"))
     (by decide) (by decide) (by decide) (by decide) (by decide) (by decide)
     (by decide) (by decide) (by decide)⟩

/-! ## Round-trip machinery (C1): string shape helpers -/

theorem trimLeft_eq_self (s : Str) (h : ∀ c, s.headD 'x' = c → isWS c = false) :
    trimLeft s = s := by
  cases s with
  | nil => rfl
  | cons c cs =>
    simp only [trimLeft, List.dropWhile_cons]
    rw [h c rfl]
    simp

theorem trimRight_eq_self (s : Str) (h : ∀ c, s.getLastD 'x' = c → isWS c = false) :
    trimRight s = s := by
  cases hs : s.reverse with
  | nil =>
    have : s = [] := by simpa using congrArg List.reverse hs
    subst this
    rfl
  | cons c cs =>
    have hlast : s.getLastD 'x' = c := by
      have : s = (c :: cs).reverse := by
        rw [← hs, List.reverse_reverse]
      subst this
      simp [List.getLastD_eq_getLast?, List.getLast?_reverse]
    show (List.dropWhile isWS s.reverse).reverse = s
    rw [hs, List.dropWhile_cons, h c hlast]
    simp only [Bool.false_eq_true, if_false]
    rw [← hs, List.reverse_reverse]

theorem trim_eq_self (s : Str)
    (hh : ∀ c, s.headD 'x' = c → isWS c = false)
    (hl : ∀ c, s.getLastD 'x' = c → isWS c = false) :
    trim s = s := by
  show trimRight (trimLeft s) = s
  rw [trimLeft_eq_self s hh, trimRight_eq_self s hl]

theorem startsWith_cons (c : Char) (p : Str) (s : Str) :
    startsWith (c :: p) s = true ↔ ∃ tl, s = c :: tl ∧ startsWith p tl = true := by
  cases s with
  | nil => simp [startsWith, List.isPrefixOf]
  | cons d tl =>
    simp only [startsWith, List.isPrefixOf_cons₂]
    constructor
    · intro h
      rw [Bool.and_eq_true] at h
      exact ⟨tl, by rw [(by simpa using h.1 : c = d)], h.2⟩
    · rintro ⟨tl', htl, hp⟩
      obtain ⟨rfl, rfl⟩ := by
        simpa using htl
      simp [hp]

theorem startsWith_nil (s : Str) : startsWith [] s = true := by
  simp [startsWith, List.isPrefixOf]

theorem startsWith_head_ne (c : Char) (p : Str) (s : Str)
    (h : ∀ tl, s ≠ c :: tl) : startsWith (c :: p) s = false := by
  rw [Bool.eq_false_iff]
  intro hc
  obtain ⟨tl, htl, _⟩ := (startsWith_cons c p s).mp hc
  exact h tl htl

theorem startsWith_append_drop (p s : Str) (h : startsWith p s = true) :
    s = p ++ s.drop p.length := by
  induction p generalizing s with
  | nil => simp
  | cons c p' ih =>
    obtain ⟨tl, rfl, hp⟩ := (startsWith_cons c p' s).mp h
    simpa using ih tl hp

/-- A method-name check of the request-line regex fails on a line whose
method name differs within the checked prefix. -/
theorem methodCheck_miss_short (nm nm' tail : Str)
    (hlen : nm'.length ≤ nm.length)
    (hne : (nm.take nm'.length).map toUpperAscii ≠ nm') :
    ¬ (((nm ++ tail).take nm'.length).map toUpperAscii = nm') := by
  rw [List.take_append_of_le_length hlen]
  exact hne

/-- A method-name check longer than the line's method name fails because
the checked prefix contains the separating space. -/
theorem methodCheck_miss_long (nm nm' tail : Str)
    (hlen : nm.length < nm'.length)
    (hsp : ' ' ∉ nm') :
    ¬ (((nm ++ ' ' :: tail).take nm'.length).map toUpperAscii = nm') := by
  intro heq
  apply hsp
  rw [← heq, List.take_append_eq_append_take, List.take_of_length_le (Nat.le_of_lt hlen)]
  obtain ⟨k, hk⟩ : ∃ k, nm'.length - nm.length = k + 1 := ⟨nm'.length - nm.length - 1, by omega⟩
  rw [hk, List.take_succ_cons, List.map_append, List.map_cons]
  exact List.mem_append_right _ (by simp [toUpperAscii])

/-- The request-line matcher recognises exactly the generated
`METHOD url` line, capturing and trimming the part after the space. -/
theorem matchRequestLine_exact (m : HttpMethod) (r0 : Char) (rest' : Str)
    (hhead : isWS r0 = false) (hlt : ∀ d ∈ r0 :: rest', isLineTerm d = false) :
    matchRequestLine (methodName m ++ ' ' :: r0 :: rest') =
      Option.some (m, trim (r0 :: rest')) := by
  have hdw : List.dropWhile isWS (' ' :: r0 :: rest') = r0 :: rest' := by
    rw [List.dropWhile_cons]
    simp only [(by decide : isWS ' ' = true), if_true]
    rw [List.dropWhile_cons, hhead]
    simp
  have hall : (r0 :: rest').all (fun d => !isLineTerm d) = true := by
    rw [List.all_eq_true]
    intro d hd
    simp [hlt d hd]
  cases m
  case GET =>
    unfold matchRequestLine methodEnum
    simp only [List.findSome?]
    rw [if_pos (by rw [List.take_left]; decide)]
    rw [List.drop_left]
    simp only [(by decide : isWS ' ' = true), if_true, hdw]
    simp [hall]
  case POST =>
    unfold matchRequestLine methodEnum
    simp only [List.findSome?]
    rw [if_neg (methodCheck_miss_short _ _ _ (by decide) (by decide))]
    rw [if_pos (by rw [List.take_left]; decide)]
    rw [List.drop_left]
    simp only [(by decide : isWS ' ' = true), if_true, hdw]
    simp [hall]
  case PUT =>
    unfold matchRequestLine methodEnum
    simp only [List.findSome?]
    rw [if_neg (methodCheck_miss_short _ _ _ (by decide) (by decide))]
    rw [if_neg (methodCheck_miss_long _ _ _ (by decide) (by decide))]
    rw [if_pos (by rw [List.take_left]; decide)]
    rw [List.drop_left]
    simp only [(by decide : isWS ' ' = true), if_true, hdw]
    simp [hall]
  case DELETE =>
    unfold matchRequestLine methodEnum
    simp only [List.findSome?]
    rw [if_neg (methodCheck_miss_short _ _ _ (by decide) (by decide))]
    rw [if_neg (methodCheck_miss_short _ _ _ (by decide) (by decide))]
    rw [if_neg (methodCheck_miss_short _ _ _ (by decide) (by decide))]
    rw [if_pos (by rw [List.take_left]; decide)]
    rw [List.drop_left]
    simp only [(by decide : isWS ' ' = true), if_true, hdw]
    simp [hall]
  case PATCH =>
    unfold matchRequestLine methodEnum
    simp only [List.findSome?]
    rw [if_neg (methodCheck_miss_short _ _ _ (by decide) (by decide))]
    rw [if_neg (methodCheck_miss_short _ _ _ (by decide) (by decide))]
    rw [if_neg (methodCheck_miss_short _ _ _ (by decide) (by decide))]
    rw [if_neg (methodCheck_miss_long _ _ _ (by decide) (by decide))]
    rw [if_pos (by rw [List.take_left]; decide)]
    rw [List.drop_left]
    simp only [(by decide : isWS ' ' = true), if_true, hdw]
    simp [hall]
  case HEAD =>
    unfold matchRequestLine methodEnum
    simp only [List.findSome?]
    rw [if_neg (methodCheck_miss_short _ _ _ (by decide) (by decide))]
    rw [if_neg (methodCheck_miss_short _ _ _ (by decide) (by decide))]
    rw [if_neg (methodCheck_miss_short _ _ _ (by decide) (by decide))]
    rw [if_neg (methodCheck_miss_long _ _ _ (by decide) (by decide))]
    rw [if_neg (methodCheck_miss_long _ _ _ (by decide) (by decide))]
    rw [if_pos (by rw [List.take_left]; decide)]
    rw [List.drop_left]
    simp only [(by decide : isWS ' ' = true), if_true, hdw]
    simp [hall]
  case OPTIONS =>
    unfold matchRequestLine methodEnum
    simp only [List.findSome?]
    rw [if_neg (methodCheck_miss_short _ _ _ (by decide) (by decide))]
    rw [if_neg (methodCheck_miss_short _ _ _ (by decide) (by decide))]
    rw [if_neg (methodCheck_miss_short _ _ _ (by decide) (by decide))]
    rw [if_neg (methodCheck_miss_short _ _ _ (by decide) (by decide))]
    rw [if_neg (methodCheck_miss_short _ _ _ (by decide) (by decide))]
    rw [if_neg (methodCheck_miss_short _ _ _ (by decide) (by decide))]
    rw [if_pos (by rw [List.take_left]; decide)]
    rw [List.drop_left]
    simp only [(by decide : isWS ' ' = true), if_true, hdw]
    simp [hall]
  case CONNECT =>
    unfold matchRequestLine methodEnum
    simp only [List.findSome?]
    rw [if_neg (methodCheck_miss_short _ _ _ (by decide) (by decide))]
    rw [if_neg (methodCheck_miss_short _ _ _ (by decide) (by decide))]
    rw [if_neg (methodCheck_miss_short _ _ _ (by decide) (by decide))]
    rw [if_neg (methodCheck_miss_short _ _ _ (by decide) (by decide))]
    rw [if_neg (methodCheck_miss_short _ _ _ (by decide) (by decide))]
    rw [if_neg (methodCheck_miss_short _ _ _ (by decide) (by decide))]
    rw [if_neg (methodCheck_miss_short _ _ _ (by decide) (by decide))]
    rw [if_pos (by rw [List.take_left]; decide)]
    rw [List.drop_left]
    simp only [(by decide : isWS ' ' = true), if_true, hdw]
    simp [hall]
  case TRACE =>
    unfold matchRequestLine methodEnum
    simp only [List.findSome?]
    rw [if_neg (methodCheck_miss_short _ _ _ (by decide) (by decide))]
    rw [if_neg (methodCheck_miss_short _ _ _ (by decide) (by decide))]
    rw [if_neg (methodCheck_miss_short _ _ _ (by decide) (by decide))]
    rw [if_neg (methodCheck_miss_long _ _ _ (by decide) (by decide))]
    rw [if_neg (methodCheck_miss_short _ _ _ (by decide) (by decide))]
    rw [if_neg (methodCheck_miss_short _ _ _ (by decide) (by decide))]
    rw [if_neg (methodCheck_miss_long _ _ _ (by decide) (by decide))]
    rw [if_neg (methodCheck_miss_long _ _ _ (by decide) (by decide))]
    rw [if_pos (by rw [List.take_left]; decide)]
    rw [List.drop_left]
    simp only [(by decide : isWS ' ' = true), if_true, hdw]
    simp [hall]

/-- A header line `key: value` (key without whitespace or colons) is not
matched by the request-line regex. -/
theorem matchRequestLine_header_none (key w : Str)
    (hkey : ∀ c ∈ key, isWS c = false ∧ c ≠ ':') :
    matchRequestLine (key ++ ':' :: w) = Option.none := by
  unfold matchRequestLine
  rw [List.findSome?_eq_none_iff]
  intro m _
  by_cases hcond : (((key ++ ':' :: w).take (methodName m).length).map toUpperAscii = methodName m)
  · have hcol : ':' ∉ methodName m := by cases m <;> decide
    have hlen : (methodName m).length ≤ key.length := by
      by_contra hgt
      push_neg at hgt
      have hmem : ':' ∈ (key ++ ':' :: w).take (methodName m).length := by
        rw [List.take_append_eq_append_take, List.take_of_length_le (Nat.le_of_lt hgt)]
        obtain ⟨k, hk⟩ : ∃ k, (methodName m).length - key.length = k + 1 :=
          ⟨(methodName m).length - key.length - 1, by omega⟩
        rw [hk, List.take_succ_cons]
        exact List.mem_append_right _ (List.mem_cons_self _ _)
      have : ':' ∈ ((key ++ ':' :: w).take (methodName m).length).map toUpperAscii :=
        List.mem_map.mpr ⟨':', hmem, by decide⟩
      rw [hcond] at this
      exact hcol this
    rw [if_pos hcond, List.drop_append_of_le_length hlen]
    cases hd : key.drop (methodName m).length with
    | nil =>
      simp [(by decide : isWS ':' = false)]
    | cons k0 ks =>
      have hk0 : k0 ∈ key := List.drop_subset _ _ (hd ▸ List.mem_cons_self k0 ks)
      simp [(hkey k0 hk0).1]
  · rw [if_neg hcond]

/-! ### Trim-stability helpers -/

theorem trimLeft_of_trim_eq (v : Str) (h : trim v = v) : trimLeft v = v := by
  have h1 : (trimLeft v).length ≤ v.length := List.Sublist.length_le (List.dropWhile_sublist _)
  have h2 : (trim v).length ≤ (trimLeft v).length := by
    show (trimRight (trimLeft v)).length ≤ _
    unfold trimRight
    rw [List.length_reverse]
    calc ((trimLeft v).reverse.dropWhile isWS).length ≤ (trimLeft v).reverse.length :=
          List.Sublist.length_le (List.dropWhile_sublist _)
      _ = (trimLeft v).length := List.length_reverse _
  have h3 : (trim v).length = v.length := by rw [h]
  exact List.Sublist.eq_of_length (List.dropWhile_sublist _) (by omega)

theorem trimRight_of_trim_eq (v : Str) (h : trim v = v) : trimRight v = v := by
  have hl := trimLeft_of_trim_eq v h
  calc trimRight v = trimRight (trimLeft v) := by rw [hl]
    _ = v := h

theorem head_not_ws_of_trim (v : Str) (hv : trim v = v) (hne : v ≠ []) :
    ∀ c, v.headD 'x' = c → isWS c = false := by
  intro c hc
  have hl := trimLeft_of_trim_eq v hv
  cases v with
  | nil => exact absurd rfl hne
  | cons v0 vtl =>
    simp only [List.headD_cons] at hc
    rw [← hc]
    by_contra hws
    rw [Bool.not_eq_false] at hws
    have hstep : trimLeft (v0 :: vtl) = trimLeft vtl := by
      show List.dropWhile isWS (v0 :: vtl) = _
      rw [List.dropWhile_cons, hws]
      simp only [if_true]
      rfl
    rw [hstep] at hl
    have := congrArg List.length hl
    have hle : (trimLeft vtl).length ≤ vtl.length :=
      List.Sublist.length_le (List.dropWhile_sublist _)
    simp at this
    omega

theorem getLast_not_ws_of_trim (v : Str) (hv : trim v = v) (hne : v ≠ []) :
    ∀ c, v.getLastD 'x' = c → isWS c = false := by
  intro c hc
  have hr := trimRight_of_trim_eq v hv
  have hrev : v.reverse.dropWhile isWS = v.reverse := by
    have := congrArg List.reverse hr
    rw [trimRight, List.reverse_reverse] at this
    exact this
  cases hvr : v.reverse with
  | nil =>
    exact absurd (by simpa using congrArg List.reverse hvr) hne
  | cons r0 rtl =>
    have hr0 : r0 = c := by
      have : v.getLastD 'x' = r0 := by
        conv_lhs => rw [← v.reverse_reverse, hvr]
        simp [List.getLastD_eq_getLast?, List.getLast?_reverse]
      rw [this] at hc
      exact hc
    subst hr0
    rw [hvr, List.dropWhile_cons] at hrev
    by_contra hws
    rw [Bool.not_eq_false] at hws
    rw [hws] at hrev
    simp at hrev
    have := congrArg List.length hrev
    have hle : (rtl.dropWhile isWS).length ≤ rtl.length :=
      List.Sublist.length_le (List.dropWhile_sublist _)
    simp at this
    omega

theorem startsWith_cons_head (c : Char) (p : Str) (d : Char) (tl : Str) (hne : ¬ d = c) :
    startsWith (c :: p) (d :: tl) = false := by
  refine startsWith_head_ne c p _ (fun tl' h => ?_)
  exact hne (((List.cons.injEq d tl c tl').mp h).1)

theorem startsWith_head_of (c : Char) (p s : Str) (h : startsWith (c :: p) s = true) :
    startsWith (c :: []) s = true := by
  obtain ⟨tl, rfl, _⟩ := (startsWith_cons c p s).mp h
  exact (startsWith_cons c [] _).mpr ⟨tl, rfl, startsWith_nil tl⟩

/-! ### Composite line lemmas for the parse loop -/

theorem processLine_hash (s : ParseState) (ℓ : Str)
    (hh : startsWith (str ("#")) (trim ℓ) = true) :
    coreView (processLine s ℓ) = coreView s := by
  obtain ⟨tl, htl, -⟩ := (startsWith_cons '#' [] (trim ℓ)).mp hh
  show coreView (processTrimmed s ℓ (trim ℓ)) = coreView s
  by_cases h1 : trim ℓ = str ("###")
  · rw [processTrimmed_sep s ℓ _ h1]
  by_cases h2 : startsWith (str ("# @name ")) (trim ℓ) = true
  · rw [processTrimmed_name s ℓ _ h1 h2]
    rfl
  by_cases h3 : startsWith (str ("# @description ")) (trim ℓ) = true
  · rw [processTrimmed_description s ℓ _ h1 h2 h3]
    rfl
  by_cases h4 : startsWith (str ("# @tag ")) (trim ℓ) = true
  · rw [processTrimmed_tag s ℓ _ h1 h2 h3 h4]
    rfl
  have h5 : ¬ startsWith (str ("\x7b\x7b")) (trim ℓ) = true := by
    rw [htl]
    show ¬ startsWith ('\x7b' :: '\x7b' :: []) ('#' :: tl) = true
    rw [startsWith_cons_head '\x7b' _ '#' tl (by decide)]
    exact Bool.false_ne_true
  have h6 : ¬ startsWith (str ("\x7d\x7d")) (trim ℓ) = true := by
    rw [htl]
    show ¬ startsWith ('\x7d' :: '\x7d' :: []) ('#' :: tl) = true
    rw [startsWith_cons_head '\x7d' _ '#' tl (by decide)]
    exact Bool.false_ne_true
  by_cases h7 : s.inScript = true
  · rw [processTrimmed_scriptLine s ℓ _ h1 h2 h3 h4 h5 h6 h7]
    rfl
  have h8 : (startsWith (str ("#")) (trim ℓ) || startsWith (str ("//")) (trim ℓ)) = true := by
    rw [hh, Bool.true_or]
  rw [processTrimmed_comment s ℓ _ h1 h2 h3 h4 h5 h6 h7 h8]


theorem processLine_blank_noUrl (s : ParseState)
    (hscr : s.inScript = false) (hbody : s.inBody = false) (hurl : s.req.url = []) :
    processLine s [] = s := by
  show processTrimmed s [] (trim []) = s
  refine processTrimmed_noop s [] (trim []) (by decide) (by decide) (by decide)
    (by decide) (by decide) (by decide) (by rw [hscr]; exact Bool.false_ne_true)
    (by decide) (by decide) ?_ ?_ (by rw [hbody]; exact Bool.false_ne_true)
  · rw [hbody, hurl]
    decide
  · rw [hbody]
    decide

theorem processLine_blank_startBody (s : ParseState)
    (hscr : s.inScript = false) (hbody : s.inBody = false) (hurl : s.req.url ≠ []) :
    processLine s [] = { s with inBody := true } := by
  show processTrimmed s [] (trim []) = _
  refine processTrimmed_blank s [] (trim []) (by decide) (by decide) (by decide)
    (by decide) (by decide) (by decide) (by rw [hscr]; exact Bool.false_ne_true)
    (by decide) (by decide) ?_
  rw [hbody]
  simp [hurl]
  decide

theorem processLine_scriptOpen (s : ParseState) (ℓ : Str)
    (h5 : startsWith (str ("\x7b\x7b")) (trim ℓ) = true) :
    processLine s ℓ =
      { s with inScript := true,
               scriptType := if strContains (trim ℓ) (str ("@pre")) then Option.some ScriptKind.pre
                             else Option.some ScriptKind.test } := by
  obtain ⟨tl, htl, -⟩ := (startsWith_cons '\x7b' _ (trim ℓ)).mp h5
  show processTrimmed s ℓ (trim ℓ) = _
  have hpat : ∀ (c0 : Char) (p : Str), ¬ c0 = '\x7b' →
      ¬ startsWith (c0 :: p) (trim ℓ) = true := by
    intro c0 p hne hc
    obtain ⟨tl', htl', -⟩ := (startsWith_cons c0 p _).mp hc
    rw [htl] at htl'
    exact hne ((List.cons.injEq _ _ _ _).mp htl'.symm).1
  refine processTrimmed_scriptOpen s ℓ _ ?_ ?_ ?_ ?_ h5
  · rw [htl]
    intro hc
    exact absurd ((List.cons.injEq _ _ _ _).mp hc).1 (by decide)
  · exact hpat '#' _ (by decide)
  · exact hpat '#' _ (by decide)
  · exact hpat '#' _ (by decide)

theorem processLine_scriptClose (s : ParseState) (ℓ : Str)
    (h6 : startsWith (str ("\x7d\x7d")) (trim ℓ) = true) :
    processLine s ℓ =
      { s with req := closeScriptReq s, inScript := false,
               scriptType := Option.none, scriptLines := [] } := by
  obtain ⟨tl, htl, -⟩ := (startsWith_cons '\x7d' _ (trim ℓ)).mp h6
  show processTrimmed s ℓ (trim ℓ) = _
  have hpat : ∀ (c0 : Char) (p : Str), ¬ c0 = '\x7d' →
      ¬ startsWith (c0 :: p) (trim ℓ) = true := by
    intro c0 p hne hc
    obtain ⟨tl', htl', -⟩ := (startsWith_cons c0 p _).mp hc
    rw [htl] at htl'
    exact hne ((List.cons.injEq _ _ _ _).mp htl'.symm).1
  refine processTrimmed_scriptClose s ℓ _ ?_ ?_ ?_ ?_ ?_ h6
  · rw [htl]
    intro hc
    exact absurd ((List.cons.injEq _ _ _ _).mp hc).1 (by decide)
  · exact hpat '#' _ (by decide)
  · exact hpat '#' _ (by decide)
  · exact hpat '#' _ (by decide)
  · exact hpat '\x7b' _ (by decide)

theorem processLine_scriptContent (s : ParseState) (ℓ : Str)
    (hscr : s.inScript = true)
    (h6 : startsWith (str ("\x7d\x7d")) (trim ℓ) = false) :
    coreView (processLine s ℓ) = coreView s := by
  show coreView (processTrimmed s ℓ (trim ℓ)) = coreView s
  by_cases h1 : trim ℓ = str ("###")
  · rw [processTrimmed_sep s ℓ _ h1]
  by_cases h2 : startsWith (str ("# @name ")) (trim ℓ) = true
  · rw [processTrimmed_name s ℓ _ h1 h2]
    rfl
  by_cases h3 : startsWith (str ("# @description ")) (trim ℓ) = true
  · rw [processTrimmed_description s ℓ _ h1 h2 h3]
    rfl
  by_cases h4 : startsWith (str ("# @tag ")) (trim ℓ) = true
  · rw [processTrimmed_tag s ℓ _ h1 h2 h3 h4]
    rfl
  by_cases h5 : startsWith (str ("\x7b\x7b")) (trim ℓ) = true
  · rw [processTrimmed_scriptOpen s ℓ _ h1 h2 h3 h4 h5]
    show _ = coreView s
    unfold coreView
    rw [hscr]
  · rw [processTrimmed_scriptLine s ℓ _ h1 h2 h3 h4 h5
      (by rw [h6]; exact Bool.false_ne_true) hscr]
    rfl

theorem processLine_bodyLine (s : ParseState) (ℓ : Str)
    (hscr : s.inScript = false) (hbody : s.inBody = true)
    (hsep : ¬ trim ℓ = str ("###"))
    (hh : startsWith (str ("#")) (trim ℓ) = false)
    (hsl : startsWith (str ("//")) (trim ℓ) = false)
    (hop : startsWith (str ("\x7b\x7b")) (trim ℓ) = false)
    (hcl : startsWith (str ("\x7d\x7d")) (trim ℓ) = false)
    (hm : matchRequestLine (trim ℓ) = Option.none) :
    processLine s ℓ = { s with bodyLines := s.bodyLines ++ [ℓ] } := by
  show processTrimmed s ℓ (trim ℓ) = _
  have hhash : ∀ p : Str, ¬ startsWith ('#' :: p) (trim ℓ) = true := by
    intro p hc
    have := startsWith_head_of '#' p _ hc
    rw [show ('#' :: [] : Str) = str ("#") from rfl, hh] at this
    exact Bool.false_ne_true this
  refine processTrimmed_bodyLine s ℓ _ hsep (hhash _) (hhash _) (hhash _)
    (by rw [hop]; exact Bool.false_ne_true) (by rw [hcl]; exact Bool.false_ne_true)
    (by rw [hscr]; exact Bool.false_ne_true) (by rw [hh, hsl]; decide) hm
    (by rw [hbody]; simp) (by rw [hbody]; simp) hbody

/-! ### Header line helpers -/

theorem headD_append_left (l₁ l₂ : List α) (d : α) (h : l₁ ≠ []) :
    (l₁ ++ l₂).headD d = l₁.headD d := by
  cases l₁ with
  | nil => exact absurd rfl h
  | cons a t => rfl

theorem getLastD_indep (l : List α) (d d' : α) (h : l ≠ []) :
    l.getLastD d = l.getLastD d' := by
  cases l with
  | nil => exact absurd rfl h
  | cons a t =>
    rw [List.getLastD_cons, List.getLastD_cons]

theorem getLastD_append_right (l₁ l₂ : List α) (d : α) (h : l₂ ≠ []) :
    (l₁ ++ l₂).getLastD d = l₂.getLastD d := by
  induction l₁ generalizing d with
  | nil => rfl
  | cons a t ih =>
    rw [List.cons_append, List.getLastD_cons, ih a, getLastD_indep l₂ a d h]

theorem getLastD_mem_of_ne (l : List α) (d : α) (h : l ≠ []) : l.getLastD d ∈ l := by
  induction l with
  | nil => exact absurd rfl h
  | cons a t ih =>
    rw [List.getLastD_cons]
    cases ht : t with
    | nil => simp
    | cons b t' =>
      rw [← ht]
      exact List.mem_cons_of_mem a (getLastD_indep t a d (by rw [ht]; simp) ▸ ih (by rw [ht]; simp))

theorem strContains_mem (s : Str) (c : Char) (h : c ∈ s) :
    strContains s (c :: []) = true := by
  induction s with
  | nil => cases h
  | cons d tl ih =>
    unfold strContains
    rcases List.mem_cons.mp h with rfl | hm
    · rw [(startsWith_cons c [] (c :: tl)).mpr ⟨tl, rfl, startsWith_nil tl⟩, Bool.true_or]
    · rw [ih hm, Bool.or_true]

theorem drop_append_cons_succ (key w : Str) (c : Char) :
    (key ++ c :: w).drop (key.length + 1) = w := by
  calc (key ++ c :: w).drop (key.length + 1)
      = ((key ++ [c]) ++ w).drop ((key ++ [c]).length) := by simp
    _ = w := List.drop_left _ _

theorem findIdx_colon_aux (key w : Str) (i : Nat) (hk : ∀ c ∈ key, ¬ c = ':') :
    List.findIdx? (fun c => decide (c = ':')) (key ++ ':' :: w) i = Option.some (i + key.length) := by
  induction key generalizing i with
  | nil => simp [List.findIdx?_cons]
  | cons k ks ih =>
    rw [List.cons_append, List.findIdx?_cons, if_neg (by simp [hk k (by simp)])]
    rw [ih (i + 1) (fun c hc => hk c (List.mem_cons_of_mem k hc))]
    congr 1
    simp
    omega

theorem findIdx_colon (key w : Str) (hk : ∀ c ∈ key, ¬ c = ':') :
    (key ++ ':' :: w).findIdx? (· = ':') = Option.some key.length := by
  have h := findIdx_colon_aux key w 0 hk
  simpa using h

theorem trim_header_line (key value : Str) (hkne : key ≠ [])
    (hk0 : isWS (key.headD 'x') = false)
    (hv : trim value = value) :
    trim (key ++ str (": ") ++ value) =
      key ++ ':' :: (if value = [] then [] else ' ' :: value) := by
  cases hveq : value with
  | nil =>
    rw [if_pos rfl]
    rw [show key ++ str (": ") ++ ([] : Str) = (key ++ [':']) ++ [' '] from by simp [str]]
    rw [trim_ws_append_right _ [' '] (by intro c hc; simp at hc; subst hc; decide)]
    refine trim_eq_self _ ?_ ?_
    · intro c hc
      rw [headD_append_left key [':'] 'x' hkne] at hc
      exact hc ▸ hk0
    · intro c hc
      rw [getLastD_append_right key [':'] 'x' (by simp)] at hc
      simp at hc
      rw [← hc]
      decide
  | cons v0 vtl =>
    rw [if_neg (by simp)]
    rw [show key ++ str (": ") ++ (v0 :: vtl) = key ++ ':' :: ' ' :: v0 :: vtl from by
      simp [str]]
    refine trim_eq_self _ ?_ ?_
    · intro c hc
      rw [headD_append_left key _ 'x' hkne] at hc
      exact hc ▸ hk0
    · intro c hc
      rw [getLastD_append_right key _ 'x' (by simp)] at hc
      rw [List.getLastD_cons, List.getLastD_cons] at hc
      have hlast := getLast_not_ws_of_trim value hv (by rw [hveq]; simp)
      rw [hveq] at hlast
      exact hlast c (by rw [← hc]; exact (getLastD_indep (v0 :: vtl) 'x' ' ' (by simp)).symm ▸ rfl)

theorem processLine_headerLine (s : ParseState) (key value : Str)
    (hscr : s.inScript = false) (hbody : s.inBody = false)
    (hkne : key ≠ [])
    (hkc : ∀ c ∈ key, isWS c = false ∧ ¬ c = ':')
    (hk0 : ∀ c, key.headD 'x' = c → ¬ c = '#' ∧ ¬ c = '/' ∧ ¬ c = '\x7b' ∧ ¬ c = '\x7d')
    (hv : trim value = value) :
    processLine s (key ++ str (": ") ++ value) =
      { s with req := { s.req with
          headers := s.req.headers ++ [⟨key, value, true⟩] } } := by
  obtain ⟨k0, ktl, rfl⟩ : ∃ k0 ktl, key = k0 :: ktl := by
    cases key with
    | nil => exact absurd rfl hkne
    | cons a t => exact ⟨a, t, rfl⟩
  set key := k0 :: ktl with hkey
  have hk0' := hk0 k0 rfl
  have hkw : isWS k0 = false := (hkc k0 (List.mem_cons_self _ _)).1
  have ht : trim (key ++ str (": ") ++ value) =
      key ++ ':' :: (if value = [] then [] else ' ' :: value) :=
    trim_header_line key value hkne (by rw [hkey]; exact hkw) hv
  set w := if value = [] then ([] : Str) else ' ' :: value with hw
  have htw : trim w = value := by
    rw [hw]
    cases hveq : value with
    | nil => rfl
    | cons v0 vtl =>
      rw [if_neg (by simp)]
      show trim ([' '] ++ (v0 :: vtl)) = v0 :: vtl
      rw [trim_ws_append_left [' '] _ (by intro c hc; simp at hc; subst hc; decide)]
      rw [← hveq]
      exact hv
  have hcons : key ++ ':' :: w = k0 :: (ktl ++ ':' :: w) := by rw [hkey]; rfl
  have htrimkey : trim key = key := by
    refine trim_eq_self key ?_ ?_
    · intro c hc
      rw [hkey] at hc
      simp at hc
      rw [← hc]
      exact hkw
    · intro c hc
      have hm : key.getLastD 'x' ∈ key := getLastD_mem_of_ne key 'x' hkne
      rw [hc] at hm
      exact (hkc c hm).1
  show processTrimmed s _ (trim (key ++ str (": ") ++ value)) = _
  rw [ht]
  refine (processTrimmed_header s _ _ key.length ?_ ?_ ?_ ?_ ?_ ?_ ?_ ?_ ?_ ?_ ?_ ?_ ?_).trans ?_
  · rw [hcons]
    intro hc
    exact absurd ((List.cons.injEq _ _ _ _).mp hc).1 hk0'.1
  · rw [hcons]
    intro hc
    have hc' : startsWith ('#' :: str (" @name ")) (k0 :: (ktl ++ ':' :: w)) = true := hc
    rw [startsWith_cons_head '#' _ k0 _ hk0'.1] at hc'
    exact Bool.false_ne_true hc'
  · rw [hcons]
    intro hc
    have hc' : startsWith ('#' :: str (" @description ")) (k0 :: (ktl ++ ':' :: w)) = true := hc
    rw [startsWith_cons_head '#' _ k0 _ hk0'.1] at hc'
    exact Bool.false_ne_true hc'
  · rw [hcons]
    intro hc
    have hc' : startsWith ('#' :: str (" @tag ")) (k0 :: (ktl ++ ':' :: w)) = true := hc
    rw [startsWith_cons_head '#' _ k0 _ hk0'.1] at hc'
    exact Bool.false_ne_true hc'
  · rw [hcons]
    intro hc
    have hc' : startsWith ('\x7b' :: '\x7b' :: []) (k0 :: (ktl ++ ':' :: w)) = true := hc
    rw [startsWith_cons_head '\x7b' _ k0 _ hk0'.2.2.1] at hc'
    exact Bool.false_ne_true hc'
  · rw [hcons]
    intro hc
    have hc' : startsWith ('\x7d' :: '\x7d' :: []) (k0 :: (ktl ++ ':' :: w)) = true := hc
    rw [startsWith_cons_head '\x7d' _ k0 _ hk0'.2.2.2] at hc'
    exact Bool.false_ne_true hc'
  · rw [hscr]
    exact Bool.false_ne_true
  · rw [hcons]
    rw [show (str ("#") : Str) = ['#'] from rfl, show (str ("//") : Str) = ['/', '/'] from rfl]
    rw [startsWith_cons_head '#' _ k0 _ hk0'.1, startsWith_cons_head '/' _ k0 _ hk0'.2.1]
    decide
  · exact matchRequestLine_header_none key w hkc
  · rw [hbody, hcons]
    simp
  · rw [hbody]
    show (!false && strContains (key ++ ':' :: w) (str (":"))) = true
    rw [show (str (":") : Str) = ':' :: [] from rfl]
    rw [strContains_mem _ ':' (List.mem_append_right key (List.mem_cons_self _ _))]
    decide
  · exact findIdx_colon key w (fun c hc => (hkc c hc).2)
  · rw [List.take_left, htrimkey]
    have hsw : startsWith (str ("\x7b")) key = false := by
      rw [hkey]
      exact startsWith_cons_head '\x7b' [] k0 ktl hk0'.2.2.1
    simp [hkne, hsw]
  · rw [List.take_left, htrimkey, drop_append_cons_succ key w ':', htw]

/-! ### Character facts about the percent-encoder -/

theorem char_toNat_lt (c : Char) : c.toNat < 0x110000 := by
  have h := c.valid
  rcases h with h | ⟨h1, h2⟩
  · exact Nat.lt_trans h (by decide)
  · exact h2

theorem utf8Bytes_lt (c : Char) : ∀ b ∈ utf8Bytes c, b < 256 := by
  intro b hb
  have hcv := char_toNat_lt c
  unfold utf8Bytes at hb
  by_cases h1 : c.toNat < 0x80
  · rw [if_pos h1] at hb
    simp at hb
    omega
  rw [if_neg h1] at hb
  by_cases h2 : c.toNat < 0x800
  · rw [if_pos h2] at hb
    have d1 : c.toNat / 64 < 32 := by omega
    have d2 : c.toNat % 64 < 64 := Nat.mod_lt _ (by omega)
    simp at hb
    rcases hb with rfl | rfl <;> omega
  rw [if_neg h2] at hb
  by_cases h3 : c.toNat < 0x10000
  · rw [if_pos h3] at hb
    have d1 : c.toNat / 4096 < 16 := by omega
    have d2 : (c.toNat / 64) % 64 < 64 := Nat.mod_lt _ (by omega)
    have d3 : c.toNat % 64 < 64 := Nat.mod_lt _ (by omega)
    simp at hb
    rcases hb with rfl | rfl | rfl <;> omega
  · rw [if_neg h3] at hb
    have d1 : c.toNat / 262144 < 5 := by omega
    have d2 : (c.toNat / 4096) % 64 < 64 := Nat.mod_lt _ (by omega)
    have d3 : (c.toNat / 64) % 64 < 64 := Nat.mod_lt _ (by omega)
    have d4 : c.toNat % 64 < 64 := Nat.mod_lt _ (by omega)
    simp at hb
    rcases hb with rfl | rfl | rfl | rfl <;> omega

theorem hexDigitUpper_facts (n : Nat) (h : n < 16) :
    isWS (hexDigitUpper n) = false ∧ ¬ hexDigitUpper n = '&' ∧ ¬ hexDigitUpper n = '=' ∧
    ¬ hexDigitUpper n = '?' ∧ ¬ hexDigitUpper n = '+' ∧ ¬ hexDigitUpper n = '%' ∧
    (hexDigitUpper n).toNat < 128 ∧ isHexDigitByte (hexDigitUpper n).toNat = true ∧
    hexDigitVal ((hexDigitUpper n).toNat) = n := by
  interval_cases n <;> decide

theorem ne_nl_of_not_ws (c : Char) (h : isWS c = false) : ¬ c = '\n' := by
  intro hc
  subst hc
  exact absurd h (by decide)

theorem isWS_eq_false_of_toNat (c : Char) (h1 : 32 < c.toNat) (h2 : c.toNat < 160) :
    isWS c = false := by
  rw [Bool.eq_false_iff]
  intro hws
  unfold isWS at hws
  simp only [Bool.or_eq_true, Bool.and_eq_true, decide_eq_true_eq] at hws
  rcases hws with
    (((((((((((((rfl | rfl) | rfl) | rfl) | rfl) | rfl) | rfl) | rfl) |
      ⟨hlo, hhi⟩) | rfl) | rfl) | rfl) | rfl) | rfl) | rfl
  all_goals first
    | exact absurd h1 (by decide)
    | exact absurd h2 (by decide)
    | omega

theorem char_le_toNat {a b : Char} (h : a ≤ b) : a.toNat ≤ b.toNat := h

theorem isLineTerm_eq_false_of_not_ws (c : Char) (h : isWS c = false) :
    isLineTerm c = false := by
  rw [Bool.eq_false_iff] at h ⊢
  intro hlt
  apply h
  unfold isLineTerm at hlt
  simp only [Bool.or_eq_true, decide_eq_true_eq] at hlt
  rcases hlt with ((rfl | rfl) | rfl) | rfl <;> decide

theorem uriUnreserved_facts (c : Char) (h : uriUnreserved c = true) :
    isWS c = false ∧ ¬ c = '&' ∧ ¬ c = '=' ∧ ¬ c = '?' ∧ ¬ c = '+' ∧ ¬ c = '%' := by
  unfold uriUnreserved at h
  simp only [Bool.or_eq_true, Bool.and_eq_true, decide_eq_true_eq] at h
  rcases h with
    (((((((((((⟨h1, h2⟩) | ⟨h1, h2⟩) | ⟨h1, h2⟩) | rfl) | rfl) | rfl) | rfl) | rfl) | rfl) | rfl) | rfl) | rfl
  all_goals try decide
  all_goals refine ⟨?_, ?_, ?_, ?_, ?_, ?_⟩
  all_goals first
    | (intro hceq; subst hceq;
       first | exact absurd h1 (by decide) | exact absurd h2 (by decide))
    | (exact isWS_eq_false_of_toNat c
        (Nat.lt_of_lt_of_le (by decide) (char_le_toNat h1))
        (Nat.lt_of_le_of_lt (char_le_toNat h2) (by decide)))

theorem enc_char_facts (x : Str) (c : Char) (hc : c ∈ encodeURIComponent x) :
    isWS c = false ∧ ¬ c = '&' ∧ ¬ c = '=' ∧ ¬ c = '?' ∧ ¬ c = '+' := by
  unfold encodeURIComponent at hc
  obtain ⟨a, -, hca⟩ := List.mem_flatMap.mp hc
  by_cases hu : uriUnreserved a = true
  · rw [if_pos hu] at hca
    simp at hca
    obtain ⟨f1, f2, f3, f4, f5, -⟩ := uriUnreserved_facts a hu
    rw [hca]
    exact ⟨f1, f2, f3, f4, f5⟩
  · rw [if_neg hu] at hca
    unfold percentEscapeChar at hca
    obtain ⟨b, hb, hcb⟩ := List.mem_flatMap.mp hca
    have hblt := utf8Bytes_lt a b hb
    have hd1 := hexDigitUpper_facts (b / 16) (by omega)
    have hd2 := hexDigitUpper_facts (b % 16) (Nat.mod_lt _ (by omega))
    simp at hcb
    rcases hcb with rfl | rfl | rfl
    · exact ⟨by decide, by decide, by decide, by decide, by decide⟩
    · exact ⟨hd1.1, hd1.2.1, hd1.2.2.1, hd1.2.2.2.1, hd1.2.2.2.2.1⟩
    · exact ⟨hd2.1, hd2.2.1, hd2.2.2.1, hd2.2.2.2.1, hd2.2.2.2.2.1⟩

/-! ### Query-string split/join lemmas -/

theorem joinWithChar_cons (sep : Char) (ℓ : Str) (ls : List Str) (h : ls ≠ []) :
    joinWithChar sep (ℓ :: ls) = ℓ ++ sep :: joinWithChar sep ls := by
  match ls with
  | l' :: ls' =>
    simp [joinWithChar, List.intercalate, List.intersperse]

theorem mem_joinWithChar (sep : Char) (ls : List Str) (c : Char)
    (h : c ∈ joinWithChar sep ls) : c = sep ∨ ∃ ℓ ∈ ls, c ∈ ℓ := by
  induction ls with
  | nil => simp [joinWithChar, List.intercalate] at h
  | cons x xs ih =>
    cases hxs : xs with
    | nil =>
      subst hxs
      right
      refine ⟨x, by simp, ?_⟩
      simpa [joinWithChar, List.intercalate] using h
    | cons y ys =>
      subst hxs
      rw [joinWithChar_cons sep x (y :: ys) (by simp)] at h
      rcases List.mem_append.mp h with hx | hrest
      · exact Or.inr ⟨x, by simp, hx⟩
      rcases List.mem_cons.mp hrest with rfl | htail
      · exact Or.inl rfl
      rcases ih htail with hsep | ⟨ℓ, hℓ, hcl⟩
      · exact Or.inl hsep
      · exact Or.inr ⟨ℓ, List.mem_cons_of_mem x hℓ, hcl⟩

theorem splitOnChar_joinWithChar (sep : Char) (ls : List Str) (hne : ls ≠ [])
    (h : ∀ ℓ ∈ ls, sep ∉ ℓ) : splitOnChar sep (joinWithChar sep ls) = ls := by
  induction ls with
  | nil => exact absurd rfl hne
  | cons x xs ih =>
    cases hxs : xs with
    | nil =>
      subst hxs
      show splitOnChar sep (joinWithChar sep [x]) = [x]
      rw [show joinWithChar sep [x] = x from by simp [joinWithChar, List.intercalate]]
      exact splitOnChar_no_sep sep x (h x (by simp))
    | cons y ys =>
      rw [← hxs]
      rw [joinWithChar_cons sep x xs (by rw [hxs]; simp)]
      rw [splitOnChar_sep, splitOnChar_no_sep sep x (h x (by simp))]
      rw [ih (by rw [hxs]; simp) (fun ℓ hℓ => h ℓ (List.mem_cons_of_mem x hℓ))]
      rfl

theorem findIdx_char_aux (ch : Char) (key w : Str) (i : Nat) (hk : ∀ c ∈ key, ¬ c = ch) :
    List.findIdx? (fun c => decide (c = ch)) (key ++ ch :: w) i = Option.some (i + key.length) := by
  induction key generalizing i with
  | nil => simp [List.findIdx?_cons]
  | cons k ks ih =>
    rw [List.cons_append, List.findIdx?_cons, if_neg (by simp [hk k (by simp)])]
    rw [ih (i + 1) (fun c hc => hk c (List.mem_cons_of_mem k hc))]
    congr 1
    simp
    omega

theorem splitFirstEq_append (key w : Str) (hk : ∀ c ∈ key, ¬ c = '=') :
    splitFirstEq (key ++ '=' :: w) = (key, w) := by
  unfold splitFirstEq
  have h := findIdx_char_aux '=' key w 0 hk
  simp only [Nat.zero_add] at h
  rw [h]
  show (List.take key.length (key ++ '=' :: w), List.drop (key.length + 1) (key ++ '=' :: w)) =
    (key, w)
  rw [List.take_left, drop_append_cons_succ]

/-! ### Percent-decoding round trip on ASCII components -/

theorem uriUnreserved_ascii (c : Char) (h : uriUnreserved c = true) : c.toNat < 128 := by
  unfold uriUnreserved at h
  simp only [Bool.or_eq_true, Bool.and_eq_true, decide_eq_true_eq] at h
  rcases h with
    (((((((((((⟨h1, h2⟩) | ⟨h1, h2⟩) | ⟨h1, h2⟩) | rfl) | rfl) | rfl) | rfl) | rfl) | rfl) | rfl) | rfl) | rfl
  all_goals try decide
  all_goals
    have h3 : c.toNat ≤ 122 := Nat.le_trans (by exact h2) (by decide)
  all_goals omega

theorem enc_ascii (x : Str) (c : Char) (hc : c ∈ encodeURIComponent x) : c.toNat < 128 := by
  unfold encodeURIComponent at hc
  obtain ⟨a, -, hca⟩ := List.mem_flatMap.mp hc
  by_cases hu : uriUnreserved a = true
  · rw [if_pos hu] at hca
    simp at hca
    rw [hca]
    exact uriUnreserved_ascii a hu
  · rw [if_neg hu] at hca
    unfold percentEscapeChar at hca
    obtain ⟨b, hb, hcb⟩ := List.mem_flatMap.mp hca
    have hblt := utf8Bytes_lt a b hb
    have hd1 := hexDigitUpper_facts (b / 16) (by omega)
    have hd2 := hexDigitUpper_facts (b % 16) (Nat.mod_lt _ (by omega))
    simp at hcb
    rcases hcb with rfl | rfl | rfl
    · decide
    · exact hd1.2.2.2.2.2.2.1
    · exact hd2.2.2.2.2.2.2.1

theorem utf8Bytes_ascii (c : Char) (h : c.toNat < 128) : utf8Bytes c = [c.toNat] := by
  unfold utf8Bytes
  rw [if_pos h]

theorem percentDecodeBytes_cons_ne (b : Nat) (l : List Nat) (hb : ¬ b = 37) :
    percentDecodeBytes (b :: l) = b :: percentDecodeBytes l := by
  match l with
  | [] => rfl
  | [a] => rfl
  | a :: b2 :: rest =>
    show (if b = 0x25 then
        if (isHexDigitByte a && isHexDigitByte b2) = true then
          (hexDigitVal a * 16 + hexDigitVal b2) :: percentDecodeBytes rest
        else b :: percentDecodeBytes (a :: b2 :: rest)
      else b :: percentDecodeBytes (a :: b2 :: rest)) =
      b :: percentDecodeBytes (a :: b2 :: rest)
    rw [if_neg hb]

theorem utf8Decode_ascii_cons (b : Nat) (l : List Nat) (hb : b < 128) :
    utf8Decode (b :: l) = Char.ofNat b :: utf8Decode l := by
  match l with
  | [] =>
    show (if b < 0x80 then [Char.ofNat b] else [Char.ofNat 0xfffd]) = _
    rw [if_pos hb]
    rfl
  | [b2] =>
    show (if b < 0x80 then Char.ofNat b :: utf8Decode [b2]
      else if 0xc0 ≤ b ∧ b < 0xe0 then
        if isCont b2 ∧ 0x80 ≤ (b - 0xc0) * 64 + (b2 - 0x80) then
          Char.ofNat ((b - 0xc0) * 64 + (b2 - 0x80)) :: utf8Decode []
        else Char.ofNat 0xfffd :: utf8Decode [b2]
      else if 0xe0 ≤ b ∧ b < 0xf0 then Char.ofNat 0xfffd :: utf8Decode [b2]
      else if 0xf0 ≤ b ∧ b < 0xf5 then Char.ofNat 0xfffd :: utf8Decode [b2]
      else Char.ofNat 0xfffd :: utf8Decode [b2]) = _
    rw [if_pos hb]
  | [b2, b3] =>
    show (if b < 0x80 then Char.ofNat b :: utf8Decode [b2, b3]
      else if 0xc0 ≤ b ∧ b < 0xe0 then
        if isCont b2 ∧ 0x80 ≤ (b - 0xc0) * 64 + (b2 - 0x80) then
          Char.ofNat ((b - 0xc0) * 64 + (b2 - 0x80)) :: utf8Decode [b3]
        else Char.ofNat 0xfffd :: utf8Decode [b2, b3]
      else if 0xe0 ≤ b ∧ b < 0xf0 then
        if isCont b2 ∧ isCont b3 ∧
            0x800 ≤ (b - 0xe0) * 4096 + (b2 - 0x80) * 64 + (b3 - 0x80) ∧
            ¬ (0xd800 ≤ (b - 0xe0) * 4096 + (b2 - 0x80) * 64 + (b3 - 0x80) ∧
               (b - 0xe0) * 4096 + (b2 - 0x80) * 64 + (b3 - 0x80) < 0xe000) then
          Char.ofNat ((b - 0xe0) * 4096 + (b2 - 0x80) * 64 + (b3 - 0x80)) :: utf8Decode []
        else Char.ofNat 0xfffd :: utf8Decode [b2, b3]
      else if 0xf0 ≤ b ∧ b < 0xf5 then Char.ofNat 0xfffd :: utf8Decode [b2, b3]
      else Char.ofNat 0xfffd :: utf8Decode [b2, b3]) = _
    rw [if_pos hb]
  | b2 :: b3 :: b4 :: rest4 =>
    show (if b < 0x80 then Char.ofNat b :: utf8Decode (b2 :: b3 :: b4 :: rest4)
      else if 0xc0 ≤ b ∧ b < 0xe0 then
        if isCont b2 ∧ 0x80 ≤ (b - 0xc0) * 64 + (b2 - 0x80) then
          Char.ofNat ((b - 0xc0) * 64 + (b2 - 0x80)) :: utf8Decode (b3 :: b4 :: rest4)
        else Char.ofNat 0xfffd :: utf8Decode (b2 :: b3 :: b4 :: rest4)
      else if 0xe0 ≤ b ∧ b < 0xf0 then
        if isCont b2 ∧ isCont b3 ∧
            0x800 ≤ (b - 0xe0) * 4096 + (b2 - 0x80) * 64 + (b3 - 0x80) ∧
            ¬ (0xd800 ≤ (b - 0xe0) * 4096 + (b2 - 0x80) * 64 + (b3 - 0x80) ∧
               (b - 0xe0) * 4096 + (b2 - 0x80) * 64 + (b3 - 0x80) < 0xe000) then
          Char.ofNat ((b - 0xe0) * 4096 + (b2 - 0x80) * 64 + (b3 - 0x80)) ::
            utf8Decode (b4 :: rest4)
        else Char.ofNat 0xfffd :: utf8Decode (b2 :: b3 :: b4 :: rest4)
      else if 0xf0 ≤ b ∧ b < 0xf5 then
        if isCont b2 ∧ isCont b3 ∧ isCont b4 ∧
            0x10000 ≤ (b - 0xf0) * 262144 + (b2 - 0x80) * 4096 +
              (b3 - 0x80) * 64 + (b4 - 0x80) ∧
            (b - 0xf0) * 262144 + (b2 - 0x80) * 4096 +
              (b3 - 0x80) * 64 + (b4 - 0x80) < 0x110000 then
          Char.ofNat ((b - 0xf0) * 262144 + (b2 - 0x80) * 4096 +
            (b3 - 0x80) * 64 + (b4 - 0x80)) :: utf8Decode rest4
        else Char.ofNat 0xfffd :: utf8Decode (b2 :: b3 :: b4 :: rest4)
      else Char.ofNat 0xfffd :: utf8Decode (b2 :: b3 :: b4 :: rest4)) = _
    rw [if_pos hb]

theorem percentDecodeBytes_escape (a b2 : Nat) (rest : List Nat)
    (ha : isHexDigitByte a = true) (hb2 : isHexDigitByte b2 = true) :
    percentDecodeBytes (37 :: a :: b2 :: rest) =
      (hexDigitVal a * 16 + hexDigitVal b2) :: percentDecodeBytes rest := by
  show (if (37 : Nat) = 0x25 then
      if (isHexDigitByte a && isHexDigitByte b2) = true then
        (hexDigitVal a * 16 + hexDigitVal b2) :: percentDecodeBytes rest
      else 37 :: percentDecodeBytes (a :: b2 :: rest)
    else 37 :: percentDecodeBytes (a :: b2 :: rest)) = _
  rw [if_pos rfl, if_pos (by rw [ha, hb2]; rfl)]

theorem decode_enc_ascii (s : Str) (h : ∀ c ∈ s, c.toNat < 128) :
    utf8Decode (percentDecodeBytes (strBytes (encodeURIComponent s))) = s := by
  induction s with
  | nil => rfl
  | cons c s' ih =>
    have hc : c.toNat < 128 := h c (by simp)
    have hih := ih (fun d hd => h d (List.mem_cons_of_mem c hd))
    have henc : encodeURIComponent (c :: s') =
        (if uriUnreserved c then [c] else percentEscapeChar c) ++ encodeURIComponent s' := by
      unfold encodeURIComponent
      rw [List.flatMap_cons]
    have hsb : strBytes (encodeURIComponent (c :: s')) =
        strBytes (if uriUnreserved c then [c] else percentEscapeChar c) ++
          strBytes (encodeURIComponent s') := by
      rw [henc]
      exact List.flatMap_append _ _ _
    rw [hsb]
    by_cases hu : uriUnreserved c = true
    · rw [if_pos hu]
      have h1 : strBytes [c] = [c.toNat] := by
        show utf8Bytes c ++ [] = [c.toNat]
        rw [utf8Bytes_ascii c hc, List.append_nil]
      rw [h1]
      have hpct : ¬ c.toNat = 37 := by
        intro he
        have : c = '%' := by
          have := congrArg Char.ofNat he
          rwa [Char.ofNat_toNat] at this
        exact (uriUnreserved_facts c hu).2.2.2.2.2 this
      rw [List.cons_append, List.nil_append,
        percentDecodeBytes_cons_ne _ _ hpct, utf8Decode_ascii_cons _ _ hc,
        Char.ofNat_toNat, hih]
    · rw [if_neg hu]
      have hesc : percentEscapeChar c =
          ['%', hexDigitUpper (c.toNat / 16), hexDigitUpper (c.toNat % 16)] := by
        unfold percentEscapeChar
        rw [utf8Bytes_ascii c hc]
        rfl
      have hd1 := hexDigitUpper_facts (c.toNat / 16) (by omega)
      have hd2 := hexDigitUpper_facts (c.toNat % 16) (Nat.mod_lt _ (by omega))
      have hsb2 : strBytes (percentEscapeChar c) =
          [37, (hexDigitUpper (c.toNat / 16)).toNat, (hexDigitUpper (c.toNat % 16)).toNat] := by
        rw [hesc]
        show utf8Bytes '%' ++ (utf8Bytes (hexDigitUpper (c.toNat / 16)) ++
          (utf8Bytes (hexDigitUpper (c.toNat % 16)) ++ [])) = _
        rw [utf8Bytes_ascii '%' (by decide), utf8Bytes_ascii _ hd1.2.2.2.2.2.2.1,
          utf8Bytes_ascii _ hd2.2.2.2.2.2.2.1]
        rfl
      rw [hsb2]
      have hpd : percentDecodeBytes
          (37 :: (hexDigitUpper (c.toNat / 16)).toNat ::
            (hexDigitUpper (c.toNat % 16)).toNat :: strBytes (encodeURIComponent s')) =
          c.toNat :: percentDecodeBytes (strBytes (encodeURIComponent s')) := by
        rw [percentDecodeBytes_escape _ _ _ hd1.2.2.2.2.2.2.2.1 hd2.2.2.2.2.2.2.2.1]
        rw [hd1.2.2.2.2.2.2.2.2, hd2.2.2.2.2.2.2.2.2]
        congr 1
        omega
      rw [List.cons_append, List.cons_append, List.cons_append, List.nil_append, hpd,
        utf8Decode_ascii_cons _ _ hc, Char.ofNat_toNat, hih]

theorem decodeComponent_enc (s : Str) (h : ∀ c ∈ s, c.toNat < 128) :
    decodeComponent (encodeURIComponent s) = s := by
  unfold decodeComponent
  have hplus : (encodeURIComponent s).map (fun c => if c = '+' then ' ' else c) =
      encodeURIComponent s := by
    have hcong : ∀ c ∈ encodeURIComponent s,
        (fun c => if c = '+' then ' ' else c) c = id c :=
      fun c hc => if_neg (enc_char_facts s c hc).2.2.2.2
    rw [List.map_congr_left hcong, List.map_id]
  rw [hplus]
  exact decode_enc_ascii s h

theorem filterMap_decode_enc (qps : List QueryParam)
    (h : ∀ p ∈ qps, p.enabled = true ∧ (∀ c ∈ p.key, c.toNat < 128) ∧
      (∀ c ∈ p.value, c.toNat < 128)) :
    List.filterMap (fun piece =>
        if piece = [] then Option.none
        else Option.some (⟨decodeComponent (splitFirstEq piece).1,
          decodeComponent (splitFirstEq piece).2, true⟩ : QueryParam))
      (qps.map fun p => encodeURIComponent p.key ++ '=' :: encodeURIComponent p.value) =
      qps := by
  induction qps with
  | nil => rfl
  | cons p ps ih =>
    rw [List.map_cons, List.filterMap_cons]
    obtain ⟨hen, hkA, hvA⟩ := h p (by simp)
    have hsfe : splitFirstEq (encodeURIComponent p.key ++ '=' :: encodeURIComponent p.value) =
        (encodeURIComponent p.key, encodeURIComponent p.value) :=
      splitFirstEq_append _ _ (fun c hc => (enc_char_facts _ c hc).2.2.1)
    have hfa : (if (encodeURIComponent p.key ++ '=' :: encodeURIComponent p.value) = []
        then Option.none
        else Option.some (⟨decodeComponent
            (splitFirstEq (encodeURIComponent p.key ++ '=' :: encodeURIComponent p.value)).1,
          decodeComponent
            (splitFirstEq (encodeURIComponent p.key ++ '=' :: encodeURIComponent p.value)).2,
          true⟩ : QueryParam)) = Option.some p := by
      rw [if_neg (by simp), hsfe]
      show Option.some (⟨decodeComponent (encodeURIComponent p.key),
        decodeComponent (encodeURIComponent p.value), true⟩ : QueryParam) = _
      rw [decodeComponent_enc _ hkA, decodeComponent_enc _ hvA]
      cases p with
      | mk k v e =>
        simp at hen
        rw [hen]
    rw [hfa]
    show p :: List.filterMap _ _ = p :: ps
    congr 1
    exact ih (fun q hq => h q (List.mem_cons_of_mem p hq))

theorem decodeQueryString_enc (qps : List QueryParam) (hne : qps ≠ [])
    (h : ∀ p ∈ qps, p.enabled = true ∧ (∀ c ∈ p.key, c.toNat < 128) ∧
      (∀ c ∈ p.value, c.toNat < 128)) :
    decodeQueryString (joinWithChar '&' (qps.map fun p =>
      encodeURIComponent p.key ++ '=' :: encodeURIComponent p.value)) = qps := by
  unfold decodeQueryString
  rw [splitOnChar_joinWithChar '&' _ (by simp [hne]) ?hamp]
  case hamp =>
    intro ℓ hℓ hin
    obtain ⟨p, -, rfl⟩ := List.mem_map.mp hℓ
    rcases List.mem_append.mp hin with hk | hv
    · exact (enc_char_facts _ '&' hk).2.1 rfl
    rcases List.mem_cons.mp hv with he | hv'
    · exact absurd he.symm (by decide)
    · exact (enc_char_facts _ '&' hv').2.1 rfl
  exact filterMap_decode_enc qps h

/-! ### Request-line lemmas -/

theorem methodName_parts (m : HttpMethod) : ∃ n0 ntl, methodName m = n0 :: ntl ∧
    isWS n0 = false ∧ ¬ n0 = '#' ∧ ¬ n0 = '/' ∧ ¬ n0 = '\x7b' ∧ ¬ n0 = '\x7d' := by
  cases m <;>
    exact ⟨_, _, rfl, by decide, by decide, by decide, by decide, by decide⟩

theorem processLine_requestLine_step (s : ParseState) (m : HttpMethod) (rest : Str)
    (hscr : s.inScript = false)
    (hne : rest ≠ []) (hrt : trim rest = rest)
    (hltr : ∀ d ∈ rest, isLineTerm d = false) :
    processLine s (methodName m ++ ' ' :: rest) =
      { s with req := applyRequestLine s.req (m, rest) } := by
  obtain ⟨n0, ntl, hmn, hnws, hn1, hn2, hn3, hn4⟩ := methodName_parts m
  obtain ⟨r0, rtl, rfl⟩ : ∃ r0 rtl, rest = r0 :: rtl := by
    cases rest with
    | nil => exact absurd rfl hne
    | cons a t => exact ⟨a, t, rfl⟩
  have hteq : trim (methodName m ++ ' ' :: r0 :: rtl) = methodName m ++ ' ' :: r0 :: rtl := by
    refine trim_eq_self _ ?_ ?_
    · intro c hc
      rw [headD_append_left _ _ 'x' (by rw [hmn]; simp), hmn, List.headD_cons] at hc
      exact hc ▸ hnws
    · intro c hc
      rw [getLastD_append_right _ _ 'x' (by simp), List.getLastD_cons,
        getLastD_indep _ ' ' 'x' (by simp)] at hc
      exact getLast_not_ws_of_trim _ hrt hne c hc
  have hconsform : methodName m ++ ' ' :: r0 :: rtl = n0 :: (ntl ++ ' ' :: r0 :: rtl) := by
    rw [hmn]
    rfl
  have hr0 : isWS r0 = false :=
    head_not_ws_of_trim _ hrt hne r0 (by simp)
  have hmatch : matchRequestLine (trim (methodName m ++ ' ' :: r0 :: rtl)) =
      Option.some (m, (r0 :: rtl)) := by
    rw [hteq, matchRequestLine_exact m r0 rtl hr0 hltr, hrt]
  show processTrimmed s _ (trim (methodName m ++ ' ' :: r0 :: rtl)) = _
  rw [hteq]
  refine processTrimmed_requestLine s _ _ (m, (r0 :: rtl)) ?_ ?_ ?_ ?_ ?_ ?_ ?_ ?_ ?_
  · rw [hconsform]
    intro hc
    exact absurd ((List.cons.injEq _ _ _ _).mp hc).1 hn1
  · rw [hconsform]
    intro hc
    have hc' : startsWith ('#' :: str (" @name ")) (n0 :: (ntl ++ ' ' :: r0 :: rtl)) = true := hc
    rw [startsWith_cons_head '#' _ n0 _ hn1] at hc'
    exact Bool.false_ne_true hc'
  · rw [hconsform]
    intro hc
    have hc' : startsWith ('#' :: str (" @description ")) (n0 :: (ntl ++ ' ' :: r0 :: rtl)) =
        true := hc
    rw [startsWith_cons_head '#' _ n0 _ hn1] at hc'
    exact Bool.false_ne_true hc'
  · rw [hconsform]
    intro hc
    have hc' : startsWith ('#' :: str (" @tag ")) (n0 :: (ntl ++ ' ' :: r0 :: rtl)) = true := hc
    rw [startsWith_cons_head '#' _ n0 _ hn1] at hc'
    exact Bool.false_ne_true hc'
  · rw [hconsform]
    intro hc
    have hc' : startsWith ('\x7b' :: '\x7b' :: []) (n0 :: (ntl ++ ' ' :: r0 :: rtl)) = true := hc
    rw [startsWith_cons_head '\x7b' _ n0 _ hn3] at hc'
    exact Bool.false_ne_true hc'
  · rw [hconsform]
    intro hc
    have hc' : startsWith ('\x7d' :: '\x7d' :: []) (n0 :: (ntl ++ ' ' :: r0 :: rtl)) = true := hc
    rw [startsWith_cons_head '\x7d' _ n0 _ hn4] at hc'
    exact Bool.false_ne_true hc'
  · rw [hscr]
    exact Bool.false_ne_true
  · rw [hconsform]
    rw [show (str ("#") : Str) = ['#'] from rfl, show (str ("//") : Str) = ['/', '/'] from rfl]
    rw [startsWith_cons_head '#' _ n0 _ hn1, startsWith_cons_head '/' _ n0 _ hn2]
    decide
  · rw [hteq] at hmatch
    exact hmatch

theorem buildUrl_eq (url : Str) (qps : List QueryParam)
    (hall : ∀ p ∈ qps, p.enabled = true ∧ p.key ≠ []) :
    buildUrl url qps = if qps = [] then url
      else url ++ '?' :: joinWithChar '&' (qps.map fun p =>
        encodeURIComponent p.key ++ '=' :: encodeURIComponent p.value) := by
  unfold buildUrl
  have hfilter : (qps.filter fun p => p.enabled && p.key ≠ []) = qps := by
    rw [List.filter_eq_self]
    intro p hp
    rw [(hall p hp).1]
    simp [(hall p hp).2]
  simp only [hfilter]

theorem qs_char_facts (qps : List QueryParam) (c : Char)
    (hc : c ∈ joinWithChar '&' (qps.map fun p =>
      encodeURIComponent p.key ++ '=' :: encodeURIComponent p.value)) :
    isWS c = false ∧ ¬ c = '?' := by
  rcases mem_joinWithChar _ _ _ hc with rfl | ⟨ℓ, hℓ, hcl⟩
  · exact ⟨by decide, by decide⟩
  obtain ⟨p, -, rfl⟩ := List.mem_map.mp hℓ
  rcases List.mem_append.mp hcl with hk | hv
  · exact ⟨(enc_char_facts _ c hk).1, (enc_char_facts _ c hk).2.2.2.1⟩
  rcases List.mem_cons.mp hv with rfl | hv'
  · exact ⟨by decide, by decide⟩
  · exact ⟨(enc_char_facts _ c hv').1, (enc_char_facts _ c hv').2.2.2.1⟩

theorem qs_ne_nil (qps : List QueryParam) (hne : qps ≠ []) :
    joinWithChar '&' (qps.map fun p =>
      encodeURIComponent p.key ++ '=' :: encodeURIComponent p.value) ≠ [] := by
  cases qps with
  | nil => exact absurd rfl hne
  | cons p ps =>
    cases hps : ps with
    | nil =>
      show joinWithChar '&' [encodeURIComponent p.key ++ '=' :: encodeURIComponent p.value] ≠ []
      rw [show joinWithChar '&' [encodeURIComponent p.key ++ '=' :: encodeURIComponent p.value] =
        encodeURIComponent p.key ++ '=' :: encodeURIComponent p.value from by
          simp [joinWithChar, List.intercalate]]
      simp
    | cons q qs' =>
      rw [List.map_cons, joinWithChar_cons '&' _ _ (by simp)]
      simp

theorem processLine_requestLine (s : ParseState) (m : HttpMethod) (url : Str)
    (qps : List QueryParam)
    (hscr : s.inScript = false)
    (hurl : url ≠ []) (hurlt : trim url = url) (hq : '?' ∉ url)
    (hlturl : ∀ c ∈ url, isLineTerm c = false)
    (hqps : ∀ p ∈ qps, p.enabled = true ∧ p.key ≠ [] ∧ (∀ c ∈ p.key, c.toNat < 128) ∧
      (∀ c ∈ p.value, c.toNat < 128)) :
    processLine s (methodName m ++ ' ' :: buildUrl url qps) =
      { s with req := { s.req with
          method := m, url := url,
          queryParams := s.req.queryParams ++ qps } } := by
  have hbu := buildUrl_eq url qps (fun p hp => ⟨(hqps p hp).1, (hqps p hp).2.1⟩)
  by_cases hqe : qps = []
  · subst hqe
    rw [if_pos rfl] at hbu
    rw [hbu]
    rw [processLine_requestLine_step s m url hscr hurl hurlt hlturl]
    have hup : urlPartOf url = url := by
      unfold urlPartOf
      rw [splitOnChar_no_sep '?' url hq]
      rfl
    have hqp : queryParamsOf url = [] := by
      unfold queryParamsOf queryStringOf
      rw [splitOnChar_no_sep '?' url hq]
    show { s with req := applyRequestLine s.req (m, url) } = _
    unfold applyRequestLine
    rw [hup, hqp, List.append_nil]
  · rw [if_neg hqe] at hbu
    set qs := joinWithChar '&' (qps.map fun p =>
      encodeURIComponent p.key ++ '=' :: encodeURIComponent p.value) with hqs
    have hqsne : qs ≠ [] := qs_ne_nil qps hqe
    have hqnotin : '?' ∉ qs := fun hin => (qs_char_facts qps '?' hin).2 rfl
    have hrt : trim (url ++ '?' :: qs) = url ++ '?' :: qs := by
      refine trim_eq_self _ ?_ ?_
      · intro c hc
        rw [headD_append_left _ _ 'x' hurl] at hc
        exact head_not_ws_of_trim url hurlt hurl c hc
      · intro c hc
        rw [getLastD_append_right _ _ 'x' (by simp), List.getLastD_cons,
          getLastD_indep _ '?' 'x' hqsne] at hc
        have hm : qs.getLastD 'x' ∈ qs := getLastD_mem_of_ne qs 'x' hqsne
        rw [hc] at hm
        exact (qs_char_facts qps c hm).1
    have hltfull : ∀ d ∈ url ++ '?' :: qs, isLineTerm d = false := by
      intro d hd
      rcases List.mem_append.mp hd with hu | hq2
      · exact hlturl d hu
      rcases List.mem_cons.mp hq2 with rfl | hqs2
      · decide
      · exact isLineTerm_eq_false_of_not_ws d (qs_char_facts qps d hqs2).1
    rw [hbu, processLine_requestLine_step s m (url ++ '?' :: qs) hscr (by simp) hrt hltfull]
    have hup : urlPartOf (url ++ '?' :: qs) = url := by
      unfold urlPartOf
      rw [splitOnChar_sep, splitOnChar_no_sep '?' url hq, splitOnChar_no_sep '?' qs hqnotin]
      rfl
    have hqp : queryParamsOf (url ++ '?' :: qs) = qps := by
      unfold queryParamsOf queryStringOf
      rw [splitOnChar_sep, splitOnChar_no_sep '?' url hq, splitOnChar_no_sep '?' qs hqnotin]
      show (match (if qs = [] then Option.none else Option.some qs) with
        | Option.some q => decodeQueryString q
        | Option.none => []) = qps
      rw [if_neg hqsne]
      show decodeQueryString qs = qps
      rw [hqs]
      exact decodeQueryString_enc qps hqe
        (fun p hp => ⟨(hqps p hp).1, (hqps p hp).2.2.1, (hqps p hp).2.2.2⟩)
    show { s with req := applyRequestLine s.req (m, url ++ '?' :: qs) } = _
    unfold applyRequestLine
    rw [hup, hqp]

/-! ### Fold lemmas over generated line blocks -/

theorem coreView_method_eq {s' s : ParseState} (h : coreView s' = coreView s) :
    s'.req.method = s.req.method := congrArg (fun x => x.1.1) h

theorem coreView_url_eq {s' s : ParseState} (h : coreView s' = coreView s) :
    s'.req.url = s.req.url := congrArg (fun x => x.1.2.1) h

theorem coreView_headers_eq {s' s : ParseState} (h : coreView s' = coreView s) :
    s'.req.headers = s.req.headers := congrArg (fun x => x.1.2.2.1) h

theorem coreView_queryParams_eq {s' s : ParseState} (h : coreView s' = coreView s) :
    s'.req.queryParams = s.req.queryParams := congrArg (fun x => x.1.2.2.2.1) h

theorem coreView_body_eq {s' s : ParseState} (h : coreView s' = coreView s) :
    s'.req.body = s.req.body := congrArg (fun x => x.1.2.2.2.2.1) h

theorem coreView_fileUri_eq {s' s : ParseState} (h : coreView s' = coreView s) :
    s'.req.fileUri = s.req.fileUri := congrArg (fun x => x.1.2.2.2.2.2) h

theorem coreView_inBody_eq {s' s : ParseState} (h : coreView s' = coreView s) :
    s'.inBody = s.inBody := congrArg (fun x => x.2.1) h

theorem coreView_bodyLines_eq {s' s : ParseState} (h : coreView s' = coreView s) :
    s'.bodyLines = s.bodyLines := congrArg (fun x => x.2.2.1) h

theorem coreView_inScript_eq {s' s : ParseState} (h : coreView s' = coreView s) :
    s'.inScript = s.inScript := congrArg (fun x => x.2.2.2) h

theorem closeScriptReq_core (s : ParseState) :
    (closeScriptReq s).method = s.req.method ∧ (closeScriptReq s).url = s.req.url ∧
    (closeScriptReq s).headers = s.req.headers ∧
    (closeScriptReq s).queryParams = s.req.queryParams ∧
    (closeScriptReq s).body = s.req.body ∧ (closeScriptReq s).fileUri = s.req.fileUri := by
  unfold closeScriptReq
  rcases s.scriptType with - | k
  · exact ⟨rfl, rfl, rfl, rfl, rfl, rfl⟩
  · rcases k with - | - <;> exact ⟨rfl, rfl, rfl, rfl, rfl, rfl⟩

theorem foldl_coreView_meta (L : List Str) (s : ParseState)
    (hL : ∀ ℓ ∈ L, (startsWith (str ("#")) (trim ℓ) = true) ∨ ℓ = [])
    (hurl : s.req.url = []) (hbody : s.inBody = false) (hscr : s.inScript = false) :
    coreView (L.foldl processLine s) = coreView s := by
  induction L generalizing s with
  | nil => rfl
  | cons ℓ L' ih =>
    rw [List.foldl_cons]
    have hstep : coreView (processLine s ℓ) = coreView s := by
      rcases hL ℓ (by simp) with hh | rfl
      · exact processLine_hash s ℓ hh
      · rw [processLine_blank_noUrl s hscr hbody hurl]
    calc coreView (L'.foldl processLine (processLine s ℓ))
        = coreView (processLine s ℓ) := by
          refine ih _ (fun ℓ' hℓ' => hL ℓ' (by simp [hℓ'])) ?_ ?_ ?_
          · rw [coreView_url_eq hstep, hurl]
          · rw [coreView_inBody_eq hstep, hbody]
          · rw [coreView_inScript_eq hstep, hscr]
      _ = coreView s := hstep

theorem foldl_coreView_script (L : List Str) (s : ParseState)
    (hscr : s.inScript = true)
    (hL : ∀ ℓ ∈ L, startsWith (str ("\x7d\x7d")) (trim ℓ) = false) :
    coreView (L.foldl processLine s) = coreView s := by
  induction L generalizing s with
  | nil => rfl
  | cons ℓ L' ih =>
    rw [List.foldl_cons]
    have hstep : coreView (processLine s ℓ) = coreView s :=
      processLine_scriptContent s ℓ hscr (hL ℓ (by simp))
    calc coreView (L'.foldl processLine (processLine s ℓ))
        = coreView (processLine s ℓ) := by
          refine ih _ ?_ (fun ℓ' hℓ' => hL ℓ' (by simp [hℓ']))
          rw [coreView_inScript_eq hstep, hscr]
      _ = coreView s := hstep

theorem foldl_preBlock (p : Str) (s : ParseState)
    (hurl : s.req.url = []) (hbody : s.inBody = false) (hscr : s.inScript = false)
    (hp : ∀ l ∈ splitLines p, startsWith (str ("\x7d\x7d")) (trim l) = false) :
    coreView (([str ("\x7b\x7b"), str ("  // @pre")] ++
      ((splitLines p).map fun l => str ("  ") ++ l) ++
      [str ("\x7d\x7d"), []]).foldl processLine s) = coreView s := by
  have hopen := processLine_scriptOpen s (str ("\x7b\x7b")) (by decide)
  have h1scr : (processLine s (str ("\x7b\x7b"))).inScript = true := by rw [hopen]
  have h1req : (processLine s (str ("\x7b\x7b"))).req = s.req := by rw [hopen]
  have h1b : (processLine s (str ("\x7b\x7b"))).inBody = s.inBody := by rw [hopen]
  have h1bl : (processLine s (str ("\x7b\x7b"))).bodyLines = s.bodyLines := by rw [hopen]
  have h2 : coreView (processLine (processLine s (str ("\x7b\x7b"))) (str ("  // @pre"))) =
      coreView (processLine s (str ("\x7b\x7b"))) :=
    processLine_scriptContent _ _ h1scr (by decide)
  have h2scr : (processLine (processLine s (str ("\x7b\x7b"))) (str ("  // @pre"))).inScript =
      true := by rw [coreView_inScript_eq h2, h1scr]
  have hmap : ∀ ℓ ∈ (splitLines p).map fun l => str ("  ") ++ l,
      startsWith (str ("\x7d\x7d")) (trim ℓ) = false := by
    intro ℓ hℓ
    obtain ⟨l, hl, rfl⟩ := List.mem_map.mp hℓ
    have htr : trim (str ("  ") ++ l) = trim l :=
      trim_ws_append_left (str ("  ")) l (by
        intro c hc
        have hc2 : c ∈ [' ', ' '] := hc
        have hc' : c = ' ' := by simpa using hc2
        rw [hc']
        decide)
    rw [htr]
    exact hp l hl
  have h3 : coreView (((splitLines p).map fun l => str ("  ") ++ l).foldl processLine
      (processLine (processLine s (str ("\x7b\x7b"))) (str ("  // @pre")))) =
      coreView (processLine (processLine s (str ("\x7b\x7b"))) (str ("  // @pre"))) :=
    foldl_coreView_script _ _ h2scr hmap
  set e3 := ((splitLines p).map fun l => str ("  ") ++ l).foldl processLine
      (processLine (processLine s (str ("\x7b\x7b"))) (str ("  // @pre"))) with he3
  have hclose := processLine_scriptClose e3 (str ("\x7d\x7d")) (by decide)
  have h4req : (processLine e3 (str ("\x7d\x7d"))).req = closeScriptReq e3 := by rw [hclose]
  have h4scr : (processLine e3 (str ("\x7d\x7d"))).inScript = false := by rw [hclose]
  have h4b : (processLine e3 (str ("\x7d\x7d"))).inBody = e3.inBody := by rw [hclose]
  have h4bl : (processLine e3 (str ("\x7d\x7d"))).bodyLines = e3.bodyLines := by rw [hclose]
  have hcc := closeScriptReq_core e3
  have churl : e3.req.url = [] := by
    rw [coreView_url_eq h3, coreView_url_eq h2, h1req, hurl]
  have chbody : e3.inBody = false := by
    rw [coreView_inBody_eq h3, coreView_inBody_eq h2, h1b, hbody]
  have hblank : processLine (processLine e3 (str ("\x7d\x7d"))) [] =
      processLine e3 (str ("\x7d\x7d")) :=
    processLine_blank_noUrl _ h4scr (by rw [h4b, chbody]) (by rw [h4req, hcc.2.1, churl])
  have hfold : ([str ("\x7b\x7b"), str ("  // @pre")] ++
      ((splitLines p).map fun l => str ("  ") ++ l) ++
      [str ("\x7d\x7d"), []]).foldl processLine s =
      processLine (processLine e3 (str ("\x7d\x7d"))) [] := by
    rw [List.foldl_append, List.foldl_append]
    rfl
  rw [hfold, hblank]
  show coreView (processLine e3 (str ("\x7d\x7d"))) = coreView s
  unfold coreView
  rw [h4req, h4b, h4bl, h4scr, hcc.1, hcc.2.1, hcc.2.2.1, hcc.2.2.2.1, hcc.2.2.2.2.1,
    hcc.2.2.2.2.2]
  rw [coreView_method_eq h3, coreView_method_eq h2]
  rw [coreView_url_eq h3, coreView_url_eq h2]
  rw [coreView_headers_eq h3, coreView_headers_eq h2]
  rw [coreView_queryParams_eq h3, coreView_queryParams_eq h2]
  rw [coreView_body_eq h3, coreView_body_eq h2]
  rw [coreView_fileUri_eq h3, coreView_fileUri_eq h2]
  rw [coreView_inBody_eq h3, coreView_inBody_eq h2]
  rw [coreView_bodyLines_eq h3, coreView_bodyLines_eq h2]
  rw [h1req, h1b, h1bl, hscr]

theorem trim_cons_not_ws (c : Char) (rest : Str) (h : isWS c = false) :
    trim (c :: rest) = c :: trimRight rest := by
  show trimRight (trimLeft (c :: rest)) = _
  rw [show trimLeft (c :: rest) = c :: rest from by
    show List.dropWhile isWS (c :: rest) = _
    rw [List.dropWhile_cons, h]
    simp]
  show (List.dropWhile isWS (c :: rest).reverse).reverse = _
  rw [List.reverse_cons, List.dropWhile_append]
  by_cases he : (List.dropWhile isWS rest.reverse).isEmpty = true
  · rw [if_pos he]
    rw [show List.dropWhile isWS [c] = [c] from by
      rw [List.dropWhile_cons, h]
      simp]
    have : List.dropWhile isWS rest.reverse = [] := List.isEmpty_iff.mp he
    show [c] = c :: trimRight rest
    unfold trimRight
    rw [this]
    rfl
  · rw [if_neg he, List.reverse_append]
    rfl

theorem foldl_headerLines (hs : List RequestHeader) (s : ParseState)
    (hbody : s.inBody = false) (hscr : s.inScript = false)
    (hok : ∀ h ∈ hs, h.enabled = true ∧ h.key ≠ [] ∧
      (∀ c ∈ h.key, isWS c = false ∧ ¬ c = ':') ∧
      (∀ c, h.key.headD 'x' = c → ¬ c = '#' ∧ ¬ c = '/' ∧ ¬ c = '\x7b' ∧ ¬ c = '\x7d') ∧
      trim h.value = h.value) :
    (hs.map fun h => h.key ++ str (": ") ++ h.value).foldl processLine s =
      { s with req := { s.req with headers := s.req.headers ++ hs } } := by
  induction hs generalizing s with
  | nil =>
    show s = _
    rw [List.append_nil]
  | cons hd hs' ih =>
    rw [List.map_cons, List.foldl_cons]
    obtain ⟨hen, hkne, hkc, hk0, hv⟩ := hok hd (by simp)
    rw [processLine_headerLine s hd.key hd.value hscr hbody hkne hkc hk0 hv]
    have hhd : (⟨hd.key, hd.value, true⟩ : RequestHeader) = hd := by
      cases hd with
      | mk k v e =>
        simp at hen
        rw [hen]
    rw [hhd]
    rw [ih ({ s with req := { s.req with headers := s.req.headers ++ [hd] } })
      hbody hscr (fun h hh => hok h (List.mem_cons_of_mem hd hh))]
    show ({ s with req := { s.req with
      headers := (s.req.headers ++ [hd]) ++ hs' } } : ParseState) = _
    rw [List.append_assoc]
    rfl

theorem foldl_bodyLines (L : List Str) (s : ParseState)
    (hbody : s.inBody = true) (hscr : s.inScript = false)
    (hL : ∀ ℓ ∈ L, ¬ trim ℓ = str ("###") ∧ startsWith (str ("#")) (trim ℓ) = false ∧
      startsWith (str ("//")) (trim ℓ) = false ∧
      startsWith (str ("\x7b\x7b")) (trim ℓ) = false ∧
      startsWith (str ("\x7d\x7d")) (trim ℓ) = false ∧
      matchRequestLine (trim ℓ) = Option.none) :
    L.foldl processLine s = { s with bodyLines := s.bodyLines ++ L } := by
  induction L generalizing s with
  | nil =>
    show s = _
    rw [List.append_nil]
  | cons ℓ L' ih =>
    rw [List.foldl_cons]
    obtain ⟨f1, f2, f3, f4, f5, f6⟩ := hL ℓ (by simp)
    rw [processLine_bodyLine s ℓ hscr hbody f1 f2 f3 f4 f5 f6]
    rw [ih ({ s with bodyLines := s.bodyLines ++ [ℓ] })
      hbody hscr (fun ℓ' hℓ' => hL ℓ' (List.mem_cons_of_mem ℓ hℓ'))]
    show ({ s with bodyLines := (s.bodyLines ++ [ℓ]) ++ L' } : ParseState) = _
    rw [List.append_assoc]
    rfl

theorem processLine_blankAny (s : ParseState)
    (hscr : s.inScript = false) (hurl : s.req.url ≠ []) :
    (processLine s []).req = s.req ∧ (processLine s []).inBody = true ∧
    (processLine s []).bodyLines = s.bodyLines ++ (if s.inBody = true then [[]] else []) ∧
    (processLine s []).inScript = false := by
  by_cases hib : s.inBody = true
  · rw [processLine_bodyLine s [] hscr hib (by decide) (by decide) (by decide) (by decide)
      (by decide) (by decide)]
    refine ⟨rfl, hib, ?_, hscr⟩
    rw [if_pos hib]
  · have hib' : s.inBody = false := by
      rw [Bool.not_eq_true] at hib
      exact hib
    rw [processLine_blank_startBody s hscr hib' hurl]
    refine ⟨rfl, rfl, ?_, hscr⟩
    rw [if_neg hib, List.append_nil]

theorem foldl_testBlock (t : Str) (s res : ParseState)
    (hres : res = (([] : Str) :: str ("\x7b\x7b") ::
      (((splitLines t).map fun l => str ("  ") ++ l) ++ [str ("\x7d\x7d")])).foldl
        processLine s)
    (hscr : s.inScript = false) (hurl : s.req.url ≠ [])
    (hp : ∀ l ∈ splitLines t, startsWith (str ("\x7d\x7d")) (trim l) = false) :
    res.req.method = s.req.method ∧ res.req.url = s.req.url ∧
    res.req.headers = s.req.headers ∧ res.req.queryParams = s.req.queryParams ∧
    res.req.body = s.req.body ∧ res.inBody = true ∧
    res.bodyLines = s.bodyLines ++ (if s.inBody = true then [[]] else []) ∧
    res.inScript = false := by
  obtain ⟨h1req, h1b, h1bl, h1scr⟩ := processLine_blankAny s hscr hurl
  have hopen := processLine_scriptOpen (processLine s []) (str ("\x7b\x7b")) (by decide)
  have h2req : (processLine (processLine s []) (str ("\x7b\x7b"))).req =
      (processLine s []).req := by rw [hopen]
  have h2b : (processLine (processLine s []) (str ("\x7b\x7b"))).inBody =
      (processLine s []).inBody := by rw [hopen]
  have h2bl : (processLine (processLine s []) (str ("\x7b\x7b"))).bodyLines =
      (processLine s []).bodyLines := by rw [hopen]
  have h2scr : (processLine (processLine s []) (str ("\x7b\x7b"))).inScript = true := by
    rw [hopen]
  have hmap : ∀ ℓ ∈ (splitLines t).map fun l => str ("  ") ++ l,
      startsWith (str ("\x7d\x7d")) (trim ℓ) = false := by
    intro ℓ hℓ
    obtain ⟨l, hl, rfl⟩ := List.mem_map.mp hℓ
    have htr : trim (str ("  ") ++ l) = trim l :=
      trim_ws_append_left (str ("  ")) l (by
        intro c hc
        have hc2 : c ∈ [' ', ' '] := hc
        have hc' : c = ' ' := by simpa using hc2
        rw [hc']
        decide)
    rw [htr]
    exact hp l hl
  have h3 : coreView (((splitLines t).map fun l => str ("  ") ++ l).foldl processLine
      (processLine (processLine s []) (str ("\x7b\x7b")))) =
      coreView (processLine (processLine s []) (str ("\x7b\x7b"))) :=
    foldl_coreView_script _ _ h2scr hmap
  set e3 := ((splitLines t).map fun l => str ("  ") ++ l).foldl processLine
      (processLine (processLine s []) (str ("\x7b\x7b"))) with he3
  have hclose := processLine_scriptClose e3 (str ("\x7d\x7d")) (by decide)
  have h4req : (processLine e3 (str ("\x7d\x7d"))).req = closeScriptReq e3 := by rw [hclose]
  have h4b : (processLine e3 (str ("\x7d\x7d"))).inBody = e3.inBody := by rw [hclose]
  have h4bl : (processLine e3 (str ("\x7d\x7d"))).bodyLines = e3.bodyLines := by rw [hclose]
  have h4scr : (processLine e3 (str ("\x7d\x7d"))).inScript = false := by rw [hclose]
  have hcc := closeScriptReq_core e3
  have hfold : res = processLine e3 (str ("\x7d\x7d")) := by
    rw [hres, List.foldl_cons, List.foldl_cons, List.foldl_append]
    rfl
  rw [hfold]
  refine ⟨?_, ?_, ?_, ?_, ?_, ?_, ?_, h4scr⟩
  · rw [h4req, hcc.1, coreView_method_eq h3, h2req, h1req]
  · rw [h4req, hcc.2.1, coreView_url_eq h3, h2req, h1req]
  · rw [h4req, hcc.2.2.1, coreView_headers_eq h3, h2req, h1req]
  · rw [h4req, hcc.2.2.2.1, coreView_queryParams_eq h3, h2req, h1req]
  · rw [h4req, hcc.2.2.2.2.1, coreView_body_eq h3, h2req, h1req]
  · rw [h4b, coreView_inBody_eq h3, h2b, h1b]
  · rw [h4bl, coreView_bodyLines_eq h3, h2bl, h1bl]

theorem foldl_endBlock (s : ParseState) (hscr : s.inScript = false) (hurl : s.req.url ≠ []) :
    ([([] : Str), str ("###")].foldl processLine s).req = s.req ∧
    ([([] : Str), str ("###")].foldl processLine s).bodyLines =
      s.bodyLines ++ (if s.inBody = true then [[]] else []) := by
  obtain ⟨h1req, h1b, h1bl, h1scr⟩ := processLine_blankAny s hscr hurl
  have hsep : processLine (processLine s []) (str ("###")) = processLine s [] := by
    show processTrimmed _ _ (trim (str ("###"))) = _
    exact processTrimmed_sep _ _ _ (by decide)
  show (processLine (processLine s []) (str ("###"))).req = s.req ∧
    (processLine (processLine s []) (str ("###"))).bodyLines = _
  rw [hsep]
  exact ⟨h1req, h1bl⟩

/-! ### Join/split inverses and line flattening -/

theorem joinLines_splitLines (s : Str) : joinLines (splitLines s) = s := by
  induction s with
  | nil => rfl
  | cons x xs ih =>
    show joinLines (splitOnChar '\n' (x :: xs)) = x :: xs
    rw [splitOnChar_cons]
    by_cases hx : x = '\n'
    · rw [if_pos hx]
      rw [joinLines_cons [] _ (splitOnChar_ne_nil '\n' xs)]
      show '\n' :: joinLines (splitLines xs) = x :: xs
      rw [ih, hx]
    · rw [if_neg hx]
      cases hsp : splitOnChar '\n' xs with
      | nil => exact absurd hsp (splitOnChar_ne_nil '\n' xs)
      | cons h t =>
        have ih' : joinLines (h :: t) = xs := by
          rw [← hsp]
          exact ih
        cases t with
        | nil =>
          show (x :: h) ++ [] = x :: xs
          rw [List.append_nil]
          have hxs : h ++ [] = xs := ih'
          rw [List.append_nil] at hxs
          rw [hxs]
        | cons t0 ts =>
          show joinLines ((x :: h) :: (t0 :: ts)) = x :: xs
          rw [joinLines_cons _ _ (by simp)]
          rw [joinLines_cons h _ (by simp)] at ih'
          rw [← ih', List.cons_append]

theorem joinLines_append (A B : List Str) (hA : A ≠ []) (hB : B ≠ []) :
    joinLines (A ++ B) = joinLines A ++ '\n' :: joinLines B := by
  induction A with
  | nil => exact absurd rfl hA
  | cons x A' ih =>
    cases hA' : A' with
    | nil =>
      show joinLines (x :: B) = joinLines [x] ++ '\n' :: joinLines B
      rw [joinLines_cons x B hB]
      show x ++ '\n' :: joinLines B = (x ++ []) ++ '\n' :: joinLines B
      rw [List.append_nil]
    | cons a as =>
      rw [← hA']
      show joinLines (x :: (A' ++ B)) = _
      rw [joinLines_cons x (A' ++ B) (by rw [hA']; simp)]
      rw [joinLines_cons x A' (by rw [hA']; simp)]
      rw [ih (by rw [hA']; simp)]
      simp

theorem flatMap_splitLines_id (L : List Str) (h : ∀ ℓ ∈ L, '\n' ∉ ℓ) :
    L.flatMap splitLines = L := by
  induction L with
  | nil => rfl
  | cons ℓ L' ih =>
    rw [List.flatMap_cons, splitLines_no_nl ℓ (h ℓ (by simp)),
      ih (fun ℓ' hℓ' => h ℓ' (List.mem_cons_of_mem ℓ hℓ'))]
    rfl

theorem mem_intercalate_cases (sep : Str) (ls : List Str) (c : Char)
    (h : c ∈ List.intercalate sep ls) : c ∈ sep ∨ ∃ l ∈ ls, c ∈ l := by
  induction ls with
  | nil => simp [List.intercalate] at h
  | cons x xs ih =>
    cases hxs : xs with
    | nil =>
      subst hxs
      right
      refine ⟨x, by simp, ?_⟩
      simpa [List.intercalate] using h
    | cons y ys =>
      subst hxs
      rw [show List.intercalate sep (x :: y :: ys) =
          x ++ sep ++ List.intercalate sep (y :: ys) from by
        show (List.intersperse sep (x :: y :: ys)).flatten = _
        rw [List.intersperse_cons₂]
        show x ++ (sep ++ (List.intersperse sep (y :: ys)).flatten) = _
        rw [List.append_assoc]
        rfl] at h
      rcases List.mem_append.mp h with hxm | hrest
      · rcases List.mem_append.mp hxm with hx | hsep
        · exact Or.inr ⟨x, by simp, hx⟩
        · exact Or.inl hsep
      · rcases ih hrest with hsep | ⟨l, hl, hcl⟩
        · exact Or.inl hsep
        · exact Or.inr ⟨l, List.mem_cons_of_mem x hl, hcl⟩

theorem finishRequest_fields (s : ParseState) :
    (finishRequest s).method = s.req.method ∧ (finishRequest s).url = s.req.url ∧
    (finishRequest s).headers = s.req.headers ∧
    (finishRequest s).queryParams = s.req.queryParams := by
  unfold finishRequest
  by_cases h1 : s.bodyLines ≠ []
  · rw [if_pos h1]
    by_cases h2 : trim (joinLines s.bodyLines) ≠ []
    · rw [if_pos h2]
      exact ⟨rfl, rfl, rfl, rfl⟩
    · rw [if_neg h2]
      exact ⟨rfl, rfl, rfl, rfl⟩
  · rw [if_neg h1]
    exact ⟨rfl, rfl, rfl, rfl⟩

theorem finishRequest_body_empty (s : ParseState)
    (h : trim (joinLines s.bodyLines) = []) : (finishRequest s).body = s.req.body := by
  unfold finishRequest
  by_cases h1 : s.bodyLines ≠ []
  · rw [if_pos h1, if_neg (by rw [h]; exact fun hc => hc rfl)]
  · rw [if_neg h1]

theorem finishRequest_body_detect (s : ParseState)
    (hne : s.bodyLines ≠ []) (ht : trim (joinLines s.bodyLines) ≠ []) :
    (finishRequest s).body =
      detectBodyType (trim (joinLines s.bodyLines)) s.req.headers := by
  unfold finishRequest
  rw [if_pos hne, if_pos ht]

theorem generateBody_scoped (r : UIRequest)
    (hbt1 : ∀ q v, ¬ r.body = RequestBody.graphql q v)
    (hbt2 : ∀ c, ¬ r.body = RequestBody.binary c) :
    generateBody r = (if r.body = RequestBody.none then Option.none
      else Option.some (bodyContentOf r.body)) := by
  unfold generateBody
  cases hb : r.body with
  | none => rw [if_pos rfl]
  | json c =>
    rw [if_neg (by simp)]
    rfl
  | raw c =>
    rw [if_neg (by simp)]
    rfl
  | form c =>
    rw [if_neg (by simp)]
    rfl
  | formdata fd c =>
    rw [if_neg (by simp)]
    show (if fd ≠ [] then _ else _) = _
    by_cases hfd : fd ≠ []
    · rw [if_pos hfd]
      show _ = Option.some (if fd ≠ [] then _ else _)
      rw [if_pos hfd]
    · rw [if_neg hfd]
      show _ = Option.some (if fd ≠ [] then _ else _)
      rw [if_neg hfd]
  | graphql q v => exact absurd hb (hbt1 q v)
  | binary c => exact absurd hb (hbt2 c)

theorem methodName_no_nl (m : HttpMethod) : '\n' ∉ methodName m := by
  cases m <;> decide

theorem metaLines_facts (r : UIRequest)
    (hname : '\n' ∉ r.name)
    (hdesc : ∀ d, r.description = Option.some d → '\n' ∉ d)
    (htags : ∀ ts, r.tags = Option.some ts → ∀ tg ∈ ts, '\n' ∉ tg) :
    ∀ ℓ ∈ ((if r.name ≠ [] then [str ("# @name ") ++ r.name] else []) ++
      (match r.description with
       | Option.some d => [str ("# @description ") ++ d]
       | Option.none => []) ++
      (match r.tags with
       | Option.some ts =>
         if ts ≠ [] then [str ("# @tag ") ++ List.intercalate (str (", ")) ts] else []
       | Option.none => [])),
      '\n' ∉ ℓ ∧ startsWith (str ("#")) (trim ℓ) = true := by
  intro ℓ hℓ
  have hline : ∃ restL, ℓ = '#' :: restL ∧ '\n' ∉ restL := by
    rcases List.mem_append.mp hℓ with h2 | htag
    · rcases List.mem_append.mp h2 with hnm | hds
      · by_cases hn0 : r.name ≠ []
        · rw [if_pos hn0] at hnm
          simp at hnm
          refine ⟨str (" @name ") ++ r.name, by rw [hnm]; rfl, ?_⟩
          intro hm
          rcases List.mem_append.mp hm with hA | hB
          · revert hA
            decide
          · exact hname hB
        · rw [if_neg hn0] at hnm
          cases hnm
      · cases hd : r.description with
        | none =>
          rw [hd] at hds
          simp at hds
        | some d =>
          rw [hd] at hds
          simp at hds
          refine ⟨str (" @description ") ++ d, by rw [hds]; rfl, ?_⟩
          intro hm
          rcases List.mem_append.mp hm with hA | hB
          · revert hA
            decide
          · exact hdesc d hd hB
    · cases ht : r.tags with
      | none =>
        rw [ht] at htag
        simp at htag
      | some ts =>
        rw [ht] at htag
        have htag' : ℓ ∈ (if ts ≠ [] then
            [str ("# @tag ") ++ List.intercalate (str (", ")) ts] else []) := htag
        by_cases hts : ts ≠ []
        · rw [if_pos hts] at htag'
          simp at htag'
          refine ⟨str (" @tag ") ++ List.intercalate (str (", ")) ts, by rw [htag']; rfl, ?_⟩
          intro hm
          rcases List.mem_append.mp hm with hA | hB
          · revert hA
            decide
          · rcases mem_intercalate_cases _ _ _ hB with hsep | ⟨l, hl, hcl⟩
            · revert hsep
              decide
            · exact htags ts ht l hl hcl
        · rw [if_neg hts] at htag'
          cases htag'
  obtain ⟨restL, rfl, hrest⟩ := hline
  constructor
  · intro hm
    rcases List.mem_cons.mp hm with he | hm'
    · cases he
    · exact hrest hm'
  · rw [trim_cons_not_ws '#' restL (by decide)]
    exact (startsWith_cons '#' [] _).mpr ⟨trimRight restL, rfl, startsWith_nil _⟩

theorem scriptLines_nl (p : Str) (extra : List Str)
    (hextra : ∀ ℓ ∈ extra, '\n' ∉ ℓ) :
    ∀ ℓ ∈ (extra ++ ((splitLines p).map fun l => str ("  ") ++ l)), '\n' ∉ ℓ := by
  intro ℓ hℓ
  rcases List.mem_append.mp hℓ with he | hmap
  · exact hextra ℓ he
  · obtain ⟨l, hl, rfl⟩ := List.mem_map.mp hmap
    intro hm
    rcases List.mem_append.mp hm with hA | hB
    · revert hA
      decide
    · exact sep_not_mem_of_mem_splitOnChar '\n' p l hl hB

theorem roundtrip_state (r : UIRequest) (res : ParseState)
    (hres : res = (splitLines (generate r)).foldl processLine (initParseState Option.none))
    (hurl : r.url ≠ []) (hurlt : trim r.url = r.url) (hqurl : '?' ∉ r.url)
    (hnl : ∀ c ∈ r.url, isLineTerm c = false)
    (hname : '\n' ∉ r.name)
    (hdesc : ∀ d, r.description = Option.some d → '\n' ∉ d)
    (htags : ∀ ts, r.tags = Option.some ts → ∀ tg ∈ ts, '\n' ∉ tg)
    (hheaders : ∀ h ∈ r.headers, h.enabled = true ∧ h.key ≠ [] ∧
      (∀ c ∈ h.key, isWS c = false ∧ ¬ c = ':') ∧
      (∀ c, h.key.headD 'x' = c → ¬ c = '#' ∧ ¬ c = '/' ∧ ¬ c = '\x7b' ∧ ¬ c = '\x7d') ∧
      trim h.value = h.value ∧ '\n' ∉ h.value)
    (hqps : ∀ p ∈ r.queryParams, p.enabled = true ∧ p.key ≠ [] ∧
      (∀ c ∈ p.key, c.toNat < 128) ∧ (∀ c ∈ p.value, c.toNat < 128))
    (hpre : ∀ p, r.preRequest = Option.some p →
      ∀ l ∈ splitLines p, startsWith (str ("\x7d\x7d")) (trim l) = false)
    (htst : ∀ t, r.tests = Option.some t →
      ∀ l ∈ splitLines t, startsWith (str ("\x7d\x7d")) (trim l) = false)
    (hbody : ∀ ℓ ∈ splitLines (bodyContentOf r.body),
      ¬ trim ℓ = str ("###") ∧ startsWith (str ("#")) (trim ℓ) = false ∧
      startsWith (str ("//")) (trim ℓ) = false ∧
      startsWith (str ("\x7b\x7b")) (trim ℓ) = false ∧
      startsWith (str ("\x7d\x7d")) (trim ℓ) = false ∧
      matchRequestLine (trim ℓ) = Option.none)
    (hbt1 : ∀ q v, ¬ r.body = RequestBody.graphql q v)
    (hbt2 : ∀ c, ¬ r.body = RequestBody.binary c) :
    res.req.method = r.method ∧ res.req.url = r.url ∧ res.req.headers = r.headers ∧
    res.req.queryParams = r.queryParams ∧ res.req.body = RequestBody.none ∧
    trim (joinLines res.bodyLines) = trim (bodyContentOf r.body) := by
  set ML := (if r.name ≠ [] then [str ("# @name ") ++ r.name] else []) ++
      (match r.description with
       | Option.some d => [str ("# @description ") ++ d]
       | Option.none => []) ++
      (match r.tags with
       | Option.some ts =>
         if ts ≠ [] then [str ("# @tag ") ++ List.intercalate (str (", ")) ts] else []
       | Option.none => []) with hML
  set MB := (if ML ≠ [] then ML ++ [[]] else []) with hMB
  set PB := (match r.preRequest with
     | Option.some p =>
       if trim p ≠ [] then
         [str ("\x7b\x7b"), str ("  // @pre")] ++
         ((splitLines p).map fun l => str ("  ") ++ l) ++ [str ("\x7d\x7d"), []]
       else []
     | Option.none => []) with hPB
  set RL := methodName r.method ++ ' ' :: buildUrl r.url r.queryParams with hRL
  set HL := ((r.headers.filter fun h => h.enabled && h.key ≠ []).map
      fun h => h.key ++ str (": ") ++ h.value) with hHL
  set BB := (match generateBody r with
     | Option.some b => if b ≠ [] then [[], b] else []
     | Option.none => []) with hBB
  set TB := (match r.tests with
     | Option.some t =>
       if trim t ≠ [] then
         [[], str ("\x7b\x7b")] ++ ((splitLines t).map fun l => str ("  ") ++ l) ++
         [str ("\x7d\x7d")]
       else []
     | Option.none => []) with hTB
  have hgl : generateLines r = MB ++ PB ++ [RL] ++ HL ++ BB ++ TB ++ [[], str ("###")] := rfl
  set b := bodyContentOf r.body with hbdef
  have hgb := generateBody_scoped r hbt1 hbt2
  have hb0 : r.body = RequestBody.none → b = [] := by
    intro hn
    rw [hbdef, hn]
    rfl
  have hBBeq : BB = if b ≠ [] then [[], b] else [] := by
    rw [hBB, hgb]
    by_cases hn : r.body = RequestBody.none
    · rw [if_pos hn]
      show ([] : List Str) = _
      rw [if_neg (fun hc => hc (hb0 hn))]
    · rw [if_neg hn]
  have hMLfacts := metaLines_facts r hname hdesc htags
  have hMBfacts : ∀ ℓ ∈ MB, '\n' ∉ ℓ ∧ (startsWith (str ("#")) (trim ℓ) = true ∨ ℓ = []) := by
    intro ℓ hℓ
    rw [hMB] at hℓ
    by_cases hml : ML ≠ []
    · rw [if_pos hml] at hℓ
      rcases List.mem_append.mp hℓ with hin | hblank
      · obtain ⟨f1, f2⟩ := hMLfacts ℓ (hML ▸ hin)
        exact ⟨f1, Or.inl f2⟩
      · simp at hblank
        rw [hblank]
        exact ⟨by simp, Or.inr rfl⟩
    · rw [if_neg hml] at hℓ
      cases hℓ
  have hPBnl : ∀ ℓ ∈ PB, '\n' ∉ ℓ := by
    intro ℓ hℓ
    rw [hPB] at hℓ
    cases hp0 : r.preRequest with
    | none =>
      rw [hp0] at hℓ
      simp at hℓ
    | some p =>
      rw [hp0] at hℓ
      have hℓ2 : ℓ ∈ (if trim p ≠ [] then
          [str ("\x7b\x7b"), str ("  // @pre")] ++
          ((splitLines p).map fun l => str ("  ") ++ l) ++ [str ("\x7d\x7d"), []]
        else []) := hℓ
      by_cases htp : trim p ≠ []
      · rw [if_pos htp] at hℓ2
        rcases List.mem_append.mp hℓ2 with hfront | hback
        · refine scriptLines_nl p [str ("\x7b\x7b"), str ("  // @pre")] ?_ ℓ hfront
          intro x hx
          have hx2 : x ∈ [str ("\x7b\x7b"), str ("  // @pre")] := hx
          simp at hx2
          rcases hx2 with rfl | rfl <;> decide
        · have hback2 : ℓ ∈ [str ("\x7d\x7d"), ([] : Str)] := hback
          simp at hback2
          rcases hback2 with rfl | rfl
          · decide
          · simp
      · rw [if_neg htp] at hℓ2
        cases hℓ2
  have hfiltqps : (r.queryParams.filter fun p => p.enabled && p.key ≠ []) = r.queryParams := by
    rw [List.filter_eq_self]
    intro p hp
    rw [(hqps p hp).1]
    simp [(hqps p hp).2.1]
  have hbu := buildUrl_eq r.url r.queryParams (fun p hp => ⟨(hqps p hp).1, (hqps p hp).2.1⟩)
  have hRLnl : '\n' ∉ RL := by
    rw [hRL]
    intro hm
    rcases List.mem_append.mp hm with hmn | hrest
    · exact methodName_no_nl r.method hmn
    rcases List.mem_cons.mp hrest with he | hbuild
    · cases he
    rw [hbu] at hbuild
    by_cases hqe : r.queryParams = []
    · rw [if_pos hqe] at hbuild
      have := hnl '\n' hbuild
      revert this
      decide
    · rw [if_neg hqe] at hbuild
      rcases List.mem_append.mp hbuild with hu | hq2
      · have := hnl '\n' hu
        revert this
        decide
      rcases List.mem_cons.mp hq2 with he | hqs
      · cases he
      · have := (qs_char_facts r.queryParams '\n' hqs).1
        revert this
        decide
  have hHLnl : ∀ ℓ ∈ HL, '\n' ∉ ℓ := by
    intro ℓ hℓ
    rw [hHL] at hℓ
    obtain ⟨h, hh, rfl⟩ := List.mem_map.mp hℓ
    have hmem := List.mem_of_mem_filter hh
    obtain ⟨-, -, hkc, -, -, hvnl⟩ := hheaders h hmem
    intro hm
    rcases List.mem_append.mp hm with hkv | hv
    · rcases List.mem_append.mp hkv with hk | hcolon
      · have := (hkc '\n' hk).1
        revert this
        decide
      · revert hcolon
        decide
    · exact hvnl hv
  have hTBnl : ∀ ℓ ∈ TB, '\n' ∉ ℓ := by
    intro ℓ hℓ
    rw [hTB] at hℓ
    cases ht0 : r.tests with
    | none =>
      rw [ht0] at hℓ
      simp at hℓ
    | some t =>
      rw [ht0] at hℓ
      have hℓ2 : ℓ ∈ (if trim t ≠ [] then
          [([] : Str), str ("\x7b\x7b")] ++
          ((splitLines t).map fun l => str ("  ") ++ l) ++ [str ("\x7d\x7d")]
        else []) := hℓ
      by_cases htp : trim t ≠ []
      · rw [if_pos htp] at hℓ2
        rcases List.mem_append.mp hℓ2 with hfront | hback
        · refine scriptLines_nl t [([] : Str), str ("\x7b\x7b")] ?_ ℓ hfront
          intro x hx
          have hx2 : x ∈ [([] : Str), str ("\x7b\x7b")] := hx
          simp at hx2
          rcases hx2 with rfl | rfl
          · simp
          · decide
        · have hback2 : ℓ ∈ [str ("\x7d\x7d")] := hback
          simp at hback2
          rw [hback2]
          decide
      · rw [if_neg htp] at hℓ2
        cases hℓ2
  have hflat : (generateLines r).flatMap splitLines =
      MB ++ (PB ++ ([RL] ++ (HL ++ ((if b ≠ [] then ([] : Str) :: splitLines b else []) ++
        (TB ++ [[], str ("###")]))))) := by
    rw [hgl]
    rw [List.flatMap_append, List.flatMap_append, List.flatMap_append, List.flatMap_append,
      List.flatMap_append, List.flatMap_append]
    rw [flatMap_splitLines_id MB (fun ℓ h => (hMBfacts ℓ h).1)]
    rw [flatMap_splitLines_id PB hPBnl]
    rw [flatMap_splitLines_id [RL] (by
      intro ℓ h
      simp at h
      rw [h]
      exact hRLnl)]
    rw [flatMap_splitLines_id HL hHLnl]
    rw [flatMap_splitLines_id TB hTBnl]
    rw [flatMap_splitLines_id [[], str ("###")] (by
      intro ℓ h
      simp at h
      rcases h with rfl | rfl
      · simp
      · decide)]
    rw [hBBeq]
    have hbbf : (if b ≠ [] then [([] : Str), b] else []).flatMap splitLines =
        (if b ≠ [] then ([] : Str) :: splitLines b else []) := by
      by_cases hbne : b ≠ []
      · rw [if_pos hbne, if_pos hbne]
        show splitLines [] ++ (splitLines b ++ []) = _
        rw [List.append_nil]
        rfl
      · rw [if_neg hbne, if_neg hbne]
        rfl
    rw [hbbf]
    simp only [List.append_assoc]
  have hsplit : splitLines (generate r) =
      MB ++ (PB ++ ([RL] ++ (HL ++ ((if b ≠ [] then ([] : Str) :: splitLines b else []) ++
        (TB ++ [[], str ("###")]))))) := by
    show splitLines (joinLines (generateLines r)) = _
    rw [splitLines_joinLines _ (by rw [hgl]; simp), hflat]
  rw [hres, hsplit]
  rw [List.foldl_append, List.foldl_append, List.foldl_append, List.foldl_append,
    List.foldl_append, List.foldl_append]
  set sA := List.foldl processLine (initParseState Option.none) MB with hsA
  have hA : coreView sA = coreView (initParseState Option.none) :=
    foldl_coreView_meta MB _ (fun ℓ h => (hMBfacts ℓ h).2) rfl rfl rfl
  set sB := List.foldl processLine sA PB with hsB
  have hBcv : coreView sB = coreView sA := by
    rw [hsB, hPB]
    cases hp0 : r.preRequest with
    | none => rfl
    | some p =>
      show coreView (List.foldl processLine sA (if trim p ≠ [] then
        [str ("\x7b\x7b"), str ("  // @pre")] ++
        ((splitLines p).map fun l => str ("  ") ++ l) ++ [str ("\x7d\x7d"), []]
        else [])) = coreView sA
      by_cases htp : trim p ≠ []
      · rw [if_pos htp]
        exact foldl_preBlock p sA (by rw [coreView_url_eq hA]; rfl)
          (by rw [coreView_inBody_eq hA]; rfl) (by rw [coreView_inScript_eq hA]; rfl)
          (hpre p hp0)
      · rw [if_neg htp]
        rfl
  have hBA : coreView sB = coreView (initParseState Option.none) := hBcv.trans hA
  have hsBscr : sB.inScript = false := by rw [coreView_inScript_eq hBA]; rfl
  have hsBqp : sB.req.queryParams = [] := by rw [coreView_queryParams_eq hBA]; rfl
  have hsBh : sB.req.headers = [] := by rw [coreView_headers_eq hBA]; rfl
  have hsBb : sB.req.body = RequestBody.none := by rw [coreView_body_eq hBA]; rfl
  have hsBib : sB.inBody = false := by rw [coreView_inBody_eq hBA]; rfl
  have hsBbl : sB.bodyLines = [] := by rw [coreView_bodyLines_eq hBA]; rfl
  rw [show List.foldl processLine sB [RL] = processLine sB RL from rfl]
  have hCstep : processLine sB RL = { sB with req := { sB.req with
      method := r.method, url := r.url,
      queryParams := sB.req.queryParams ++ r.queryParams } } := by
    rw [hRL]
    exact processLine_requestLine sB r.method r.url r.queryParams hsBscr hurl hurlt hqurl hnl hqps
  set sC := processLine sB RL with hsC
  have hsCm : sC.req.method = r.method := by rw [hCstep]
  have hsCu : sC.req.url = r.url := by rw [hCstep]
  have hsCq : sC.req.queryParams = r.queryParams := by
    rw [hCstep]
    show sB.req.queryParams ++ r.queryParams = r.queryParams
    rw [hsBqp]
    exact List.nil_append _
  have hsCh : sC.req.headers = [] := by
    rw [hCstep]
    exact hsBh
  have hsCb : sC.req.body = RequestBody.none := by
    rw [hCstep]
    exact hsBb
  have hsCib : sC.inBody = false := by
    rw [hCstep]
    exact hsBib
  have hsCbl : sC.bodyLines = [] := by
    rw [hCstep]
    exact hsBbl
  have hsCscr : sC.inScript = false := by
    rw [hCstep]
    exact hsBscr
  have hfilthd : (r.headers.filter fun h => h.enabled && h.key ≠ []) = r.headers := by
    rw [List.filter_eq_self]
    intro h hh
    rw [(hheaders h hh).1]
    simp [(hheaders h hh).2.1]
  have hDstep : List.foldl processLine sC HL =
      { sC with req := { sC.req with headers := sC.req.headers ++ r.headers } } := by
    rw [hHL, hfilthd]
    exact foldl_headerLines r.headers sC hsCib hsCscr (fun h hh =>
      ⟨(hheaders h hh).1, (hheaders h hh).2.1, (hheaders h hh).2.2.1,
       (hheaders h hh).2.2.2.1, (hheaders h hh).2.2.2.2.1⟩)
  set sD := List.foldl processLine sC HL with hsD
  have hsDm : sD.req.method = r.method := by
    rw [hDstep]
    exact hsCm
  have hsDu : sD.req.url = r.url := by
    rw [hDstep]
    exact hsCu
  have hsDq : sD.req.queryParams = r.queryParams := by
    rw [hDstep]
    exact hsCq
  have hsDh : sD.req.headers = r.headers := by
    rw [hDstep]
    show sC.req.headers ++ r.headers = r.headers
    rw [hsCh]
    exact List.nil_append _
  have hsDb : sD.req.body = RequestBody.none := by
    rw [hDstep]
    exact hsCb
  have hsDib : sD.inBody = false := by
    rw [hDstep]
    exact hsCib
  have hsDbl : sD.bodyLines = [] := by
    rw [hDstep]
    exact hsCbl
  have hsDscr : sD.inScript = false := by
    rw [hDstep]
    exact hsCscr
  have hTBalt : TB = [] ∨ ∃ t, r.tests = Option.some t ∧ trim t ≠ [] ∧
      TB = [([] : Str), str ("\x7b\x7b")] ++ ((splitLines t).map fun l => str ("  ") ++ l) ++
        [str ("\x7d\x7d")] := by
    cases ht0 : r.tests with
    | none =>
      left
      rw [hTB, ht0]
    | some t =>
      by_cases htt : trim t ≠ []
      · right
        refine ⟨t, rfl, htt, ?_⟩
        rw [hTB, ht0]
        show (if trim t ≠ [] then _ else _) = _
        rw [if_pos htt]
      · left
        rw [hTB, ht0]
        show (if trim t ≠ [] then _ else _) = _
        rw [if_neg htt]
  have hjnl : ∀ c ∈ ['\n'], isWS c = true := by
    intro c hc
    simp at hc
    rw [hc]
    decide
  have htail : ∀ sE : ParseState, sE.req.method = r.method → sE.req.url = r.url →
      sE.req.headers = r.headers → sE.req.queryParams = r.queryParams →
      sE.req.body = RequestBody.none → sE.inScript = false →
      ((sE.inBody = false ∧ sE.bodyLines = [] ∧ b = []) ∨
       (sE.inBody = true ∧ sE.bodyLines = splitLines b ∧ b ≠ [])) →
      (List.foldl processLine (List.foldl processLine sE TB)
          [[], str ("###")]).req.method = r.method ∧
      (List.foldl processLine (List.foldl processLine sE TB)
          [[], str ("###")]).req.url = r.url ∧
      (List.foldl processLine (List.foldl processLine sE TB)
          [[], str ("###")]).req.headers = r.headers ∧
      (List.foldl processLine (List.foldl processLine sE TB)
          [[], str ("###")]).req.queryParams = r.queryParams ∧
      (List.foldl processLine (List.foldl processLine sE TB)
          [[], str ("###")]).req.body = RequestBody.none ∧
      trim (joinLines (List.foldl processLine (List.foldl processLine sE TB)
          [[], str ("###")]).bodyLines) = trim b := by
    intro sE hEm hEu hEh hEq hEb hEscr hblc
    rcases hTBalt with htb0 | ⟨t, ht0, htt, htb⟩
    · rw [htb0, List.foldl_nil]
      obtain ⟨hGreq, hGbl⟩ := foldl_endBlock sE hEscr (by rw [hEu]; exact hurl)
      refine ⟨by rw [hGreq, hEm], by rw [hGreq, hEu], by rw [hGreq, hEh],
        by rw [hGreq, hEq], by rw [hGreq, hEb], ?_⟩
      rw [hGbl]
      rcases hblc with ⟨hib, hbl, hbe⟩ | ⟨hib, hbl, hbne⟩
      · rw [hib, hbl, hbe]
        rfl
      · rw [hib, hbl, if_pos rfl]
        rw [joinLines_append (splitLines b) [[]] (splitOnChar_ne_nil '\n' b) (by simp)]
        rw [joinLines_splitLines]
        show trim (b ++ ['\n']) = trim b
        exact trim_ws_append_right b ['\n'] hjnl
    · rw [htb]
      obtain ⟨hFm, hFu, hFh, hFq, hFb, hFib, hFbl, hFscr⟩ :=
        foldl_testBlock t sE (List.foldl processLine sE
          ([([] : Str), str ("\x7b\x7b")] ++ ((splitLines t).map fun l => str ("  ") ++ l) ++
            [str ("\x7d\x7d")])) rfl hEscr (by rw [hEu]; exact hurl) (htst t ht0)
      set sF := List.foldl processLine sE
          ([([] : Str), str ("\x7b\x7b")] ++ ((splitLines t).map fun l => str ("  ") ++ l) ++
            [str ("\x7d\x7d")]) with hsF
      obtain ⟨hGreq, hGbl⟩ := foldl_endBlock sF hFscr (by rw [hFu, hEu]; exact hurl)
      refine ⟨by rw [hGreq, hFm, hEm], by rw [hGreq, hFu, hEu], by rw [hGreq, hFh, hEh],
        by rw [hGreq, hFq, hEq], by rw [hGreq, hFb, hEb], ?_⟩
      rw [hGbl, hFib, if_pos rfl, hFbl]
      rcases hblc with ⟨hib, hbl, hbe⟩ | ⟨hib, hbl, hbne⟩
      · rw [hib, hbl, hbe]
        rfl
      · rw [hib, hbl, if_pos rfl]
        rw [joinLines_append (splitLines b ++ [[]]) [[]] (by simp [splitOnChar_ne_nil])
          (by simp)]
        rw [joinLines_append (splitLines b) [[]] (splitOnChar_ne_nil '\n' b) (by simp)]
        rw [joinLines_splitLines]
        show trim (((b ++ ['\n']) ++ ['\n'])) = trim b
        rw [trim_ws_append_right (b ++ ['\n']) ['\n'] hjnl]
        exact trim_ws_append_right b ['\n'] hjnl
  by_cases hbne : b ≠ []
  · rw [if_pos hbne]
    rw [show List.foldl processLine sD (([] : Str) :: splitLines b) =
      List.foldl processLine (processLine sD []) (splitLines b) from rfl]
    rw [processLine_blank_startBody sD hsDscr hsDib (by rw [hsDu]; exact hurl)]
    rw [foldl_bodyLines (splitLines b) ({ sD with inBody := true }) rfl hsDscr hbody]
    refine htail _ hsDm hsDu hsDh hsDq hsDb hsDscr (Or.inr ⟨rfl, ?_, hbne⟩)
    show sD.bodyLines ++ splitLines b = splitLines b
    rw [hsDbl]
    exact List.nil_append _
  · rw [if_neg hbne, List.foldl_nil]
    refine htail sD hsDm hsDu hsDh hsDq hsDb hsDscr (Or.inl ⟨hsDib, hsDbl, ?_⟩)
    rw [Ne, Classical.not_not] at hbne
    exact hbne

/-- C1, counterexample: a request with all headers and query parameters
enabled (vacuously) and a non-empty URL whose raw body is the line
`# hi` does not survive `parse ∘ generate`: the generated body line is
consumed as a comment by the parser, so the parsed body content is
empty rather than `# hi`. -/
theorem roundtrip_counterexample :
    ¬ (bodyContentOf (parseHttpText (generate
      { name := str ("R"), description := Option.none, tags := Option.none,
        method := HttpMethod.POST, url := str ("http://e"), headers := [],
        queryParams := [], body := RequestBody.raw (str ("# hi")),
        preRequest := Option.none, tests := Option.none,
        fileUri := Option.none }) Option.none).body =
      bodyContentOf (RequestBody.raw (str ("# hi")))) := by decide

/-- C1 (amended): for a request whose URL is non-empty, trim-stable and
free of `?` and line terminators; whose headers are all enabled with non-empty
keys free of whitespace and colons, first key character not `#`, `/`,
`{` or `}`, and trim-stable newline-free values; whose query parameters
are all enabled with non-empty ASCII keys and ASCII values; whose name,
description and tags contain no newline; whose pre-request and test
scripts have no line whose trim starts with `}}`; whose body is not
graphql or binary and renders to lines that are not separators,
comments, script markers or request lines — `parseHttpText` after
`generate` reproduces the method, URL, headers and query parameters
exactly, and the body content up to an outer trim. -/
theorem roundtrip_amended (r : UIRequest)
    (hurl : r.url ≠ []) (hurlt : trim r.url = r.url) (hqurl : '?' ∉ r.url)
    (hnl : ∀ c ∈ r.url, isLineTerm c = false)
    (hname : '\n' ∉ r.name)
    (hdesc : ∀ d, r.description = Option.some d → '\n' ∉ d)
    (htags : ∀ ts, r.tags = Option.some ts → ∀ tg ∈ ts, '\n' ∉ tg)
    (hheaders : ∀ h ∈ r.headers, h.enabled = true ∧ h.key ≠ [] ∧
      (∀ c ∈ h.key, isWS c = false ∧ ¬ c = ':') ∧
      (∀ c, h.key.headD 'x' = c → ¬ c = '#' ∧ ¬ c = '/' ∧ ¬ c = '\x7b' ∧ ¬ c = '\x7d') ∧
      trim h.value = h.value ∧ '\n' ∉ h.value)
    (hqps : ∀ p ∈ r.queryParams, p.enabled = true ∧ p.key ≠ [] ∧
      (∀ c ∈ p.key, c.toNat < 128) ∧ (∀ c ∈ p.value, c.toNat < 128))
    (hpre : ∀ p, r.preRequest = Option.some p →
      ∀ l ∈ splitLines p, startsWith (str ("\x7d\x7d")) (trim l) = false)
    (htst : ∀ t, r.tests = Option.some t →
      ∀ l ∈ splitLines t, startsWith (str ("\x7d\x7d")) (trim l) = false)
    (hbody : ∀ ℓ ∈ splitLines (bodyContentOf r.body),
      ¬ trim ℓ = str ("###") ∧ startsWith (str ("#")) (trim ℓ) = false ∧
      startsWith (str ("//")) (trim ℓ) = false ∧
      startsWith (str ("\x7b\x7b")) (trim ℓ) = false ∧
      startsWith (str ("\x7d\x7d")) (trim ℓ) = false ∧
      matchRequestLine (trim ℓ) = Option.none)
    (hbt1 : ∀ q v, ¬ r.body = RequestBody.graphql q v)
    (hbt2 : ∀ c, ¬ r.body = RequestBody.binary c) :
    (parseHttpText (generate r) Option.none).method = r.method ∧
    (parseHttpText (generate r) Option.none).url = r.url ∧
    (parseHttpText (generate r) Option.none).headers = r.headers ∧
    (parseHttpText (generate r) Option.none).queryParams = r.queryParams ∧
    bodyContentOf (parseHttpText (generate r) Option.none).body =
      trim (bodyContentOf r.body) := by
  obtain ⟨hm, hu, hh, hq, hb, htr⟩ := roundtrip_state r
    ((splitLines (generate r)).foldl processLine (initParseState Option.none)) rfl
    hurl hurlt hqurl hnl hname hdesc htags hheaders hqps hpre htst hbody hbt1 hbt2
  set F := (splitLines (generate r)).foldl processLine (initParseState Option.none) with hF
  have hpt : parseHttpText (generate r) Option.none = finishRequest F := rfl
  obtain ⟨f1, f2, f3, f4⟩ := finishRequest_fields F
  refine ⟨by rw [hpt, f1, hm], by rw [hpt, f2, hu], by rw [hpt, f3, hh],
    by rw [hpt, f4, hq], ?_⟩
  rw [hpt]
  by_cases h2 : trim (joinLines F.bodyLines) ≠ []
  · by_cases h1 : F.bodyLines ≠ []
    · rw [finishRequest_body_detect F h1 h2, bodyContentOf_detectBodyType, htr]
    · rw [Ne, Classical.not_not] at h1
      rw [h1] at h2
      exact absurd rfl h2
  · rw [Ne, Classical.not_not] at h2
    rw [finishRequest_body_empty F h2, hb]
    show bodyContentOf RequestBody.none = _
    rw [← htr, h2]
    rfl

/-- Closed witness for `roundtrip_amended`: a POST request with a
header, a query parameter with a space in its value, a JSON body, a
pre-request script and a test script round-trips through
`generate`/`parseHttpText`. -/
theorem roundtrip_amended_witness :
    (parseHttpText (generate
      { name := str ("W"), description := Option.none, tags := Option.none,
        method := HttpMethod.POST, url := str ("http://x"),
        headers := [⟨str ("X-A"), str ("1"), true⟩],
        queryParams := [⟨str ("a"), str ("b c"), true⟩],
        body := RequestBody.json (str ("\x7b\"k\": 1\x7d")),
        preRequest := Option.some (str ("ctx.a = 1")),
        tests := Option.some (str ("assert(1)")),
        fileUri := Option.none }) Option.none).method = HttpMethod.POST ∧
    (parseHttpText (generate
      { name := str ("W"), description := Option.none, tags := Option.none,
        method := HttpMethod.POST, url := str ("http://x"),
        headers := [⟨str ("X-A"), str ("1"), true⟩],
        queryParams := [⟨str ("a"), str ("b c"), true⟩],
        body := RequestBody.json (str ("\x7b\"k\": 1\x7d")),
        preRequest := Option.some (str ("ctx.a = 1")),
        tests := Option.some (str ("assert(1)")),
        fileUri := Option.none }) Option.none).url = str ("http://x") ∧
    (parseHttpText (generate
      { name := str ("W"), description := Option.none, tags := Option.none,
        method := HttpMethod.POST, url := str ("http://x"),
        headers := [⟨str ("X-A"), str ("1"), true⟩],
        queryParams := [⟨str ("a"), str ("b c"), true⟩],
        body := RequestBody.json (str ("\x7b\"k\": 1\x7d")),
        preRequest := Option.some (str ("ctx.a = 1")),
        tests := Option.some (str ("assert(1)")),
        fileUri := Option.none }) Option.none).headers =
      [⟨str ("X-A"), str ("1"), true⟩] ∧
    (parseHttpText (generate
      { name := str ("W"), description := Option.none, tags := Option.none,
        method := HttpMethod.POST, url := str ("http://x"),
        headers := [⟨str ("X-A"), str ("1"), true⟩],
        queryParams := [⟨str ("a"), str ("b c"), true⟩],
        body := RequestBody.json (str ("\x7b\"k\": 1\x7d")),
        preRequest := Option.some (str ("ctx.a = 1")),
        tests := Option.some (str ("assert(1)")),
        fileUri := Option.none }) Option.none).queryParams =
      [⟨str ("a"), str ("b c"), true⟩] ∧
    bodyContentOf (parseHttpText (generate
      { name := str ("W"), description := Option.none, tags := Option.none,
        method := HttpMethod.POST, url := str ("http://x"),
        headers := [⟨str ("X-A"), str ("1"), true⟩],
        queryParams := [⟨str ("a"), str ("b c"), true⟩],
        body := RequestBody.json (str ("\x7b\"k\": 1\x7d")),
        preRequest := Option.some (str ("ctx.a = 1")),
        tests := Option.some (str ("assert(1)")),
        fileUri := Option.none }) Option.none).body =
      trim (bodyContentOf (RequestBody.json (str ("\x7b\"k\": 1\x7d")))) :=
  roundtrip_amended
    { name := str ("W"), description := Option.none, tags := Option.none,
      method := HttpMethod.POST, url := str ("http://x"),
      headers := [⟨str ("X-A"), str ("1"), true⟩],
      queryParams := [⟨str ("a"), str ("b c"), true⟩],
      body := RequestBody.json (str ("\x7b\"k\": 1\x7d")),
      preRequest := Option.some (str ("ctx.a = 1")),
      tests := Option.some (str ("assert(1)")),
      fileUri := Option.none }
    (by decide) (by decide) (by decide) (by decide) (by decide)
    (fun d h => nomatch h) (fun ts h => nomatch h)
    (by
      intro h hh
      have hh2 : h = ⟨str ("X-A"), str ("1"), true⟩ := by simpa using hh
      subst hh2
      refine ⟨rfl, by decide, by decide, ?_, by decide, by decide⟩
      intro c hc
      rw [← hc]
      decide)
    (by decide)
    (by
      intro p hp
      cases hp
      decide)
    (by
      intro t ht
      cases ht
      decide)
    (by decide)
    (fun q v h => nomatch h) (fun c h => nomatch h)
